import Mathlib

/-!
# go-storage: a verification development

A shallow embedding of the `djangulo/go-storage` driver abstraction:

* the Go string and path helpers the drivers call (`strings.TrimPrefix`,
  `strings.Split`, `strings.ToLower`, `filepath.Clean`, `filepath.Join`,
  `filepath.Dir`, `filepath.Ext`), over strings as lists of runes, with the
  UTF-8 encoding and the lower-case ranges of `unicode` they rest on;
* a model of the on-disk state the filesystem driver works on, with the
  `os` calls of the driver (`Stat`, `MkdirAll`, `Create`, `Open`, `Remove`);
* `net/url` parsing as far as the drivers read it (scheme, path, query);
* the two package expressions `parsere`, with Go's leftmost-first matching,
  and the S3 client as a state machine;
* the repository's own functions: `util.ParseCommaSeparatedQuery`,
  `util.BucketExists`, `storage.ResolveContentType`, the registry
  (`storage.Register`, `storage.Open`), the filesystem driver
  (`fs.Filesystem`), and the object-store drivers (`awss3.parseURL`,
  `dospace.parseURL`, and the file and container methods of
  `awss3.S3Storage` and `dospace.DOSpace`).

Stateful code is written in state-passing style: a method takes the state
it reads and returns the state it leaves behind.
-/

set_option autoImplicit false

namespace GoStorage

/-- A Go string, as the list of its runes: the code points of its text. The
bytes of a string are those of its UTF-8 encoding (`utf8.bytes`), and bytes
are read back as a `range` loop reads them (`utf8.runes`). -/
abbrev Str := List Char

/-! ## `unicode/utf8` and `unicode` -/

namespace utf8

/-- Go `utf8.RuneError`: the replacement character U+FFFD. -/
def RuneError : Char := Char.ofNat 0xFFFD

/-- Go `utf8.AppendRune` on a valid code point: the bytes of its encoding. -/
def encodeRune (c : Char) : List Nat :=
  if c.toNat < 0x80 then [c.toNat]
  else if c.toNat < 0x800 then [0xC0 + c.toNat / 64, 0x80 + c.toNat % 64]
  else if c.toNat < 0x10000 then
    [0xE0 + c.toNat / 4096, 0x80 + c.toNat / 64 % 64, 0x80 + c.toNat % 64]
  else
    [0xF0 + c.toNat / 262144, 0x80 + c.toNat / 4096 % 64, 0x80 + c.toNat / 64 % 64,
      0x80 + c.toNat % 64]

/-- The bytes of a string. -/
def bytes (s : Str) : List Nat := s.flatMap encodeRune

/-- The number of bytes of the encoding that starts with byte `b0`, after
Go's table `first`; 0 for a byte that starts no encoding. -/
def size (b0 : Nat) : Nat :=
  if b0 < 0x80 then 1
  else if 0xC2 ≤ b0 ∧ b0 ≤ 0xDF then 2
  else if 0xE0 ≤ b0 ∧ b0 ≤ 0xEF then 3
  else if 0xF0 ≤ b0 ∧ b0 ≤ 0xF4 then 4
  else 0

/-- Whether `b1` may follow the first byte `b0`: Go's `acceptRanges`. -/
def accepts (b0 b1 : Nat) : Bool :=
  if b0 = 0xE0 then 0xA0 ≤ b1 && b1 ≤ 0xBF
  else if b0 = 0xED then 0x80 ≤ b1 && b1 ≤ 0x9F
  else if b0 = 0xF0 then 0x90 ≤ b1 && b1 ≤ 0xBF
  else if b0 = 0xF4 then 0x80 ≤ b1 && b1 ≤ 0x8F
  else 0x80 ≤ b1 && b1 ≤ 0xBF

/-- Whether `b` is a continuation byte. -/
def isCont (b : Nat) : Bool := 0x80 ≤ b && b ≤ 0xBF

/-- The runes of a string given by its bytes, as a `range` loop yields them
(Go `utf8.DecodeRuneInString` applied along the string): a byte that is not
part of a valid encoding yields `RuneError` and is passed alone. -/
def runes : List Nat → Str
  | [] => []
  | b0 :: rest =>
    if b0 < 0x80 then Char.ofNat b0 :: runes rest
    else
      match size b0, rest with
      | 2, b1 :: r1 =>
        if accepts b0 b1 then Char.ofNat (b0 % 32 * 64 + b1 % 64) :: runes r1
        else RuneError :: runes (b1 :: r1)
      | 3, b1 :: b2 :: r2 =>
        if accepts b0 b1 && isCont b2 then
          Char.ofNat (b0 % 16 * 4096 + b1 % 64 * 64 + b2 % 64) :: runes r2
        else RuneError :: runes (b1 :: b2 :: r2)
      | 4, b1 :: b2 :: b3 :: r3 =>
        if accepts b0 b1 && isCont b2 && isCont b3 then
          Char.ofNat (b0 % 8 * 262144 + b1 % 64 * 4096 + b2 % 64 * 64 + b3 % 64) :: runes r3
        else RuneError :: runes (b1 :: b2 :: b3 :: r3)
      | _, rest1 => RuneError :: runes rest1

end utf8

namespace unicode

/-- The lower-case part of Go's `unicode.CaseRanges`, after the simple
lower-case mappings of the Unicode character database (version 14.0): the
code points from `Lo` to `Hi` with the distance to their lower-case form, or
`none` for an Upper-Lower sequence, in which the letters at even offsets are
upper case and each is followed by its lower-case form. -/
def CaseRanges : List (Nat × Nat × Option Int) := [
  (0x00C0, 0x00D6, some 32), (0x00D8, 0x00DE, some 32), (0x0100, 0x012F, none),
  (0x0130, 0x0130, some (-199)), (0x0132, 0x0137, none), (0x0139, 0x0148, none),
  (0x014A, 0x0177, none), (0x0178, 0x0178, some (-121)), (0x0179, 0x017E, none),
  (0x0181, 0x0181, some 210), (0x0182, 0x0185, none), (0x0186, 0x0186, some 206),
  (0x0187, 0x0187, some 1), (0x0189, 0x018A, some 205), (0x018B, 0x018B, some 1),
  (0x018E, 0x018E, some 79), (0x018F, 0x018F, some 202), (0x0190, 0x0190, some 203),
  (0x0191, 0x0191, some 1), (0x0193, 0x0193, some 205), (0x0194, 0x0194, some 207),
  (0x0196, 0x0196, some 211), (0x0197, 0x0197, some 209), (0x0198, 0x0198, some 1),
  (0x019C, 0x019C, some 211), (0x019D, 0x019D, some 213), (0x019F, 0x019F, some 214),
  (0x01A0, 0x01A5, none), (0x01A6, 0x01A6, some 218), (0x01A7, 0x01A7, some 1),
  (0x01A9, 0x01A9, some 218), (0x01AC, 0x01AC, some 1), (0x01AE, 0x01AE, some 218),
  (0x01AF, 0x01AF, some 1), (0x01B1, 0x01B2, some 217), (0x01B3, 0x01B6, none),
  (0x01B7, 0x01B7, some 219), (0x01B8, 0x01B8, some 1), (0x01BC, 0x01BC, some 1),
  (0x01C4, 0x01C4, some 2), (0x01C5, 0x01C5, some 1), (0x01C7, 0x01C7, some 2),
  (0x01C8, 0x01C8, some 1), (0x01CA, 0x01CA, some 2), (0x01CB, 0x01DC, none),
  (0x01DE, 0x01EF, none), (0x01F1, 0x01F1, some 2), (0x01F2, 0x01F5, none),
  (0x01F6, 0x01F6, some (-97)), (0x01F7, 0x01F7, some (-56)), (0x01F8, 0x021F, none),
  (0x0220, 0x0220, some (-130)), (0x0222, 0x0233, none), (0x023A, 0x023A, some 10795),
  (0x023B, 0x023B, some 1), (0x023D, 0x023D, some (-163)), (0x023E, 0x023E, some 10792),
  (0x0241, 0x0241, some 1), (0x0243, 0x0243, some (-195)), (0x0244, 0x0244, some 69),
  (0x0245, 0x0245, some 71), (0x0246, 0x024F, none), (0x0370, 0x0373, none),
  (0x0376, 0x0376, some 1), (0x037F, 0x037F, some 116), (0x0386, 0x0386, some 38),
  (0x0388, 0x038A, some 37), (0x038C, 0x038C, some 64), (0x038E, 0x038F, some 63),
  (0x0391, 0x03A1, some 32), (0x03A3, 0x03AB, some 32), (0x03CF, 0x03CF, some 8),
  (0x03D8, 0x03EF, none), (0x03F4, 0x03F4, some (-60)), (0x03F7, 0x03F7, some 1),
  (0x03F9, 0x03F9, some (-7)), (0x03FA, 0x03FA, some 1), (0x03FD, 0x03FF, some (-130)),
  (0x0400, 0x040F, some 80), (0x0410, 0x042F, some 32), (0x0460, 0x0481, none),
  (0x048A, 0x04BF, none), (0x04C0, 0x04C0, some 15), (0x04C1, 0x04CE, none),
  (0x04D0, 0x052F, none), (0x0531, 0x0556, some 48), (0x10A0, 0x10C5, some 7264),
  (0x10C7, 0x10C7, some 7264), (0x10CD, 0x10CD, some 7264), (0x13A0, 0x13EF, some 38864),
  (0x13F0, 0x13F5, some 8), (0x1C90, 0x1CBA, some (-3008)), (0x1CBD, 0x1CBF, some (-3008)),
  (0x1E00, 0x1E95, none), (0x1E9E, 0x1E9E, some (-7615)), (0x1EA0, 0x1EFF, none),
  (0x1F08, 0x1F0F, some (-8)), (0x1F18, 0x1F1D, some (-8)), (0x1F28, 0x1F2F, some (-8)),
  (0x1F38, 0x1F3F, some (-8)), (0x1F48, 0x1F4D, some (-8)), (0x1F59, 0x1F59, some (-8)),
  (0x1F5B, 0x1F5B, some (-8)), (0x1F5D, 0x1F5D, some (-8)), (0x1F5F, 0x1F5F, some (-8)),
  (0x1F68, 0x1F6F, some (-8)), (0x1F88, 0x1F8F, some (-8)), (0x1F98, 0x1F9F, some (-8)),
  (0x1FA8, 0x1FAF, some (-8)), (0x1FB8, 0x1FB9, some (-8)), (0x1FBA, 0x1FBB, some (-74)),
  (0x1FBC, 0x1FBC, some (-9)), (0x1FC8, 0x1FCB, some (-86)), (0x1FCC, 0x1FCC, some (-9)),
  (0x1FD8, 0x1FD9, some (-8)), (0x1FDA, 0x1FDB, some (-100)), (0x1FE8, 0x1FE9, some (-8)),
  (0x1FEA, 0x1FEB, some (-112)), (0x1FEC, 0x1FEC, some (-7)), (0x1FF8, 0x1FF9, some (-128)),
  (0x1FFA, 0x1FFB, some (-126)), (0x1FFC, 0x1FFC, some (-9)), (0x2126, 0x2126, some (-7517)),
  (0x212A, 0x212A, some (-8383)), (0x212B, 0x212B, some (-8262)), (0x2132, 0x2132, some 28),
  (0x2160, 0x216F, some 16), (0x2183, 0x2183, some 1), (0x24B6, 0x24CF, some 26),
  (0x2C00, 0x2C2F, some 48), (0x2C60, 0x2C60, some 1), (0x2C62, 0x2C62, some (-10743)),
  (0x2C63, 0x2C63, some (-3814)), (0x2C64, 0x2C64, some (-10727)), (0x2C67, 0x2C6C, none),
  (0x2C6D, 0x2C6D, some (-10780)), (0x2C6E, 0x2C6E, some (-10749)),
  (0x2C6F, 0x2C6F, some (-10783)), (0x2C70, 0x2C70, some (-10782)), (0x2C72, 0x2C72, some 1),
  (0x2C75, 0x2C75, some 1), (0x2C7E, 0x2C7F, some (-10815)), (0x2C80, 0x2CE3, none),
  (0x2CEB, 0x2CEE, none), (0x2CF2, 0x2CF2, some 1), (0xA640, 0xA66D, none),
  (0xA680, 0xA69B, none), (0xA722, 0xA72F, none), (0xA732, 0xA76F, none), (0xA779, 0xA77C, none),
  (0xA77D, 0xA77D, some (-35332)), (0xA77E, 0xA787, none), (0xA78B, 0xA78B, some 1),
  (0xA78D, 0xA78D, some (-42280)), (0xA790, 0xA793, none), (0xA796, 0xA7A9, none),
  (0xA7AA, 0xA7AA, some (-42308)), (0xA7AB, 0xA7AB, some (-42319)),
  (0xA7AC, 0xA7AC, some (-42315)), (0xA7AD, 0xA7AD, some (-42305)),
  (0xA7AE, 0xA7AE, some (-42308)), (0xA7B0, 0xA7B0, some (-42258)),
  (0xA7B1, 0xA7B1, some (-42282)), (0xA7B2, 0xA7B2, some (-42261)), (0xA7B3, 0xA7B3, some 928),
  (0xA7B4, 0xA7C3, none), (0xA7C4, 0xA7C4, some (-48)), (0xA7C5, 0xA7C5, some (-42307)),
  (0xA7C6, 0xA7C6, some (-35384)), (0xA7C7, 0xA7CA, none), (0xA7D0, 0xA7D0, some 1),
  (0xA7D6, 0xA7D9, none), (0xA7F5, 0xA7F5, some 1), (0xFF21, 0xFF3A, some 32),
  (0x10400, 0x10427, some 40), (0x104B0, 0x104D3, some 40), (0x10570, 0x1057A, some 39),
  (0x1057C, 0x1058A, some 39), (0x1058C, 0x10592, some 39), (0x10594, 0x10595, some 39),
  (0x10C80, 0x10CB2, some 64), (0x118A0, 0x118BF, some 32), (0x16E40, 0x16E5F, some 32),
  (0x1E900, 0x1E921, some 34)]

/-- Go `unicode.ToLower(r)`: the ASCII letters directly, any other rune by
the range that holds it. -/
def ToLower (r : Char) : Char :=
  if r.toNat ≤ 0x7F then
    if 'A' ≤ r ∧ r ≤ 'Z' then Char.ofNat (r.toNat + 32) else r
  else
    match CaseRanges.find? (fun cr => decide (cr.1 ≤ r.toNat ∧ r.toNat ≤ cr.2.1)) with
    | some (_, _, some delta) => Char.ofNat ((r.toNat : Int) + delta).toNat
    | some (lo, _, none) => Char.ofNat (lo + ((r.toNat - lo) / 2 * 2 + 1))
    | none => r

end unicode

/-! ## `strings` -/

namespace strings

/-- Go `strings.HasPrefix(s, p)`. -/
def HasPrefix : Str → Str → Bool
  | _, [] => true
  | [], _ :: _ => false
  | c :: s, d :: p => c == d && HasPrefix s p

/-- Go `strings.TrimPrefix(s, p)`: `s` without the leading `p`, or `s` itself
when `s` does not start with `p`. -/
def TrimPrefix (s p : Str) : Str :=
  if HasPrefix s p then s.drop p.length else s

/-- The pieces of `s` between occurrences of the separator character, with
`cur` the piece being read (kept reversed). -/
def splitAux (sep : Char) : Str → Str → List Str
  | [], cur => [cur.reverse]
  | c :: s, cur => if c = sep then cur.reverse :: splitAux sep s [] else splitAux sep s (c :: cur)

/-- Go `strings.Split(s, sep)` for a one-character separator: always at least
one piece, empty pieces kept. -/
def Split (s : Str) (sep : Char) : List Str := splitAux sep s []

/-- Go `strings.Join(elems, sep)`. -/
def Join : List Str → Str → Str
  | [], _ => []
  | [e], _ => e
  | e :: es, sep => e ++ sep ++ Join es sep

/-- Go `strings.ToLower(s)`: `unicode.ToLower` applied to every rune of `s`
(on a string of ASCII characters the byte loop of the source does the same). -/
def ToLower (s : Str) : Str := s.map unicode.ToLower

/-- Go `strings.Cut(s, sep)` for a one-character separator: the text before
and after the first separator, and whether one was found. -/
def Cut : Str → Char → Str × Str × Bool
  | [], _ => ([], [], false)
  | c :: s, sep =>
    if c = sep then ([], s, true)
    else
      let r := Cut s sep
      (c :: r.1, r.2.1, r.2.2)

end strings

/-! ## `path/filepath` (Unix) -/

namespace filepath

/-- One step of `Clean`, on path elements: `stack` holds the elements kept so
far, last one first. Empty and `.` elements are dropped; `..` removes the
last kept element when there is one that is not itself `..`, is kept when
the path is not rooted, and is dropped at the root of a rooted path. -/
def cleanStep (rooted : Bool) (stack : List Str) (e : Str) : List Str :=
  if e = [] ∨ e = ['.'] then stack
  else if e = ['.', '.'] then
    match stack with
    | top :: rest => if top = ['.', '.'] then e :: stack else rest
    | [] => if rooted then [] else [e]
  else e :: stack

/-- Go `filepath.Clean`: the shortest path name equivalent to `path` by
purely lexical processing. -/
def Clean (path : Str) : Str :=
  if path = [] then ['.']
  else
    let rooted := strings.HasPrefix path ['/']
    let stack := (strings.Split path '/').foldl (cleanStep rooted) []
    let body := strings.Join stack.reverse ['/']
    if rooted then '/' :: body
    else if body = [] then ['.'] else body

/-- Go `filepath.Join`: the elements from the first non-empty one on, joined
with separators and cleaned; the empty string when every element is empty. -/
def Join : List Str → Str
  | [] => []
  | e :: es => if e = [] then Join es else Clean (strings.Join (e :: es) ['/'])

/-- The text of `path` up to and including its last separator (reversed
input, so the scan runs from the end as in Go). -/
def dirPartRev : Str → Str
  | [] => []
  | c :: r => if c = '/' then c :: r else dirPartRev r

/-- Go `filepath.Dir`: all but the last element of `path`, cleaned. -/
def Dir (path : Str) : Str := Clean (dirPartRev path.reverse).reverse

/-- The scan of `filepath.Ext` from the end of the path: `acc` is the text
already passed. -/
def extRev : Str → Str → Str
  | [], _ => []
  | c :: r, acc => if c = '/' then [] else if c = '.' then c :: acc else extRev r (c :: acc)

/-- Go `filepath.Ext`: the suffix beginning at the final dot in the final
element of `path`; empty if there is no dot. -/
def Ext (path : Str) : Str := extRev path.reverse []

end filepath

/-! ## Errors -/

/-- The error numbers the model of `os` reports. -/
inductive Errno where
  | ENOENT
  | ENOTDIR
  | EEXIST
  | EISDIR
  | ENOTEMPTY
  | EINVAL
deriving DecidableEq, Repr

/-- The message of an error number, as Go prints it. -/
def Errno.text : Errno → Str
  | .ENOENT => "no such file or directory".toList
  | .ENOTDIR => "not a directory".toList
  | .EEXIST => "file exists".toList
  | .EISDIR => "is a directory".toList
  | .ENOTEMPTY => "directory not empty".toList
  | .EINVAL => "invalid argument".toList

/-- Go error values. `new` is an error made by `errors.New` or by `fmt.Errorf`
without `%w`; `wrap` is an error made by `fmt.Errorf` with one `%w` verb, its
text already formatted; `pathError` is the `*os.PathError` of a failed file
operation; `awsErr` is an `awserr.Error` of the AWS client, with its code. -/
inductive GoError where
  | new (text : Str)
  | wrap (text : Str) (inner : GoError)
  | pathError (op : Str) (path : Str) (errno : Errno)
  | awsErr (code : Str) (message : Str)
deriving DecidableEq, Repr

namespace GoError

/-- The string `err.Error()` returns. -/
def Error : GoError → Str
  | new t => t
  | wrap t _ => t
  | pathError op path e => op ++ " ".toList ++ path ++ ": ".toList ++ e.text
  | awsErr code message => code ++ ": ".toList ++ message

/-- Go `errors.Is(err, target)`: `target` is `err` or an error in the chain
`err` wraps. -/
def Is : GoError → GoError → Bool
  | new t, target => decide (new t = target)
  | wrap t inner, target => decide (wrap t inner = target) || Is inner target
  | pathError op path e, target => decide (pathError op path e = target)
  | awsErr code message, target => decide (awsErr code message = target)

end GoError

/-! ## The on-disk state and the `os` calls of the filesystem driver

Paths are the strings the driver passes to `os`; the driver always passes
the result of `filepath.Join`, so a path names its node directly. The root
directory and the working directory always exist. Permissions, limits on the
length of a name and device faults are outside the model: a call fails only
for what the disk holds (a missing directory, a file in the way, a name that
is taken). -/

/-- What a path names on disk. -/
inductive Node where
  | file (content : Str)
  | dir
deriving DecidableEq, Repr

/-- The disk: a finite map from paths to nodes, the first entry of a path
being the one in force. -/
abbrev Disk := List (Str × Node)

namespace Disk

/-- The entry stored for `p`. -/
def find (d : Disk) (p : Str) : Option Node :=
  match d with
  | [] => none
  | (q, n) :: rest => if q = p then some n else find rest p

/-- The node `p` names: `/` and `.` are always directories. -/
def node (d : Disk) (p : Str) : Option Node :=
  if p = ['/'] ∨ p = ['.'] then some Node.dir else d.find p

/-- The disk without any entry for `p`. -/
def erase (d : Disk) (p : Str) : Disk := d.filter (fun e => decide (e.1 ≠ p))

/-- The disk with `p` naming `n`. -/
def set (d : Disk) (p : Str) (n : Node) : Disk := (p, n) :: d.erase p

end Disk

namespace os

/-- The path with trailing separators and then its last element removed, as
`os.MkdirAll` scans it from the end (`path[:j]`, reversed). -/
def dropLastElemRev (path : Str) : Str :=
  (path.reverse.dropWhile (fun c => c == '/')).dropWhile (fun c => c != '/')

/-- The parent `os.MkdirAll` creates first: `path[:j-1]` when `j > 1`. -/
def parentOf (path : Str) : Option Str :=
  match dropLastElemRev path with
  | _ :: c :: r => some (c :: r).reverse
  | _ => none

/-- The error of looking up a path that names nothing: `ENOTDIR` when the
nearest existing ancestor is a file, `ENOENT` otherwise. -/
def lookupErr : Nat → Disk → Str → Errno
  | 0, _, _ => Errno.ENOENT
  | n + 1, d, p =>
    match parentOf p with
    | none => Errno.ENOENT
    | some q =>
      match d.node q with
      | some (Node.file _) => Errno.ENOTDIR
      | some Node.dir => Errno.ENOENT
      | none => lookupErr n d q

/-- Go `os.Stat(name)`: the node, or the error number of the failed lookup. -/
def Stat (d : Disk) (name : Str) : Except Errno Node :=
  if name = [] then .error Errno.ENOENT
  else
    match d.node name with
    | some n => .ok n
    | none => .error (lookupErr name.length d name)

/-- Go `os.IsNotExist(err)` on the error of an `os` call (`none` is `nil`). -/
def IsNotExist (err : Option Errno) : Bool := decide (err = some Errno.ENOENT)

/-- Go `os.IsExist(err)` on the error of an `os` call (`none` is `nil`): true
for the errors that report that a file already exists, false for `nil`. -/
def IsExist (err : Option Errno) : Bool :=
  decide (err = some Errno.EEXIST) || decide (err = some Errno.ENOTEMPTY)

/-- The error of a result, `none` for success. -/
def errOf {α : Type} : Except Errno α → Option Errno
  | .ok _ => none
  | .error e => some e

/-- Whether the directory that is to hold `path` exists: `none` when it does,
the error number otherwise. -/
def holderErr (d : Disk) (path : Str) : Option Errno :=
  match parentOf path with
  | none => none
  | some q =>
    match d.node q with
    | some Node.dir => none
    | some (Node.file _) => some Errno.ENOTDIR
    | none => some (lookupErr q.length d q)

/-- Go `os.Mkdir(name)`. -/
def Mkdir (d : Disk) (name : Str) : Option Errno × Disk :=
  if name = [] then (some Errno.ENOENT, d)
  else
    match d.node name with
    | some _ => (some Errno.EEXIST, d)
    | none =>
      match holderErr d name with
      | some e => (some e, d)
      | none => (none, d.set name Node.dir)

/-- The recursion of `os.MkdirAll`: stop at an existing directory, fail at an
existing file, otherwise create the parent and then the directory itself. -/
def MkdirAllAux : Nat → Disk → Str → Option Errno × Disk
  | 0, d, _ => (some Errno.EINVAL, d)
  | n + 1, d, path =>
    match Stat d path with
    | .ok Node.dir => (none, d)
    | .ok (Node.file _) => (some Errno.ENOTDIR, d)
    | .error _ =>
      let r := match parentOf path with
        | some q => MkdirAllAux n d q
        | none => (none, d)
      match r with
      | (some e, d1) => (some e, d1)
      | (none, d1) =>
        match Mkdir d1 path with
        | (none, d2) => (none, d2)
        | (some e, d2) =>
          match d2.node path with
          | some Node.dir => (none, d2)
          | _ => (some e, d2)

/-- Go `os.MkdirAll(path, perm)`. The recursion runs on ever shorter paths,
so the length of the path bounds its depth. -/
def MkdirAll (d : Disk) (path : Str) : Option Errno × Disk :=
  MkdirAllAux (path.length + 1) d path

/-- Go `os.Create(name)`: the file is created, or truncated when it exists. -/
def Create (d : Disk) (name : Str) : Except Errno Disk :=
  if name = [] then .error Errno.ENOENT
  else
    match d.node name with
    | some Node.dir => .error Errno.EISDIR
    | some (Node.file _) => .ok (d.set name (Node.file []))
    | none =>
      match holderErr d name with
      | some e => .error e
      | none => .ok (d.set name (Node.file []))

/-- Go `os.Open(name)`: the node opened for reading. -/
def Open (d : Disk) (name : Str) : Except Errno Node := Stat d name

/-- Whether some node lies directly in directory `p`. -/
def hasChild (d : Disk) (p : Str) : Bool :=
  d.any (fun e => decide (parentOf e.1 = some p) && (d.find e.1).isSome)

/-- Go `os.Remove(name)`: removes the file or the empty directory. -/
def Remove (d : Disk) (name : Str) : Option Errno × Disk :=
  if name = [] then (some Errno.ENOENT, d)
  else if name = ['/'] ∨ name = ['.'] then (some Errno.EINVAL, d)
  else
    match d.node name with
    | none => (some (lookupErr name.length d name), d)
    | some (Node.file _) => (none, d.erase name)
    | some Node.dir => if hasChild d name then (some Errno.ENOTEMPTY, d) else (none, d.erase name)

end os

/-- A Go `io.Reader`: the bytes it yields and the error, if any, it ends
with instead of `io.EOF`. -/
structure Reader where
  data : Str
  err : Option GoError
deriving DecidableEq, Repr

/-- Go `strings.NewReader(s)`. -/
def strings.NewReader (s : Str) : Reader := ⟨s, none⟩

/-- Go `io.Copy(file, r)` into the open file at `name`: the bytes read are
written, and a read error is returned after them. -/
def io.Copy (d : Disk) (name : Str) (r : Reader) : Option GoError × Disk :=
  (r.err, d.set name (Node.file r.data))

/-- Go `ioutil.ReadAll` on an opened node. -/
def ioutil.ReadAll (name : Str) : Node → Except GoError Str
  | Node.file c => .ok c
  | Node.dir => .error (GoError.pathError "read".toList name Errno.EISDIR)

/-! ## Panics and formatting -/

/-- The outcome of a Go call that may panic instead of returning. -/
inductive Go (α : Type) where
  | done (a : α)
  | panic (msg : Str)
deriving DecidableEq, Repr

namespace fmt

/-- Go `%q` of a string without quotes, backslashes or control characters:
the string in double quotes. -/
def quote (s : Str) : Str := [Char.ofNat 34] ++ s ++ [Char.ofNat 34]

end fmt

/-! ## `net/url`

`url.Parse` and `URL.Query` as the drivers use them: the scheme, the path
and the query of a connection string. A percent escape decodes to one byte,
and the bytes of an unescaped string are read as UTF-8. Query strings are
split at `&` only, a pair holding `;` being dropped, as Go does since 1.17. -/

namespace url

/-- Go `url.Values`: the values of each query key, in order of appearance. -/
structure Values where
  entries : List (Str × List Str)
deriving DecidableEq, Repr

namespace Values

/-- The map lookup `q[key]`: `none` when the key is absent. -/
def lookup (q : Values) (key : Str) : Option (List Str) :=
  match q.entries.find? (fun e => decide (e.1 = key)) with
  | some e => some e.2
  | none => none

/-- Go `Values.Get`: the first value of the key, or the empty string. -/
def Get (q : Values) (key : Str) : Str :=
  match q.lookup key with
  | some (v :: _) => v
  | _ => []

/-- The entries after `m[key] = append(m[key], value)`. -/
def addEntry (key value : Str) : List (Str × List Str) → List (Str × List Str)
  | [] => [(key, [value])]
  | e :: rest => if e.1 = key then (e.1, e.2 ++ [value]) :: rest else e :: addEntry key value rest

/-- The statement `m[key] = append(m[key], value)`. -/
def add (q : Values) (key value : Str) : Values := ⟨addEntry key value q.entries⟩

end Values

/-- The parsed form of a URL; the user information is checked but not kept. -/
structure URL where
  Scheme : Str
  Opaque : Str
  Host : Str
  Path : Str
  RawQuery : Str
  Fragment : Str
deriving DecidableEq, Repr

/-- The modes of `unescape`. -/
inductive encoding where
  | encodePath
  | encodeUserPassword
  | encodeHost
  | encodeZone
  | encodeQueryComponent
  | encodeFragment
deriving DecidableEq, Repr

/-- Go `ishex`. -/
def ishex (c : Char) : Bool :=
  ('0' ≤ c && c ≤ '9') || ('a' ≤ c && c ≤ 'f') || ('A' ≤ c && c ≤ 'F')

/-- Go `unhex`. -/
def unhex (c : Char) : Nat :=
  if '0' ≤ c && c ≤ '9' then c.toNat - '0'.toNat
  else if 'a' ≤ c && c ≤ 'f' then c.toNat - 'a'.toNat + 10
  else if 'A' ≤ c && c ≤ 'F' then c.toNat - 'A'.toNat + 10
  else 0

/-- Go `shouldEscape(c, encodeHost)`: whether `c` may not stand in a host. -/
def shouldEscapeHost (c : Char) : Bool :=
  !(c.isAlphanum || decide (c ∈ "!$&()*+,;=:[]<>-_.~".toList) || c.toNat == 39 || c.toNat == 34)

/-- The error `EscapeError(s)`. -/
def EscapeError (s : Str) : GoError :=
  GoError.new ("invalid URL escape ".toList ++ fmt.quote s)

/-- The error `InvalidHostError(s)`. -/
def InvalidHostError (s : Str) : GoError :=
  GoError.new ("invalid character ".toList ++ fmt.quote s ++ " in host name".toList)

/-- The text `s[:3]` of an escape error: the first three bytes of `s`. -/
def escapeText (s : Str) : Str := utf8.runes ((utf8.bytes s).take 3)

/-- The bytes `unescape(s, mode)` writes: a percent escape gives the byte
with that code (and `+` a space in a query component), any other character
its own bytes; or the first malformed escape or forbidden host character as
an error. -/
def unescapeBytes (mode : encoding) : Str → Except GoError (List Nat)
  | [] => .ok []
  | c :: rest =>
    if c = '%' then
      match rest with
      | a :: b :: rest2 =>
        if !(ishex a && ishex b) then .error (EscapeError (escapeText (c :: a :: b :: rest2)))
        else if mode = encoding.encodeHost && unhex a < 8 && !(a = '2' && b = '5') then
          .error (EscapeError [c, a, b])
        else if mode = encoding.encodeZone && !(a = '2' && b = '5')
            && Char.ofNat (16 * unhex a + unhex b) != ' '
            && shouldEscapeHost (Char.ofNat (16 * unhex a + unhex b)) then
          .error (EscapeError [c, a, b])
        else
          match unescapeBytes mode rest2 with
          | .ok t => .ok ((16 * unhex a + unhex b) :: t)
          | .error e => .error e
      | _ => .error (EscapeError (escapeText (c :: rest)))
    else if (mode = encoding.encodeHost || mode = encoding.encodeZone)
        && c.toNat < 128 && shouldEscapeHost c then
      .error (InvalidHostError [c])
    else
      match unescapeBytes mode rest with
      | .ok t =>
        .ok (utf8.encodeRune (if c = '+' && mode = encoding.encodeQueryComponent then ' ' else c)
          ++ t)
      | .error e => .error e

/-- Go `unescape(s, mode)`: the string of the bytes written. -/
def unescape (mode : encoding) (s : Str) : Except GoError Str :=
  match unescapeBytes mode s with
  | .ok t => .ok (utf8.runes t)
  | .error e => .error e

/-- Go `QueryUnescape`. -/
def QueryUnescape (s : Str) : Except GoError Str := unescape encoding.encodeQueryComponent s

/-- The loop of `getScheme` over the characters from position `i` on, `seen`
being the characters before it (reversed). -/
def getSchemeAux : Str → Str → Str → Except GoError (Str × Str)
  | _, [], rawURL => .ok ([], rawURL)
  | seen, c :: rest, rawURL =>
    if c.isAlpha then getSchemeAux (c :: seen) rest rawURL
    else if c.isDigit || c = '+' || c = '-' || c = '.' then
      if seen = [] then .ok ([], rawURL) else getSchemeAux (c :: seen) rest rawURL
    else if c = ':' then
      if seen = [] then .error (GoError.new "missing protocol scheme".toList)
      else .ok (seen.reverse, rest)
    else .ok ([], rawURL)

/-- Go `getScheme(rawURL)`: the scheme before the first colon and the rest of
the URL, or no scheme when the text before the colon is not a scheme. -/
def getScheme (rawURL : Str) : Except GoError (Str × Str) := getSchemeAux [] rawURL rawURL

/-- Go `validOptionalPort`: empty, or a colon followed by digits. -/
def validOptionalPort : Str → Bool
  | [] => true
  | c :: digits => c = ':' && digits.all Char.isDigit

/-- Go `validUserinfo`. -/
def validUserinfo (s : Str) : Bool :=
  s.all (fun c => c.isAlphanum || decide (c ∈ "-._:~!$&()*+,;=%@".toList) || c.toNat == 39)

/-- The text from the last occurrence of `sep` on (with it), and the text
before it; `none` when `sep` does not occur. -/
def cutLast (s : Str) (sep : Char) : Option (Str × Str) :=
  match strings.Cut s.reverse sep with
  | (after, before, true) => some (before.reverse, sep :: after.reverse)
  | _ => none

/-- The text before the first `%25` of `s` and the text from it on. -/
def cutZone : Str → Option (Str × Str)
  | [] => none
  | c :: rest =>
    if strings.HasPrefix (c :: rest) "%25".toList then some ([], c :: rest)
    else
      match cutZone rest with
      | some (a, b) => some (c :: a, b)
      | none => none

/-- Go `parseHost`. -/
def parseHost (host : Str) : Except GoError Str :=
  if strings.HasPrefix host ['['] then
    match cutLast host ']' with
    | none => .error (GoError.new "missing ']' in host".toList)
    | some (inner, closing) =>
      if !validOptionalPort (closing.drop 1) then
        .error (GoError.new ("invalid port ".toList ++ fmt.quote (closing.drop 1)
          ++ " after host".toList))
      else
        match cutZone inner with
        | some (h1, h2) =>
          match unescape encoding.encodeHost h1, unescape encoding.encodeZone h2,
              unescape encoding.encodeHost closing with
          | .ok a, .ok b, .ok c => .ok (a ++ b ++ c)
          | .error e, _, _ => .error e
          | _, .error e, _ => .error e
          | _, _, .error e => .error e
        | none => unescape encoding.encodeHost host
  else
    match cutLast host ':' with
    | some (_, colonPort) =>
      if !validOptionalPort colonPort then
        .error (GoError.new ("invalid port ".toList ++ fmt.quote colonPort
          ++ " after host".toList))
      else unescape encoding.encodeHost host
    | none => unescape encoding.encodeHost host

/-- Go `parseAuthority`: the host, after the user information has been
checked. -/
def parseAuthority (authority : Str) : Except GoError Str :=
  match cutLast authority '@' with
  | none => parseHost authority
  | some (userinfo, atHost) =>
    match parseHost (atHost.drop 1) with
    | .error e => .error e
    | .ok host =>
      if !validUserinfo userinfo then .error (GoError.new "net/url: invalid userinfo".toList)
      else
        let up := strings.Cut userinfo ':'
        match unescape encoding.encodeUserPassword up.1,
            unescape encoding.encodeUserPassword up.2.1 with
        | .ok _, .ok _ => .ok host
        | .error e, _ => .error e
        | _, .error e => .error e

/-- The number of occurrences of a character. -/
def count (s : Str) (c : Char) : Nat := (s.filter (fun x => x == c)).length

/-- Go `parse(rawURL, false)`. -/
def parse (rawURL : Str) : Except GoError URL :=
  if rawURL.any (fun c => c.toNat < 32 || c.toNat == 127) then
    .error (GoError.new "net/url: invalid control character in URL".toList)
  else if rawURL = ['*'] then .ok ⟨[], [], [], ['*'], [], []⟩
  else
    match getScheme rawURL with
    | .error e => .error e
    | .ok (scheme, rest0) =>
      let scheme := strings.ToLower scheme
      let cutq :=
        if rest0.getLast? = some '?' && count rest0 '?' == 1 then (rest0.dropLast, [])
        else ((strings.Cut rest0 '?').1, (strings.Cut rest0 '?').2.1)
      let rest := cutq.1
      let rawQuery := cutq.2
      if !strings.HasPrefix rest ['/'] && scheme ≠ [] then
        .ok ⟨scheme, rest, [], [], rawQuery, []⟩
      else if !strings.HasPrefix rest ['/'] && decide (':' ∈ (strings.Cut rest '/').1) then
        .error (GoError.new "first path segment in URL cannot contain colon".toList)
      else if (scheme ≠ [] || !strings.HasPrefix rest "///".toList)
          && strings.HasPrefix rest "//".toList then
        let auth := strings.Cut (rest.drop 2) '/'
        let path := if auth.2.2 then '/' :: auth.2.1 else []
        match parseAuthority auth.1, unescape encoding.encodePath path with
        | .ok host, .ok p => .ok ⟨scheme, [], host, p, rawQuery, []⟩
        | .error e, _ => .error e
        | _, .error e => .error e
      else
        match unescape encoding.encodePath rest with
        | .ok p => .ok ⟨scheme, [], [], p, rawQuery, []⟩
        | .error e => .error e

/-- The `*url.Error` that `Parse` returns for a failed parse. -/
def parseError (urlText : Str) (err : GoError) : GoError :=
  GoError.wrap ("parse ".toList ++ fmt.quote urlText ++ ": ".toList ++ err.Error) err

/-- Go `url.Parse(rawURL)`. -/
def Parse (rawURL : Str) : Except GoError URL :=
  let cut := strings.Cut rawURL '#'
  match parse cut.1 with
  | .error e => .error (parseError cut.1 e)
  | .ok u =>
    if cut.2.1 = [] then .ok u
    else
      match unescape encoding.encodeFragment cut.2.1 with
      | .ok f => .ok { u with Fragment := f }
      | .error e => .error (parseError rawURL e)

/-- One round of the loop of `parseQuery`, for the pair `pair`. -/
def parseQueryStep (m : Values) (pair : Str) : Values :=
  if ';' ∈ pair then m
  else if pair = [] then m
  else
    let kv := strings.Cut pair '='
    match QueryUnescape kv.1, QueryUnescape kv.2.1 with
    | .ok key, .ok value => m.add key value
    | _, _ => m

/-- Go `ParseQuery(query)` without its error: the pairs between `&`, the
malformed ones dropped. -/
def ParseQuery (query : Str) : Values :=
  if query = [] then ⟨[]⟩ else (strings.Split query '&').foldl parseQueryStep ⟨[]⟩

/-- Go `(*URL).Query`. -/
def URL.Query (u : URL) : Values := ParseQuery u.RawQuery

end url

/-! ## `storage`: sentinel errors -/

namespace storage

/-- The sentinel `storage.ErrAlreadyExists`. -/
def ErrAlreadyExists : GoError := GoError.new "file already exists".toList

/-- The sentinel `storage.ErrInvalidExtension`. -/
def ErrInvalidExtension : GoError := GoError.new "invalid extension".toList

/-- The error `fmt.Errorf("%w %s", ErrInvalidExtension, ext)`. -/
def invalidExtension (ext : Str) : GoError :=
  GoError.wrap (ErrInvalidExtension.Error ++ " ".toList ++ ext) ErrInvalidExtension

/-- The error `fmt.Errorf("%w at %s", ErrAlreadyExists, key)`. -/
def alreadyExists (key : Str) : GoError :=
  GoError.wrap (ErrAlreadyExists.Error ++ " at ".toList ++ key) ErrAlreadyExists

end storage

/-! ## `providers/fs`: the filesystem driver -/

namespace fs

/-- The error `fmt.Errorf("go-storage: fs: %w", err)` of a failed `os` call. -/
def wrapOS (op : Str) (path : Str) (e : Errno) : GoError :=
  GoError.wrap ("go-storage: fs: ".toList ++ (GoError.pathError op path e).Error)
    (GoError.pathError op path e)

/-- The error `fmt.Errorf("go-storage: fs: %w", err)` of a failed read. -/
def wrapErr (e : GoError) : GoError :=
  GoError.wrap ("go-storage: fs: ".toList ++ e.Error) e

/-- The driver `fs.Filesystem`: the root folder on disk, the path to access
assets, and the accepted extensions (a Go `map[string]struct{}`, kept as the
list of its keys). -/
structure Filesystem where
  root : Str
  path : Str
  accept : List Str
deriving DecidableEq, Repr

namespace Filesystem

/-- Go `(*Filesystem).Path`. -/
def Path (fs : Filesystem) : Str := fs.path

/-- Go `(*Filesystem).Root`. -/
def Root (fs : Filesystem) : Str := fs.root

/-- Go `(*Filesystem).Accepts`: membership in the accept map. -/
def Accepts (fs : Filesystem) (ext : Str) : Bool := decide (ext ∈ fs.accept)

/-- Go `(*Filesystem).NormalizePath`. -/
def NormalizePath (fs : Filesystem) (entries : List Str) : Str :=
  filepath.Join (fs.path :: entries)

/-- Go `(*Filesystem).AddFile`, on the disk `d`: the returned path or the
error, and the disk the call leaves behind. -/
def AddFile (fs : Filesystem) (r : Reader) (path : Str) (d : Disk) : Except GoError Str × Disk :=
  let path := strings.TrimPrefix path fs.path
  let absPath := filepath.Join [fs.root, path]
  let dir := filepath.Dir absPath
  let made :=
    if os.IsNotExist (os.errOf (os.Stat d dir)) then os.MkdirAll d dir else (none, d)
  match made with
  | (some e, d1) => (.error (wrapOS "mkdir".toList dir e), d1)
  | (none, d1) =>
    if os.IsExist (os.errOf (os.Stat d1 absPath)) then
      (.error (storage.alreadyExists path), d1)
    else
      let ext := filepath.Ext absPath
      if !fs.Accepts ext then
        (.error (storage.invalidExtension ext), d1)
      else
        match os.Create d1 absPath with
        | .error e => (.error (wrapOS "open".toList absPath e), d1)
        | .ok d2 =>
          match io.Copy d2 absPath r with
          | (some e, d3) => (.error (wrapErr e), d3)
          | (none, d3) => (.ok (fs.NormalizePath [path]), d3)

/-- Go `(*Filesystem).RemoveFile`, on the disk `d`. -/
def RemoveFile (fs : Filesystem) (path : Str) (d : Disk) : Option GoError × Disk :=
  match os.Remove d (filepath.Join [fs.root, path]) with
  | (some e, d1) => (some (wrapOS "remove".toList (filepath.Join [fs.root, path]) e), d1)
  | (none, d1) => (none, d1)

/-- Go `(*Filesystem).GetFile`, on the disk `d`: the file opened for reading. -/
def GetFile (fs : Filesystem) (path : Str) (d : Disk) : Except GoError Node :=
  let path := strings.TrimPrefix path fs.path
  let path := filepath.Join [fs.root, path]
  match os.Open d path with
  | .error e => .error (wrapOS "open".toList path e)
  | .ok fh => .ok fh

end Filesystem

/-- Whether an error of the driver reports a missing file: it wraps a path
error with `ENOENT`, which is what `os.IsNotExist` and
`errors.Is(err, os.ErrNotExist)` test. -/
def IsNotFound : GoError → Bool
  | GoError.wrap _ (GoError.pathError _ _ Errno.ENOENT) => true
  | _ => false

end fs

/-! ## `internal/util` -/

namespace util

/-- The inner loops of `ParseCommaSeparatedQuery`: every non-empty piece of
every value is put in the set unless it is there already. -/
def addPieces (ret : List Str) (objects : List Str) : List Str :=
  objects.foldl
    (fun ret obj =>
      (strings.Split obj ',').foldl
        (fun ret a => if a ≠ [] then (if a ∈ ret then ret else a :: ret) else ret) ret)
    ret

/-- Go `util.ParseCommaSeparatedQuery(q, field, defaults...)`. The result is
a Go `map[string]struct{}`, kept as the list of its keys, each key once. -/
def ParseCommaSeparatedQuery (q : url.Values) (field : Str) (defaults : List Str) : List Str :=
  match q.lookup field with
  | none => defaults.foldl (fun ret d => if d ∈ ret then ret else d :: ret) []
  | some objects => addPieces [] objects

/-- The reference the specification gives for `ParseCommaSeparatedQuery`, as
a predicate on the members of the result: a default when the field is not a
key of the query, otherwise a non-empty piece of one of the field's values
split at commas. -/
def ParseCommaSeparatedQuery_spec (q : url.Values) (field : Str) (defaults : List Str)
    (x : Str) : Prop :=
  match q.lookup field with
  | none => x ∈ defaults
  | some objects => x ≠ [] ∧ ∃ obj ∈ objects, x ∈ strings.Split obj ','

end util

/-! ## `storage`: the content types -/

namespace storage

/-- The cases of the `switch` in `ResolveContentType`: the extensions of each
case and the content type it returns. -/
def contentTypes : List (List Str × Str) := [
  ([".aac".toList], "audio/aac".toList),
  ([".abw".toList], "application/x-abiword".toList),
  ([".arc".toList], "application/x-freearc".toList),
  ([".avi".toList], "video/x-msvideo".toList),
  ([".azw".toList], "application/vnd.amazon.ebook".toList),
  ([".bin".toList], "application/octet-stream".toList),
  ([".bmp".toList], "image/bmp".toList),
  ([".bz".toList], "application/x-bzip".toList),
  ([".bz2".toList], "application/x-bzip2".toList),
  ([".csh".toList], "application/x-csh".toList),
  ([".csv".toList], "text/csv".toList),
  ([".doc".toList], "application/msword".toList),
  ([".docx".toList], "application/vnd.openxmlformats-officedocument.wordprocessingml.document".toList),
  ([".eot".toList], "application/vnd.ms-fontobject".toList),
  ([".epub".toList], "application/epub+zip".toList),
  ([".gz".toList], "application/gzip".toList),
  ([".gif".toList], "image/gif".toList),
  ([".htm".toList], "text/html".toList),
  ([".html".toList], "text/html".toList),
  ([".ico".toList], "image/vnd.microsoft.icon".toList),
  ([".ics".toList], "text/calendar".toList),
  ([".jar".toList], "application/java-archive".toList),
  ([".jpg".toList, ".jpeg".toList], "image/jpeg".toList),
  ([".jsonld".toList], "application/ld+json".toList),
  ([".midi".toList, ".mid".toList], "audio/midi".toList),
  ([".mp3".toList], "audio/mpeg".toList),
  ([".mpeg".toList], "video/mpeg".toList),
  ([".mpkg".toList], "application/vnd.apple.installer+xml".toList),
  ([".odp".toList], "application/vnd.oasis.opendocument.presentation".toList),
  ([".ods".toList], "application/vnd.oasis.opendocument.spreadsheet".toList),
  ([".odt".toList], "application/vnd.oasis.opendocument.text".toList),
  ([".oga".toList], "audio/ogg".toList),
  ([".ogv".toList], "video/ogg".toList),
  ([".ogx".toList], "application/ogg".toList),
  ([".opus".toList], "audio/opus".toList),
  ([".otf".toList], "font/otf".toList),
  ([".png".toList], "image/png".toList),
  ([".pdf".toList], "application/pdf".toList),
  ([".php".toList], "application/x-httpd-php".toList),
  ([".ppt".toList], "application/vnd.ms-powerpoint".toList),
  ([".pptx".toList], "application/vnd.openxmlformats-officedocument.presentationml.presentation".toList),
  ([".rar".toList], "application/vnd.rar".toList),
  ([".rtf".toList], "application/rtf".toList),
  ([".sh".toList], "application/x-sh".toList),
  ([".svg".toList], "image/svg+xml".toList),
  ([".swf".toList], "application/x-shockwave-flash".toList),
  ([".tar".toList], "application/x-tar".toList),
  ([".tiff".toList, ".tif".toList], "image/tiff".toList),
  ([".ts".toList], "video/mp2t".toList),
  ([".ttf".toList], "font/ttf".toList),
  ([".vsd".toList], "application/vnd.visio".toList),
  ([".wav".toList], "audio/wav".toList),
  ([".weba".toList], "audio/webm".toList),
  ([".webm".toList], "video/webm".toList),
  ([".webp".toList], "image/webp".toList),
  ([".woff".toList], "font/woff".toList),
  ([".woff2".toList], "font/woff2".toList),
  ([".xhtml".toList], "application/xhtml+xml".toList),
  ([".xls".toList], "application/vnd.ms-excel".toList),
  ([".xlsx".toList], "application/vnd.openxmlformats-officedocument.spreadsheetml.sheet".toList),
  ([".xml".toList], "application/xml".toList),
  ([".xul".toList], "application/vnd.mozilla.xul+xml".toList),
  ([".zip".toList], "application/zip".toList),
  ([".3gp".toList], "video/3gpp".toList),
  ([".3g2".toList], "video/3gpp2".toList),
  ([".7z".toList], "application/x-7z-compressed".toList),
  ([".js".toList, ".mjs".toList], "text/javascript; charset=UTF-8".toList),
  ([".css".toList], "text/css; charset=UTF-8".toList),
  ([".json".toList], "application/json; charset=UTF-8".toList),
  ([".txt".toList], "text/plain; charset=UTF-8".toList)]

/-- Go `storage.ResolveContentType(path)`. -/
def ResolveContentType (path : Str) : Str :=
  match contentTypes.find? (fun c => decide (filepath.Ext path ∈ c.1)) with
  | some c => c.2
  | none => "text/html; charset=UTF-8".toList

end storage

/-! ## `storage`: the driver registry -/

namespace storage

/-- The package variable `drivers`: the prototype registered for each scheme.
`D` is the type of driver values (Go interface values). -/
abbrev Registry (D : Type) := Str → Option D

/-- The registry `init` leaves: `make(map[string]Driver)`. -/
def emptyRegistry (D : Type) : Registry D := fun _ => none

/-- Go `storage.Register(name, driver)`, on the registry `drivers`; a `nil`
driver is `none`. The call returns or panics, and leaves a registry. -/
def Register {D : Type} (drivers : Registry D) (name : Str) (driver : Option D) :
    Go Unit × Registry D :=
  match driver with
  | none => (Go.panic "storage: Register driver is nil".toList, drivers)
  | some drv =>
    match drivers name with
    | some _ => (Go.panic ("storage: register called twice for driver ".toList ++ name), drivers)
    | none => (Go.done (), fun k => if k = name then some drv else drivers k)

/-- Go `storage.Open(urlString)`, on the registry `drivers` and the state `w`
of everything the drivers work on. `OpenOf d` is the method `d.Open` of the
driver value `d`. -/
def Open {D W : Type} (OpenOf : D → Str → W → Go (Except GoError D) × W)
    (drivers : Registry D) (urlString : Str) (w : W) : Go (Except GoError D) × W :=
  match url.Parse urlString with
  | .error err => (Go.done (.error err), w)
  | .ok u =>
    if u.Scheme = [] then
      (Go.done (.error (GoError.new "storage: invalid URL scheme".toList)), w)
    else
      match drivers u.Scheme with
      | none =>
        (Go.done (.error (GoError.new ("storage: unknown driver ".toList ++ u.Scheme
          ++ " (forgotten import)".toList))), w)
      | some d => OpenOf d urlString w

/-- A series of `Register` calls, each on the registry the one before left
(a panic being recovered from). -/
def RegisterAll {D : Type} (drivers : Registry D) : List (Str × Option D) → Registry D
  | [] => drivers
  | (name, driver) :: calls => RegisterAll (Register drivers name driver).2 calls

end storage

/-! ## `providers/fs`: opening a driver -/

namespace os

/-- Go `os.TempDir()` with `TMPDIR` unset. -/
def TempDir : Str := "/tmp".toList

end os

namespace fs

/-- What the filesystem driver works on: the `Filesystem` objects of the
program by address, and the disk. -/
structure World where
  heap : Nat → Filesystem
  disk : Disk

/-- The `Filesystem` object `init` registers: `&Filesystem{}`. -/
def zeroFilesystem : Filesystem := ⟨[], [], []⟩

/-- Go `(*Filesystem).Open`, for the receiver at address `self`. -/
def Filesystem.Open (self : Nat) (urlString : Str) (w : World) :
    Go (Except GoError Nat) × World :=
  match url.Parse urlString with
  | .error err => (Go.done (.error err), w)
  | .ok u =>
    let q := u.Query
    let root := q.Get "root".toList
    let root := if root = [] then filepath.Join [os.TempDir, "assets".toList] else root
    let made :=
      if os.IsNotExist (os.errOf (os.Stat w.disk root)) then os.MkdirAll w.disk root
      else (none, w.disk)
    match made with
    | (some e, d1) => (Go.panic (GoError.pathError "mkdir".toList root e).Error, ⟨w.heap, d1⟩)
    | (none, d1) =>
      let obj : Filesystem :=
        ⟨root, u.Path, util.ParseCommaSeparatedQuery q "accept".toList
          [".jpeg".toList, ".jpg".toList, ".png".toList, ".svg".toList]⟩
      (Go.done (.ok self), ⟨fun a => if a = self then obj else w.heap a, d1⟩)

end fs

/-! ## `path` and `regexp` -/

namespace pathpkg

/-- Go `path.Join`, which on slash-separated paths is `filepath.Join`. -/
def Join (elem : List Str) : Str := filepath.Join elem

end pathpkg

namespace regexp

/-- A compiled regular expression with named groups, as the drivers use one:
the group names by index (`SubexpNames`) and the leftmost-first match with
its groups (`FindStringSubmatch`), `none` when the text does not match. -/
structure Regexp where
  subexpNames : List Str
  find : Str → Option (List Str)

namespace Regexp

/-- Go `(*Regexp).MatchString`. -/
def MatchString (re : Regexp) (s : Str) : Bool := (re.find s).isSome

/-- Go `(*Regexp).FindStringSubmatch`, with `nil` as the empty slice. -/
def FindStringSubmatch (re : Regexp) (s : Str) : List Str := (re.find s).getD []

/-- The index of the first name equal to `name`, counting from `i`. -/
def indexFrom (name : Str) : List Str → Int → Int
  | [], _ => -1
  | s :: rest, i => if name = s then i else indexFrom name rest (i + 1)

/-- Go `(*Regexp).SubexpIndex`: the index of the group with the given name,
or `-1`. -/
def SubexpIndex (re : Regexp) (name : Str) : Int :=
  if name ≠ [] then indexFrom name re.subexpNames 0 else -1

end Regexp

/-- The class `\w`. -/
def isWord (c : Char) : Bool := c.isAlphanum || c = '_'

/-- The class `[\w-_]`. -/
def isWordDash (c : Char) : Bool := isWord c || c = '-' || c = '_'

/-- A greedy `[class]+` that nothing of its class may follow: the longest run
of class characters at the start of `s`, and the rest; `none` for an empty
run. -/
def run (cls : Char → Bool) (s : Str) : Option (Str × Str) :=
  if s.takeWhile cls = [] then none else some (s.takeWhile cls, s.dropWhile cls)

end regexp

/-! ## The S3 client

The drivers reach the object store through `s3iface.S3API` and the upload
manager of the same session. The client is a state machine: each call takes
the state of the store and returns its answer and the state it leaves. -/

namespace s3

/-- The calls the drivers make. `BatchDelete` is the batch delete of the
upload manager over the list of all objects of a bucket
(`NewBatchDeleteWithClient(client).Delete` on a `NewDeleteListIterator`). -/
structure S3API (σ : Type) where
  HeadObject : (bucket key : Str) → σ → Option GoError × σ
  GetObject : (bucket key : Str) → σ → Except GoError Str × σ
  DeleteObject : (bucket key : Str) → σ → Option GoError × σ
  Upload : (bucket key : Str) → (body : Reader) → (acl contentType : Str) → σ →
    Option GoError × σ
  HeadBucket : (bucket : Str) → σ → Option GoError × σ
  DeleteBucket : (bucket : Str) → σ → Option GoError × σ
  BatchDelete : (bucket : Str) → σ → Option GoError × σ

/-- A call received by the in-memory store. -/
inductive Call where
  | headObject (bucket key : Str)
  | getObject (bucket key : Str)
  | deleteObject (bucket key : Str)
  | upload (bucket key : Str) (body : Str) (acl contentType : Str)
  | headBucket (bucket : Str)
  | deleteBucket (bucket : Str)
  | batchDelete (bucket : Str)
deriving DecidableEq, Repr

/-- An in-memory object store: the objects by bucket and key, the calls
received so far, latest first, and the buckets. -/
structure Store where
  objects : List ((Str × Str) × Str)
  calls : List Call
  buckets : List Str
deriving DecidableEq, Repr

/-- The constant `s3.ErrCodeNoSuchBucket`. -/
def ErrCodeNoSuchBucket : Str := "NoSuchBucket".toList

/-- The error of a call on a missing object or bucket. -/
def notFound : GoError := GoError.awsErr "NotFound".toList "Not Found".toList

/-- The error of deleting a bucket that holds objects. -/
def bucketNotEmpty : GoError :=
  GoError.awsErr "BucketNotEmpty".toList "The bucket you tried to delete is not empty".toList

/-- The error of a call the credentials do not allow. -/
def accessDenied : GoError := GoError.awsErr "AccessDenied".toList "Access Denied".toList

/-- Whether the bucket holds an object. -/
def holdsObjects (objects : List ((Str × Str) × Str)) (bucket : Str) : Bool :=
  objects.any (fun e => decide (e.1.1 = bucket))

namespace Store

/-- The store's answer to `HeadObject`. -/
def HeadObject (bucket key : Str) (st : Store) : Option GoError × Store :=
  (if (st.objects.lookup (bucket, key)).isSome then none else some notFound,
    ⟨st.objects, Call.headObject bucket key :: st.calls, st.buckets⟩)

/-- The store's answer to `GetObject`. -/
def GetObject (bucket key : Str) (st : Store) : Except GoError Str × Store :=
  (match st.objects.lookup (bucket, key) with
    | some body => .ok body
    | none => .error notFound,
    ⟨st.objects, Call.getObject bucket key :: st.calls, st.buckets⟩)

/-- The store's answer to `DeleteObject`. -/
def DeleteObject (bucket key : Str) (st : Store) : Option GoError × Store :=
  (none, ⟨st.objects.filter (fun e => decide (e.1 ≠ (bucket, key))),
    Call.deleteObject bucket key :: st.calls, st.buckets⟩)

/-- The store's answer to an upload. -/
def Upload (bucket key : Str) (body : Reader) (acl contentType : Str) (st : Store) :
    Option GoError × Store :=
  (body.err, ⟨((bucket, key), body.data) :: st.objects,
    Call.upload bucket key body.data acl contentType :: st.calls, st.buckets⟩)

/-- The store's answer to `HeadBucket`. -/
def HeadBucket (bucket : Str) (st : Store) : Option GoError × Store :=
  (if st.buckets.contains bucket then none else some notFound,
    ⟨st.objects, Call.headBucket bucket :: st.calls, st.buckets⟩)

/-- The store's answer to `DeleteBucket`: a bucket that holds objects is not
deleted. -/
def DeleteBucket (bucket : Str) (st : Store) : Option GoError × Store :=
  if holdsObjects st.objects bucket then
    (some bucketNotEmpty, ⟨st.objects, Call.deleteBucket bucket :: st.calls, st.buckets⟩)
  else
    (none, ⟨st.objects, Call.deleteBucket bucket :: st.calls,
      st.buckets.filter (fun b => decide (b ≠ bucket))⟩)

/-- The store's answer to the batch delete of all objects of a bucket. -/
def BatchDelete (bucket : Str) (st : Store) : Option GoError × Store :=
  (none, ⟨st.objects.filter (fun e => decide (e.1.1 ≠ bucket)),
    Call.batchDelete bucket :: st.calls, st.buckets⟩)

/-- The store's answer to a batch delete that the credentials do not allow:
the call fails and deletes nothing. -/
def BatchDeleteDenied (bucket : Str) (st : Store) : Option GoError × Store :=
  (some accessDenied, ⟨st.objects, Call.batchDelete bucket :: st.calls, st.buckets⟩)

end Store

/-- A client of the in-memory store. -/
def memClient : S3API Store :=
  ⟨Store.HeadObject, Store.GetObject, Store.DeleteObject, Store.Upload, Store.HeadBucket,
    Store.DeleteBucket, Store.BatchDelete⟩

/-- A client of the in-memory store whose credentials do not allow the batch
delete. -/
def readOnlyClient : S3API Store :=
  ⟨Store.HeadObject, Store.GetObject, Store.DeleteObject, Store.Upload, Store.HeadBucket,
    Store.DeleteBucket, Store.BatchDeleteDenied⟩

end s3

/-- Go `util.BucketExists(client, bucket)`, on the store state `st`. The
`switch` has no fallthrough: the case `"NotFound"` has an empty body and
leaves `exists` at its zero value. -/
def util.BucketExists {σ : Type} (client : s3.S3API σ) (bucket : Str) (st : σ) : Bool × σ :=
  if bucket = [] then (false, st)
  else
    match client.HeadBucket bucket st with
    | (err, st1) =>
      let exists0 := false
      let exists1 :=
        match err with
        | some (GoError.awsErr code _) =>
          if code = "NotFound".toList then exists0
          else if code = s3.ErrCodeNoSuchBucket then false
          else true
        | _ => exists0
      let exists2 := if err = none then true else exists1
      (exists2, st1)

/-! ## `providers/aws-s3` -/

namespace awss3

/-- The driver configuration `awss3.Config`. -/
structure Config where
  AutoBucketCreate : Bool
  Region : Str
  Bucket : Str
  Prefix : Str
  FileACL : Str
  accept : List Str
deriving DecidableEq, Repr

/-- The class `[a-z0-9-_]`. -/
def isBucketChar (c : Char) : Bool := c.isLower || c.isDigit || c = '-' || c = '_'

/-- The match of `^awss3://(?P<bucket>[a-z0-9-_]+)/(?P<prefix>[\w-_]+)`: the
whole match and the two groups. The separator is in neither class, so each
group is the longest run of its class. -/
def findParsere (s : Str) : Option (List Str) :=
  if strings.HasPrefix s "awss3://".toList then
    match regexp.run isBucketChar (s.drop 8) with
    | some (bucket, '/' :: rest) =>
      match regexp.run regexp.isWordDash rest with
      | some (pfx, _) => some ["awss3://".toList ++ bucket ++ ['/'] ++ pfx, bucket, pfx]
      | none => none
    | _ => none
  else none

/-- The package variable `parsere`. -/
def parsere : regexp.Regexp := ⟨[[], "bucket".toList, "prefix".toList], findParsere⟩

/-- The package variable `acceptableACL`. -/
def acceptableACL : List Str :=
  ["private".toList, "public-read".toList, "public-read-write".toList, "aws-exec-read".toList,
   "authenticated-read ".toList, "bucket-owner-read".toList,
   "bucket-owner-full-control".toList, "log-delivery-write".toList]

/-- The package variable `acceptableAutoCreate`. -/
def acceptableAutoCreate : List Str :=
  ["0".toList, "false".toList, "nil".toList, "disable".toList, "none".toList, "off".toList]

/-- The sentinel `awss3.ErrURLParse`. -/
def ErrURLParse : GoError := GoError.new "awss3: error parsing url".toList

/-- An error `fmt.Errorf("%w" + tail, ErrURLParse, ...)`, its tail formatted. -/
def parseErr (tail : Str) : GoError := GoError.wrap (ErrURLParse.Error ++ tail) ErrURLParse

/-- The defaults that `parseURL` overrides from the query. -/
def defaultAccept : List Str := [".jpeg".toList, ".jpg".toList, ".png".toList, ".svg".toList]

/-- The `acl` block of `parseURL`, on the configuration built so far. -/
def applyACL (q : url.Values) (c : Config) : Except GoError Config :=
  if q.Get "acl".toList ≠ [] then
    let acl := strings.ToLower (q.Get "acl".toList)
    if acl ∈ acceptableACL then .ok { c with FileACL := acl }
    else .error (parseErr (": unknown acl: ".toList ++ acl))
  else .ok c

/-- The `auto-create` block of `parseURL`, on the configuration built so far. -/
def applyAutoCreate (q : url.Values) (c : Config) : Except GoError Config :=
  if q.Get "auto-create".toList ≠ [] then
    let ac := strings.ToLower (q.Get "auto-create".toList)
    if ac ∈ acceptableAutoCreate then .ok { c with AutoBucketCreate := false }
    else .error (parseErr (": unknown auto-create value: ".toList ++ ac))
  else .ok c

/-- The names of the groups that `SubexpIndex` did not find. -/
def missingGroups (bucket pfx : Int) : List Str :=
  (if bucket = -1 then ["bucket".toList] else [])
    ++ (if pfx = -1 then ["prefix".toList] else [])

/-- Go `awss3.parseURL`. -/
def parseURL (urlString : Str) : Except GoError Config :=
  if !parsere.MatchString urlString then
    .error (parseErr ": url does not match \"aws://bucket/prefix\" format".toList)
  else
    let bucket := parsere.SubexpIndex "bucket".toList
    let pfx := parsere.SubexpIndex "prefix".toList
    if bucket = -1 ∨ pfx = -1 then
      .error (parseErr (": failed to parse ".toList ++ urlString
        ++ " into \"awss3://bucket/prefix\": missing ".toList
        ++ fmt.quote (strings.Join (missingGroups bucket pfx) [','])))
    else
      let m := parsere.FindStringSubmatch urlString
      let mPfx := m.getD pfx.toNat []
      let mPfx := if !strings.HasPrefix mPfx ['/'] then '/' :: mPfx else mPfx
      let c : Config :=
        { FileACL := "public-read".toList
          Region := "us-east-1".toList
          AutoBucketCreate := true
          Bucket := m.getD bucket.toNat []
          Prefix := mPfx
          accept := [] }
      match url.Parse urlString with
      | .error err => .error (parseErr (": ".toList ++ err.Error))
      | .ok u =>
        let q := u.Query
        let c := if q.Get "region".toList ≠ [] then { c with Region := q.Get "region".toList } else c
        match applyACL q c with
        | .error e => .error e
        | .ok c =>
          match applyAutoCreate q c with
          | .error e => .error e
          | .ok c =>
            .ok { c with accept := util.ParseCommaSeparatedQuery q "accept".toList defaultAccept }

/-- The driver `awss3.S3Storage`: its client and its configuration (the
session only serves to make the client and the uploader). -/
structure S3Storage (σ : Type) where
  client : s3.S3API σ
  config : Config

namespace S3Storage

variable {σ : Type}

/-- Go `(*S3Storage).Path`. -/
def Path (s : S3Storage σ) : Str :=
  "https://".toList ++ s.config.Bucket ++ ".s3.".toList ++ s.config.Region
    ++ ".amazonaws.com".toList ++ s.config.Prefix

/-- Go `(*S3Storage).Accepts`. -/
def Accepts (s : S3Storage σ) (ext : Str) : Bool := decide (ext ∈ s.config.accept)

/-- Go `(*S3Storage).NormalizePath`. -/
def NormalizePath (s : S3Storage σ) (entries : List Str) : Str :=
  pathpkg.Join (s.Path :: entries)

/-- Go `(*S3Storage).AddFile`, on the store state `st`. -/
def AddFile (s : S3Storage σ) (r : Reader) (p : Str) (st : σ) : Except GoError Str × σ :=
  if !s.Accepts (filepath.Ext p) then (.error (storage.invalidExtension (filepath.Ext p)), st)
  else
    let key := pathpkg.Join [s.config.Prefix, p]
    match s.client.HeadObject s.config.Bucket key st with
    | (none, st1) => (.error (storage.alreadyExists key), st1)
    | (some _, st1) =>
      match s.client.Upload s.config.Bucket key r s.config.FileACL
          (storage.ResolveContentType p) st1 with
      | (some err, st2) => (.error err, st2)
      | (none, st2) => (.ok (pathpkg.Join [s.Path, p]), st2)

/-- Go `(*S3Storage).RemoveFile`, on the store state `st`. -/
def RemoveFile (s : S3Storage σ) (p : Str) (st : σ) : Option GoError × σ :=
  s.client.DeleteObject s.config.Bucket (pathpkg.Join [s.config.Prefix, p]) st

/-- Go `(*S3Storage).GetFile`, on the store state `st`: the body of the object. -/
def GetFile (s : S3Storage σ) (p : Str) (st : σ) : Except GoError Str × σ :=
  s.client.GetObject s.config.Bucket (pathpkg.Join [s.config.Prefix, p]) st

/-- Go `(*S3Storage).EmtpyContainer`, on the store state `st`. -/
def EmtpyContainer (s : S3Storage σ) (st : σ) : Option GoError × σ :=
  match s.client.BatchDelete s.config.Bucket st with
  | (some err, st1) => (some err, st1)
  | (none, st1) => (none, st1)

/-- Go `(*S3Storage).DeleteContainer`, on the store state `st`. -/
def DeleteContainer (s : S3Storage σ) (st : σ) : Option GoError × σ :=
  match s.EmtpyContainer st with
  | (some err, st1) => (some err, st1)
  | (none, st1) =>
    match s.client.DeleteBucket s.config.Bucket st1 with
    | (some err, st2) => (some err, st2)
    | (none, st2) => (none, st2)

end S3Storage

end awss3

/-! ## `providers/do-space` -/

namespace dospace

/-- The driver configuration `dospace.Config`. -/
structure Config where
  AutoSpaceCreate : Bool
  Region : Str
  Space : Str
  Prefix : Str
  FileACL : Str
  key : Str
  secret : Str
  accept : List Str
deriving DecidableEq, Repr

/-- The class `[\w\+.-_]`: a word character, a plus sign, or a character in
the range from `.` to `_`. -/
def isSecretChar (c : Char) : Bool := regexp.isWord c || c = '+' || ('.' ≤ c && c ≤ '_')

/-- The match of `@(?P<space>[\w-_]+)/(?P<prefix>[\w-_]+)` at the start of
`s`: the two groups. -/
def findSpace (s : Str) : Option (Str × Str) :=
  match s with
  | '@' :: rest =>
    match regexp.run regexp.isWordDash rest with
    | some (space, '/' :: rest2) =>
      match regexp.run regexp.isWordDash rest2 with
      | some (pfx, _) => some (space, pfx)
      | none => none
    | _ => none
  | _ => none

/-- The match of `(?P<secret>[\w\+.-_]+)@(?P<space>…)/(?P<prefix>…)` at the
start of `s`. The class of the secret holds `@` and `/`, so the greedy group
is tried longest first and gives characters back until the rest matches. -/
def findSecret : Str → Option (Str × Str × Str)
  | [] => none
  | c :: s =>
    if isSecretChar c then
      match findSecret s with
      | some (secret, space, pfx) => some (c :: secret, space, pfx)
      | none =>
        match findSpace s with
        | some (space, pfx) => some ([c], space, pfx)
        | none => none
    else none

/-- The match of
`^do://(?P<key>[\w]+):(?P<secret>[\w\+.-_]+)@(?P<space>[\w-_]+)/(?P<prefix>[\w-_]+)`:
the whole match and the four groups. -/
def findParsere (s : Str) : Option (List Str) :=
  if strings.HasPrefix s "do://".toList then
    match regexp.run regexp.isWord (s.drop 5) with
    | some (key, ':' :: rest) =>
      match findSecret rest with
      | some (secret, space, pfx) =>
        some ["do://".toList ++ key ++ [':'] ++ secret ++ ['@'] ++ space ++ ['/'] ++ pfx,
          key, secret, space, pfx]
      | none => none
    | _ => none
  else none

/-- The package variable `parsere`. -/
def parsere : regexp.Regexp :=
  ⟨[[], "key".toList, "secret".toList, "space".toList, "prefix".toList], findParsere⟩

/-- The package variable `acceptableACL`. -/
def acceptableACL : List Str := ["private".toList, "public-read".toList]

/-- The package variable `acceptableAutoCreate`. -/
def acceptableAutoCreate : List Str :=
  ["0".toList, "false".toList, "nil".toList, "disable".toList, "none".toList, "off".toList]

/-- The package variable `acceptableRegions`. -/
def acceptableRegions : List Str :=
  ["ams1".toList, "ams2".toList, "ams3".toList, "lon1".toList, "nyc1".toList, "nyc2".toList,
   "nyc3".toList, "sfo1".toList, "sgp1".toList]

/-- The sentinel `dospace.ErrURLParse`. -/
def ErrURLParse : GoError := GoError.new "do: error parsing url".toList

/-- An error `fmt.Errorf("%w" + tail, ErrURLParse, ...)`, its tail formatted. -/
def parseErr (tail : Str) : GoError := GoError.wrap (ErrURLParse.Error ++ tail) ErrURLParse

/-- The defaults that `parseURL` overrides from the query. -/
def defaultAccept : List Str := [".jpeg".toList, ".jpg".toList, ".png".toList, ".svg".toList]

/-- The `acl` block of `parseURL`, on the configuration built so far. -/
def applyACL (q : url.Values) (c : Config) : Except GoError Config :=
  if q.Get "acl".toList ≠ [] then
    let acl := strings.ToLower (q.Get "acl".toList)
    if acl ∈ acceptableACL then .ok { c with FileACL := acl }
    else .error (parseErr (": unknown acl: ".toList ++ acl))
  else .ok c

/-- The `auto-create` block of `parseURL`, on the configuration built so far. -/
def applyAutoCreate (q : url.Values) (c : Config) : Except GoError Config :=
  if q.Get "auto-create".toList ≠ [] then
    let ac := strings.ToLower (q.Get "auto-create".toList)
    if ac ∈ acceptableAutoCreate then .ok { c with AutoSpaceCreate := false }
    else .error (parseErr (": unknown auto-create value: ".toList ++ ac))
  else .ok c

/-- The `region` block of `parseURL`, on the configuration built so far; the
value is looked up in `acceptableAutoCreate`, as the source does. -/
def applyRegion (q : url.Values) (c : Config) : Except GoError Config :=
  if q.Get "region".toList ≠ [] then
    let region := strings.ToLower (q.Get "region".toList)
    if region ∈ acceptableAutoCreate then .ok { c with Region := region }
    else .error (parseErr (": unknown region value: ".toList ++ region))
  else .ok c

/-- The names of the groups that `SubexpIndex` did not find. -/
def missingGroups (key secret space pfx : Int) : List Str :=
  (if key = -1 then ["key".toList] else [])
    ++ (if secret = -1 then ["secret".toList] else [])
    ++ (if space = -1 then ["space".toList] else [])
    ++ (if pfx = -1 then ["prefix".toList] else [])

/-- Go `dospace.parseURL`. -/
def parseURL (urlString : Str) : Except GoError Config :=
  if !parsere.MatchString urlString then
    .error (parseErr ": url does not match \"do://key:secret@space/prefix\" format".toList)
  else
    let key := parsere.SubexpIndex "key".toList
    let secret := parsere.SubexpIndex "secret".toList
    let space := parsere.SubexpIndex "space".toList
    let pfx := parsere.SubexpIndex "prefix".toList
    if key = -1 ∨ secret = -1 ∨ space = -1 ∨ pfx = -1 then
      .error (parseErr (": failed to parse ".toList ++ urlString
        ++ " into \"do://key:secret@space/prefix\": missing ".toList
        ++ fmt.quote (strings.Join (missingGroups key secret space pfx) [','])))
    else
      let m := parsere.FindStringSubmatch urlString
      let mPfx := m.getD pfx.toNat []
      let mPfx := if !strings.HasPrefix mPfx ['/'] then '/' :: mPfx else mPfx
      let c : Config :=
        { FileACL := "public-read".toList
          Region := "nyc3".toList
          AutoSpaceCreate := true
          Space := m.getD space.toNat []
          Prefix := mPfx
          key := m.getD key.toNat []
          secret := m.getD secret.toNat []
          accept := [] }
      match url.Parse urlString with
      | .error err => .error (parseErr (": ".toList ++ err.Error))
      | .ok u =>
        let q := u.Query
        match applyACL q c with
        | .error e => .error e
        | .ok c =>
          match applyAutoCreate q c with
          | .error e => .error e
          | .ok c =>
            match applyRegion q c with
            | .error e => .error e
            | .ok c =>
              .ok { c with
                accept := util.ParseCommaSeparatedQuery q "accept".toList defaultAccept }

/-- The driver `dospace.DOSpace`: its client and its configuration (the
session only serves to make the client and the uploader). -/
structure DOSpace (σ : Type) where
  client : s3.S3API σ
  config : Config

namespace DOSpace

variable {σ : Type}

/-- Go `(*DOSpace).Path`. -/
def Path (d : DOSpace σ) : Str :=
  "https://".toList ++ d.config.Space ++ ".".toList ++ d.config.Region
    ++ ".digitaloceanspaces.com".toList ++ d.config.Prefix

/-- Go `(*DOSpace).Accepts`. -/
def Accepts (d : DOSpace σ) (ext : Str) : Bool := decide (ext ∈ d.config.accept)

/-- Go `(*DOSpace).NormalizePath`. -/
def NormalizePath (d : DOSpace σ) (entries : List Str) : Str :=
  pathpkg.Join (d.Path :: entries)

/-- Go `(*DOSpace).RemoveFile`, on the store state `st`. -/
def RemoveFile (d : DOSpace σ) (p : Str) (st : σ) : Option GoError × σ :=
  d.client.DeleteObject d.config.Space (pathpkg.Join [d.config.Prefix, p]) st

/-- Go `(*DOSpace).GetFile`, on the store state `st`: the body of the object. -/
def GetFile (d : DOSpace σ) (p : Str) (st : σ) : Except GoError Str × σ :=
  d.client.GetObject d.config.Space (pathpkg.Join [d.config.Prefix, p]) st

/-- Go `(*DOSpace).EmtpyContainer`, on the store state `st`. -/
def EmtpyContainer (d : DOSpace σ) (st : σ) : Option GoError × σ :=
  match d.client.BatchDelete d.config.Space st with
  | (some err, st1) => (some err, st1)
  | (none, st1) => (none, st1)

/-- Go `(*DOSpace).DeleteContainer`, on the store state `st`. The named
result `err` is `nil` when the function starts, so its first test never
returns; `EmtpyContainer` is not called. -/
def DeleteContainer (d : DOSpace σ) (st : σ) : Option GoError × σ :=
  let err : Option GoError := none
  match err with
  | some e => (some e, st)
  | none =>
    match d.client.DeleteBucket d.config.Space st with
    | (some e, st1) => (some e, st1)
    | (none, st1) => (none, st1)

/-- Go `(*DOSpace).AddFile`, on the store state `st`. -/
def AddFile (d : DOSpace σ) (r : Reader) (p : Str) (st : σ) : Except GoError Str × σ :=
  if !d.Accepts (filepath.Ext p) then (.error (storage.invalidExtension (filepath.Ext p)), st)
  else
    let key := pathpkg.Join [d.config.Prefix, p]
    match d.client.HeadObject d.config.Space key st with
    | (none, st1) => (.error (storage.alreadyExists key), st1)
    | (some _, st1) =>
      match d.client.Upload d.config.Space key r d.config.FileACL
          (storage.ResolveContentType p) st1 with
      | (some err, st2) => (.error err, st2)
      | (none, st2) => (.ok (pathpkg.Join [d.Path, p]), st2)

end DOSpace

end dospace

/-! ## Example states -/

namespace Example

/-- The driver the conformance test opens: `fs://irrelevant/?accept=.txt&root=/tmp/fs_tests`. -/
def testDriver : fs.Filesystem := ⟨"/tmp/fs_tests".toList, "/".toList, [".txt".toList]⟩

/-- A driver that serves its files under `/assets`: `fs://host/assets?accept=.txt&root=/tmp/r`. -/
def assetsDriver : fs.Filesystem := ⟨"/tmp/r".toList, "/assets".toList, [".txt".toList]⟩

/-- A disk holding the empty root folders of the two example drivers. -/
def emptyRoots : Disk :=
  [("/tmp".toList, Node.dir), ("/tmp/fs_tests".toList, Node.dir), ("/tmp/r".toList, Node.dir)]

/-- The registry after `init` of package `fs`: the prototype, at address 0,
registered for the scheme `fs`. -/
def fsRegistry : storage.Registry Nat :=
  (storage.Register (storage.emptyRegistry Nat) "fs".toList (some 0)).2

/-- The world after `init` of package `fs`: every object is the zero
`Filesystem`, and the disk holds the example roots. -/
def initWorld : fs.World := ⟨fun _ => fs.zeroFilesystem, emptyRoots⟩

/-- The world after `storage.Open("fs:///a?root=/tmp/r1&accept=.txt")`. -/
def afterFirstOpen : fs.World :=
  (storage.Open fs.Filesystem.Open fsRegistry "fs:///a?root=/tmp/r1&accept=.txt".toList
    initWorld).2

/-- The world after a following `storage.Open("fs:///b?root=/tmp/r2&accept=.png")`. -/
def afterSecondOpen : fs.World :=
  (storage.Open fs.Filesystem.Open fsRegistry "fs:///b?root=/tmp/r2&accept=.png".toList
    afterFirstOpen).2

/-- An `awss3` driver on the in-memory store that accepts `.txt`. -/
def s3Driver : awss3.S3Storage s3.Store :=
  ⟨s3.memClient,
    { AutoBucketCreate := true
      Region := "us-east-1".toList
      Bucket := "testbucket".toList
      Prefix := "/assets".toList
      FileACL := "public-read".toList
      accept := [".txt".toList] }⟩

/-- A `do` driver on the in-memory store that accepts `.txt`. -/
def doDriver : dospace.DOSpace s3.Store :=
  ⟨s3.memClient,
    { AutoSpaceCreate := true
      Region := "nyc3".toList
      Space := "test-space".toList
      Prefix := "/assets".toList
      FileACL := "public-read".toList
      key := "mykey".toList
      secret := "mysecret".toList
      accept := [".txt".toList] }⟩

/-- The in-memory store with no object and no call received. -/
def emptyStore : s3.Store := ⟨[], [], []⟩

/-- The in-memory store holding the bucket `testbucket` and the space
`test-space`, each with one object under `/assets`. -/
def fullStore : s3.Store :=
  ⟨[(("testbucket".toList, "/assets/a.txt".toList), "hello world".toList),
    (("test-space".toList, "/assets/a.txt".toList), "hello world".toList)],
   [], ["testbucket".toList, "test-space".toList]⟩

/-- The `awss3` example driver with credentials that do not allow the batch
delete. -/
def s3ReadOnlyDriver : awss3.S3Storage s3.Store := ⟨s3.readOnlyClient, s3Driver.config⟩

/-- The query `?accept=.a,.b&accept=.c`. -/
def acceptQuery : url.Values := url.ParseQuery "accept=.a,.b&accept=.c".toList

end Example

/-! # Properties -/

/-! ## The disk map -/

theorem Disk.find_erase (d : Disk) (p q : Str) :
    (d.erase p).find q = if q = p then none else d.find q := by
  induction d with
  | nil => simp [Disk.erase, Disk.find]
  | cons e rest ih =>
    obtain ⟨k, n⟩ := e
    simp only [Disk.erase] at ih ⊢
    by_cases hk : k = p
    · subst hk
      by_cases hq : q = k
      · subst hq; simpa [List.filter, Disk.find] using ih
      · have hq' : ¬ k = q := fun h => hq h.symm
        simpa [List.filter, Disk.find, hq, hq'] using ih
    · by_cases hq : q = p
      · subst hq
        simpa [List.filter, Disk.find, hk] using ih
      · by_cases hkq : k = q
        · simp [List.filter, Disk.find, hk, hkq, hq]
        · simpa [List.filter, Disk.find, hk, hkq, hq] using ih

theorem Disk.find_set (d : Disk) (p q : Str) (n : Node) :
    (d.set p n).find q = if q = p then some n else d.find q := by
  by_cases hq : q = p
  · subst hq; simp [Disk.set, Disk.find]
  · have hq' : ¬ p = q := fun h => hq h.symm
    simp [Disk.set, Disk.find, hq, hq', Disk.find_erase]

theorem Disk.node_set_self (d : Disk) (p : Str) (n : Node) (h1 : p ≠ ['/']) (h2 : p ≠ ['.']) :
    (d.set p n).node p = some n := by
  simp [Disk.node, h1, h2, Disk.find_set]

theorem Disk.node_set_other (d : Disk) (p q : Str) (n : Node) (h : q ≠ p) :
    (d.set p n).node q = d.node q := by
  simp [Disk.node, Disk.find_set, h]

/-! ## The filesystem driver -/

/-- A successful `os.Create` names neither the empty path, nor `/`, nor `.`. -/
theorem os.Create_ok_name (d d1 : Disk) (name : Str) (h : os.Create d name = .ok d1) :
    name ≠ [] ∧ name ≠ ['/'] ∧ name ≠ ['.'] := by
  unfold os.Create at h
  refine ⟨?_, ?_, ?_⟩
  · rintro rfl; simp at h
  · rintro rfl; simp [Disk.node] at h
  · rintro rfl; simp [Disk.node] at h

/-! ### `os.MkdirAll` -/

theorem os.parentOf_length (p q : Str) (h : os.parentOf p = some q) :
    q ≠ [] ∧ q.length < p.length := by
  unfold os.parentOf at h
  split at h
  · rename_i x c r hd
    simp only [Option.some.injEq] at h
    subst h
    have hlen : (os.dropLastElemRev p).length ≤ p.length := by
      unfold os.dropLastElemRev
      calc ((p.reverse.dropWhile (fun c => c == '/')).dropWhile (fun c => c != '/')).length
          ≤ (p.reverse.dropWhile (fun c => c == '/')).length :=
            (List.dropWhile_sublist _).length_le
        _ ≤ p.reverse.length := (List.dropWhile_sublist _).length_le
        _ = p.length := List.length_reverse p
    rw [hd] at hlen
    constructor
    · simp
    · simp only [List.length_cons, List.length_reverse] at hlen ⊢
      omega
  · cases h

theorem os.lookupErr_fuel (d : Disk) (n m : Nat) (p : Str)
    (hn : p.length ≤ n) (hm : p.length ≤ m) : os.lookupErr n d p = os.lookupErr m d p := by
  induction n generalizing m p with
  | zero =>
    have hp : p = [] := List.eq_nil_of_length_eq_zero (Nat.le_zero.mp hn)
    subst hp
    cases m with
    | zero => rfl
    | succ m => simp [os.lookupErr, os.parentOf, os.dropLastElemRev]
  | succ n ih =>
    cases m with
    | zero =>
      have hp : p = [] := List.eq_nil_of_length_eq_zero (Nat.le_zero.mp hm)
      subst hp
      simp [os.lookupErr, os.parentOf, os.dropLastElemRev]
    | succ m =>
      unfold os.lookupErr
      cases hq : os.parentOf p with
      | none => rfl
      | some q =>
        have hl := (os.parentOf_length p q hq).2
        simp only
        cases d.node q with
        | none => exact ih m q (by omega) (by omega)
        | some nd => cases nd <;> rfl

theorem os.Stat_error (d : Disk) (name : Str) (e : Errno) (hne : name ≠ [])
    (h : os.Stat d name = .error e) :
    d.node name = none ∧ e = os.lookupErr name.length d name := by
  unfold os.Stat at h
  simp only [hne, if_false] at h
  cases hn : d.node name with
  | none =>
    rw [hn] at h
    simp only [Except.error.injEq] at h
    exact ⟨rfl, h.symm⟩
  | some nd => rw [hn] at h; cases h

theorem os.Stat_ok (d : Disk) (name : Str) (nd : Node) (h : os.Stat d name = .ok nd) :
    name ≠ [] ∧ d.node name = some nd := by
  unfold os.Stat at h
  split at h
  · cases h
  · rename_i hne
    refine ⟨hne, ?_⟩
    cases hn : d.node name with
    | none => rw [hn] at h; cases h
    | some nd1 => rw [hn] at h; simp only [Except.ok.injEq] at h; rw [h]

theorem Disk.node_none_ne (d : Disk) (p : Str) (h : d.node p = none) :
    p ≠ ['/'] ∧ p ≠ ['.'] := by
  constructor <;> (rintro rfl; simp [Disk.node] at h)

/-- What `os.Mkdir` does to the disk. -/
theorem os.Mkdir_frame (d d1 : Disk) (name : Str) (r : Option Errno)
    (h : os.Mkdir d name = (r, d1)) (q : Str) :
    d1.node q = d.node q ∨ (d.node q = none ∧ d1.node q = some Node.dir ∧ q = name) := by
  unfold os.Mkdir at h
  split at h
  · simp only [Prod.mk.injEq] at h; rw [← h.2]; exact Or.inl rfl
  · split at h
    · simp only [Prod.mk.injEq] at h; rw [← h.2]; exact Or.inl rfl
    · rename_i hnode
      split at h
      · simp only [Prod.mk.injEq] at h; rw [← h.2]; exact Or.inl rfl
      · simp only [Prod.mk.injEq] at h
        rw [← h.2]
        by_cases hq : q = name
        · subst hq
          obtain ⟨h1, h2⟩ := Disk.node_none_ne d q hnode
          exact Or.inr ⟨hnode, Disk.node_set_self d q _ h1 h2, rfl⟩
        · exact Or.inl (Disk.node_set_other d name q _ hq)

/-- What `os.MkdirAll` does to the disk: it only adds directories, at paths
no longer than its argument. -/
theorem os.MkdirAllAux_frame (n : Nat) (d d1 : Disk) (p : Str) (r : Option Errno)
    (h : os.MkdirAllAux n d p = (r, d1)) (q : Str) :
    d1.node q = d.node q
      ∨ (d.node q = none ∧ d1.node q = some Node.dir ∧ q.length ≤ p.length) := by
  induction n generalizing d d1 p r with
  | zero =>
    simp only [os.MkdirAllAux, Prod.mk.injEq] at h
    rw [← h.2]; exact Or.inl rfl
  | succ n ih =>
    unfold os.MkdirAllAux at h
    split at h
    · simp only [Prod.mk.injEq] at h; rw [← h.2]; exact Or.inl rfl
    · simp only [Prod.mk.injEq] at h; rw [← h.2]; exact Or.inl rfl
    · -- the parent step
      have hpar : ∀ (r0 : Option Errno) (d0 : Disk),
          (match os.parentOf p with
            | some q0 => os.MkdirAllAux n d q0
            | none => (none, d)) = (r0, d0) →
          (d0.node q = d.node q
            ∨ (d.node q = none ∧ d0.node q = some Node.dir ∧ q.length < p.length ∨
               d.node q = none ∧ d0.node q = some Node.dir ∧ q.length ≤ p.length)) := by
        intro r0 d0 h0
        cases hq : os.parentOf p with
        | none =>
          rw [hq] at h0
          simp only [Prod.mk.injEq] at h0
          rw [← h0.2]; exact Or.inl rfl
        | some q0 =>
          rw [hq] at h0
          have hl := (os.parentOf_length p q0 hq).2
          rcases ih d d0 q0 r0 h0 with h1 | ⟨h1, h2, h3⟩
          · exact Or.inl h1
          · exact Or.inr (Or.inl ⟨h1, h2, by omega⟩)
      generalize hgen : (match os.parentOf p with
            | some q0 => os.MkdirAllAux n d q0
            | none => (none, d)) = res at h
      obtain ⟨r0, d0⟩ := res
      have hp0 := hpar r0 d0 hgen
      have hp1 : d0.node q = d.node q
          ∨ (d.node q = none ∧ d0.node q = some Node.dir ∧ q.length ≤ p.length) := by
        rcases hp0 with h1 | ⟨h1, h2, h3⟩ | h1
        · exact Or.inl h1
        · exact Or.inr ⟨h1, h2, by omega⟩
        · exact Or.inr h1
      cases r0 with
      | some e =>
        simp only [Prod.mk.injEq] at h
        rw [← h.2]; exact hp1
      | none =>
        simp only at h
        generalize hmk : os.Mkdir d0 p = mk at h
        obtain ⟨r2, d2⟩ := mk
        have hfr := os.Mkdir_frame d0 d2 p r2 hmk q
        have hd2 : d1 = d2 := by
          cases r2 with
          | none => simp only [Prod.mk.injEq] at h; exact h.2.symm
          | some e =>
            simp only at h
            split at h <;> (simp only [Prod.mk.injEq] at h; exact h.2.symm)
        subst hd2
        rcases hfr with h1 | ⟨h1, h2, h3⟩
        · rw [h1]; exact hp1
        · rcases hp1 with h4 | ⟨h4, h5, h6⟩
          · exact Or.inr ⟨h4 ▸ h1, h2, by rw [h3]⟩
          · rw [h5] at h1; cases h1


theorem os.Mkdir_ok (d : Disk) (name : Str) (hne : name ≠ []) (hn : d.node name = none)
    (hh : os.holderErr d name = none) :
    os.Mkdir d name = (none, d.set name Node.dir) := by
  simp [os.Mkdir, hne, hn, hh]

/-- A successful `os.MkdirAll` leaves a directory at its argument. -/
theorem os.MkdirAllAux_post (n : Nat) (d d1 : Disk) (p : Str)
    (h : os.MkdirAllAux n d p = (none, d1)) : d1.node p = some Node.dir := by
  cases n with
  | zero => simp [os.MkdirAllAux] at h
  | succ n =>
    unfold os.MkdirAllAux at h
    split at h
    · rename_i hs
      simp only [Prod.mk.injEq, true_and] at h
      rw [← h]; exact (os.Stat_ok _ _ _ hs).2
    · simp at h
    · generalize (match os.parentOf p with
            | some q0 => os.MkdirAllAux n d q0
            | none => (none, d)) = res at h
      obtain ⟨r0, d0⟩ := res
      cases r0 with
      | some e => simp at h
      | none =>
        simp only at h
        generalize hmk : os.Mkdir d0 p = mk at h
        obtain ⟨r2, d2⟩ := mk
        cases r2 with
        | none =>
          simp only [Prod.mk.injEq, true_and] at h
          subst h
          unfold os.Mkdir at hmk
          split at hmk
          · simp at hmk
          · split at hmk
            · simp at hmk
            · rename_i hnode
              split at hmk
              · simp at hmk
              · simp only [Prod.mk.injEq, true_and] at hmk
                rw [← hmk]
                obtain ⟨h1, h2⟩ := Disk.node_none_ne d0 p hnode
                exact Disk.node_set_self d0 p _ h1 h2
        | some e =>
          simp only at h
          split at h
          · rename_i hdir
            simp only [Prod.mk.injEq, true_and] at h
            rw [← h]; exact hdir
          · simp at h

/-- The recursion of `os.MkdirAll` does not run out: when `os.Stat` reports
that a path does not exist, any bound above the length of the path lets it
create the directories, nothing on the modelled disk standing in the way. -/
theorem os.MkdirAllAux_ok (n : Nat) (d : Disk) (p : Str) (hne : p ≠ []) (hlen : p.length < n)
    (hs : os.Stat d p = .error Errno.ENOENT) : (os.MkdirAllAux n d p).1 = none := by
  induction n generalizing p d with
  | zero => omega
  | succ n ih =>
    obtain ⟨hnode, herr⟩ := os.Stat_error d p _ hne hs
    unfold os.MkdirAllAux
    rw [hs]
    simp only
    cases hq : os.parentOf p with
    | none =>
      simp only
      have hh : os.holderErr d p = none := by simp [os.holderErr, hq]
      rw [os.Mkdir_ok d p hne hnode hh]
    | some q =>
      obtain ⟨hqne, hql⟩ := os.parentOf_length p q hq
      simp only
      obtain ⟨k, hk⟩ : ∃ k, p.length = k + 1 :=
        ⟨p.length - 1, by have := List.length_pos.mpr hne; omega⟩
      rw [hk] at herr
      unfold os.lookupErr at herr
      rw [hq] at herr
      simp only at herr
      cases hnq : d.node q with
      | some nd =>
        rw [hnq] at herr
        cases nd with
        | file c => simp at herr
        | dir =>
          have hsq : os.Stat d q = .ok Node.dir := by simp [os.Stat, hqne, hnq]
          obtain ⟨n1, hn1⟩ : ∃ n1, n = n1 + 1 := ⟨n - 1, by omega⟩
          subst hn1
          have hrec : os.MkdirAllAux (n1 + 1) d q = (none, d) := by
            unfold os.MkdirAllAux
            rw [hsq]
          rw [hrec]
          simp only
          have hh : os.holderErr d p = none := by simp [os.holderErr, hq, hnq]
          rw [os.Mkdir_ok d p hne hnode hh]
      | none =>
        rw [hnq] at herr
        simp only at herr
        have hfuel := os.lookupErr_fuel d k q.length q (by omega) (Nat.le_refl _)
        have hsq : os.Stat d q = .error Errno.ENOENT := by
          simp [os.Stat, hqne, hnq, ← hfuel, ← herr]
        have hrec := ih d q hqne (by omega) hsq
        generalize hres : os.MkdirAllAux n d q = res at hrec
        obtain ⟨r0, d0⟩ := res
        simp only at hrec
        subst hrec
        simp only
        have hpost := os.MkdirAllAux_post n d d0 q hres
        have hp0 : d0.node p = none := by
          rcases os.MkdirAllAux_frame n d d0 q none hres p with h1 | ⟨-, -, h3⟩
          · rw [h1]; exact hnode
          · omega
        have hh : os.holderErr d0 p = none := by simp [os.holderErr, hq, hpost]
        rw [os.Mkdir_ok d0 p hne hp0 hh]


/-! ### The driver's methods -/

/-- C1: on the test driver, a second `AddFile` to `tests/test-0.txt` with no
`RemoveFile` in between does not fail with `ErrAlreadyExists`: it succeeds,
and the file then holds the second content, not the first. -/
theorem fs_AddFile_second_call_overwrites :
    (Example.testDriver.AddFile (strings.NewReader "hello world".toList)
        "tests/test-0.txt".toList Example.emptyRoots).1 = .ok "/tests/test-0.txt".toList ∧
    (Example.testDriver.AddFile (strings.NewReader "changed".toList) "tests/test-0.txt".toList
        (Example.testDriver.AddFile (strings.NewReader "hello world".toList)
          "tests/test-0.txt".toList Example.emptyRoots).2).1 = .ok "/tests/test-0.txt".toList ∧
    Example.testDriver.GetFile "tests/test-0.txt".toList
      (Example.testDriver.AddFile (strings.NewReader "changed".toList) "tests/test-0.txt".toList
        (Example.testDriver.AddFile (strings.NewReader "hello world".toList)
          "tests/test-0.txt".toList Example.emptyRoots).2).2
      = .ok (Node.file "changed".toList) := by
  refine ⟨?_, ?_, ?_⟩ <;> rfl

/-- The existence test of `fs.AddFile` never fires: `os.Stat` reports a
missing file or a file in the way, never that a file exists. -/
theorem os.IsExist_Stat (d : Disk) (name : Str) :
    os.IsExist (os.errOf (os.Stat d name)) = false := by
  have hl : ∀ n p, os.lookupErr n d p = Errno.ENOENT ∨ os.lookupErr n d p = Errno.ENOTDIR := by
    intro n
    induction n with
    | zero => intro p; simp [os.lookupErr]
    | succ n ih =>
      intro p
      unfold os.lookupErr
      split
      · simp
      · split
        · simp
        · simp
        · exact ih _
  unfold os.Stat
  split
  · simp [os.errOf, os.IsExist]
  · split
    · simp [os.errOf, os.IsExist]
    · rcases hl name.length name with h | h <;> simp [os.errOf, os.IsExist, h]

/-- C2: whenever `AddFile(c, p)` succeeds on the filesystem driver, `GetFile(p)`
with the same path string on the disk it leaves succeeds, and reading the
opened file gives back exactly `c`. -/
theorem fs_AddFile_GetFile_roundtrip (drv : fs.Filesystem) (c p ret : Str) (d d1 : Disk)
    (h : drv.AddFile (strings.NewReader c) p d = (.ok ret, d1)) :
    drv.GetFile p d1 = .ok (Node.file c)
      ∧ ioutil.ReadAll (filepath.Join [drv.root, strings.TrimPrefix p drv.path]) (Node.file c)
          = .ok c := by
  refine ⟨?_, rfl⟩
  unfold fs.Filesystem.AddFile at h
  simp only at h
  split at h
  · simp at h
  · split at h
    · simp at h
    · split at h
      · simp at h
      · split at h
        · simp at h
        · rename_i d2 hc
          obtain ⟨h1, h2, h3⟩ := os.Create_ok_name _ _ _ hc
          simp only [io.Copy, strings.NewReader] at h
          simp only [Prod.mk.injEq] at h
          obtain ⟨-, rfl⟩ := h
          simp [fs.Filesystem.GetFile, os.Open, os.Stat, h1, Disk.node_set_self _ _ _ h2 h3]

/-- The round trip of the conformance test: `hello world` written to
`tests/test-0.txt` is read back. -/
theorem fs_AddFile_GetFile_roundtrip_witness :
    Example.testDriver.GetFile "tests/test-0.txt".toList
        (Example.testDriver.AddFile (strings.NewReader "hello world".toList)
          "tests/test-0.txt".toList Example.emptyRoots).2
      = .ok (Node.file "hello world".toList) :=
  (fs_AddFile_GetFile_roundtrip Example.testDriver "hello world".toList
    "tests/test-0.txt".toList "/tests/test-0.txt".toList Example.emptyRoots _ rfl).1

/-- C3: on a driver whose `Path()` is `/assets`, after `AddFile` of
`/assets/a.txt` has succeeded, `RemoveFile` of the same path string fails with
a not-found error, because it looks under `<root>/assets/a.txt` while `AddFile`
wrote `<root>/a.txt`; the file stays, and `GetFile` still returns its content. -/
theorem fs_RemoveFile_misses_prefixed_path :
    (Example.assetsDriver.AddFile (strings.NewReader "hello world".toList)
        "/assets/a.txt".toList Example.emptyRoots).1 = .ok "/assets/a.txt".toList ∧
    (Example.assetsDriver.RemoveFile "/assets/a.txt".toList
        (Example.assetsDriver.AddFile (strings.NewReader "hello world".toList)
          "/assets/a.txt".toList Example.emptyRoots).2).1
      = some (fs.wrapOS "remove".toList "/tmp/r/assets/a.txt".toList Errno.ENOENT) ∧
    Example.assetsDriver.GetFile "/assets/a.txt".toList
        (Example.assetsDriver.RemoveFile "/assets/a.txt".toList
          (Example.assetsDriver.AddFile (strings.NewReader "hello world".toList)
            "/assets/a.txt".toList Example.emptyRoots).2).2
      = .ok (Node.file "hello world".toList) := by
  refine ⟨?_, ?_, ?_⟩ <;> rfl

/-! ### The accept-list -/

theorem storage.invalidExtension_Is (ext : Str) :
    (storage.invalidExtension ext).Is storage.ErrInvalidExtension = true := by
  simp [storage.invalidExtension, GoError.Is, storage.ErrInvalidExtension]

/-- C4: the filesystem driver does not keep the accept-list rule that its
siblings keep. The path `foo.txt/` has the empty extension, which the example
drivers do not accept, and it names no file on the empty disk. The `awss3`
and `do` drivers test `filepath.Ext(p)` before anything else: for every
client and every path whose extension is outside the accept-set they return
an error wrapping `ErrInvalidExtension` and leave the store as it was,
`foo.txt/` included. `fs.AddFile` tests the extension of the joined path
`/tmp/fs_tests/foo.txt` instead: it writes the file, and `GetFile` of the
same path then returns it. It also creates the missing directories before
that test: the rejected `sub/a.exe` leaves the directory `/tmp/fs_tests/sub`
behind. Whatever `filepath.Ext(p)` is, `fs.AddFile` succeeds only when the
extension of the joined path is accepted. -/
theorem fs_AddFile_tests_resolved_extension :
    filepath.Ext "foo.txt/".toList = []
    ∧ filepath.Ext "foo.txt/".toList ∉ Example.testDriver.accept
    ∧ Example.testDriver.GetFile "foo.txt/".toList Example.emptyRoots
        = .error (fs.wrapOS "open".toList "/tmp/fs_tests/foo.txt".toList Errno.ENOENT)
    ∧ (Example.testDriver.AddFile (strings.NewReader "hello world".toList) "foo.txt/".toList
        Example.emptyRoots).1 = .ok "/foo.txt".toList
    ∧ Example.testDriver.GetFile "foo.txt/".toList
        (Example.testDriver.AddFile (strings.NewReader "hello world".toList) "foo.txt/".toList
          Example.emptyRoots).2 = .ok (Node.file "hello world".toList)
    ∧ (∀ (σ : Type) (s : awss3.S3Storage σ) (r : Reader) (p : Str) (st : σ),
        filepath.Ext p ∉ s.config.accept →
        s.AddFile r p st = (.error (storage.invalidExtension (filepath.Ext p)), st))
    ∧ (∀ (σ : Type) (s : dospace.DOSpace σ) (r : Reader) (p : Str) (st : σ),
        filepath.Ext p ∉ s.config.accept →
        s.AddFile r p st = (.error (storage.invalidExtension (filepath.Ext p)), st))
    ∧ (∀ ext, (storage.invalidExtension ext).Is storage.ErrInvalidExtension = true)
    ∧ Example.s3Driver.AddFile (strings.NewReader "hello world".toList) "foo.txt/".toList
        Example.emptyStore = (.error (storage.invalidExtension []), Example.emptyStore)
    ∧ Example.doDriver.AddFile (strings.NewReader "hello world".toList) "foo.txt/".toList
        Example.emptyStore = (.error (storage.invalidExtension []), Example.emptyStore)
    ∧ (Example.testDriver.AddFile (strings.NewReader "hello world".toList) "sub/a.exe".toList
        Example.emptyRoots).1 = .error (storage.invalidExtension ".exe".toList)
    ∧ Example.emptyRoots.node "/tmp/fs_tests/sub".toList = none
    ∧ (Example.testDriver.AddFile (strings.NewReader "hello world".toList) "sub/a.exe".toList
        Example.emptyRoots).2.node "/tmp/fs_tests/sub".toList = some Node.dir
    ∧ (∀ (drv : fs.Filesystem) (r : Reader) (p ret : Str) (d d1 : Disk),
        drv.AddFile r p d = (.ok ret, d1) →
        filepath.Ext (filepath.Join [drv.root, strings.TrimPrefix p drv.path]) ∈ drv.accept) := by
  refine ⟨by rfl, by decide, by rfl, by rfl, by rfl, ?_, ?_, storage.invalidExtension_Is,
    by rfl, by rfl, by rfl, by rfl, by rfl, ?_⟩
  · intro σ s r p st h
    simp [awss3.S3Storage.AddFile, awss3.S3Storage.Accepts, h]
  · intro σ s r p st h
    simp [dospace.DOSpace.AddFile, dospace.DOSpace.Accepts, h]
  · intro drv r p ret d d1 h
    by_contra hn
    unfold fs.Filesystem.AddFile at h
    simp only [fs.Filesystem.Accepts, hn] at h
    split at h
    · simp at h
    · split at h
      · simp at h
      · simp at h

/-! ## `ParseCommaSeparatedQuery` -/

/-- Putting the non-empty pieces of one value in the set. -/
theorem util.mem_foldl_pieces (pieces ret : List Str) (x : Str) :
    x ∈ pieces.foldl (fun ret a => if a ≠ [] then (if a ∈ ret then ret else a :: ret) else ret) ret
      ↔ x ∈ ret ∨ (x ≠ [] ∧ x ∈ pieces) := by
  induction pieces generalizing ret with
  | nil => simp
  | cons a rest ih =>
    rw [List.foldl_cons, ih]
    by_cases ha : a = []
    · subst ha
      simp only [ne_eq, not_true_eq_false, if_false, List.mem_cons]
      constructor
      · rintro (h | ⟨h1, h2⟩)
        · exact Or.inl h
        · exact Or.inr ⟨h1, Or.inr h2⟩
      · rintro (h | ⟨h1, h2 | h2⟩)
        · exact Or.inl h
        · exact absurd h2 h1
        · exact Or.inr ⟨h1, h2⟩
    · by_cases hm : a ∈ ret
      · simp only [ne_eq, ha, not_false_eq_true, if_true, hm, List.mem_cons]
        constructor
        · rintro (h | ⟨h1, h2⟩)
          · exact Or.inl h
          · exact Or.inr ⟨h1, Or.inr h2⟩
        · rintro (h | ⟨h1, h2 | h2⟩)
          · exact Or.inl h
          · exact Or.inl (h2 ▸ hm)
          · exact Or.inr ⟨h1, h2⟩
      · simp only [ne_eq, ha, not_false_eq_true, if_true, hm, if_false, List.mem_cons]
        constructor
        · rintro ((h | h) | ⟨h1, h2⟩)
          · exact Or.inr ⟨h ▸ ha, Or.inl h⟩
          · exact Or.inl h
          · exact Or.inr ⟨h1, Or.inr h2⟩
        · rintro (h | ⟨h1, h2 | h2⟩)
          · exact Or.inl (Or.inr h)
          · exact Or.inl (Or.inl h2)
          · exact Or.inr ⟨h1, h2⟩

theorem util.nodup_foldl_pieces (pieces ret : List Str) (h : ret.Nodup) :
    (pieces.foldl (fun ret a => if a ≠ [] then (if a ∈ ret then ret else a :: ret) else ret)
      ret).Nodup := by
  induction pieces generalizing ret with
  | nil => simpa using h
  | cons a rest ih =>
    rw [List.foldl_cons]
    apply ih
    by_cases ha : a = []
    · simpa [ha] using h
    · by_cases hm : a ∈ ret
      · simpa [ha, hm] using h
      · simpa [ha, hm] using h

theorem util.mem_addPieces (objects ret : List Str) (x : Str) :
    x ∈ util.addPieces ret objects
      ↔ x ∈ ret ∨ (x ≠ [] ∧ ∃ obj ∈ objects, x ∈ strings.Split obj ',') := by
  induction objects generalizing ret with
  | nil => simp [util.addPieces]
  | cons o rest ih =>
    simp only [util.addPieces, List.foldl_cons] at ih ⊢
    rw [ih, util.mem_foldl_pieces]
    simp only [List.mem_cons, exists_eq_or_imp]
    tauto

theorem util.nodup_addPieces (objects ret : List Str) (h : ret.Nodup) :
    (util.addPieces ret objects).Nodup := by
  induction objects generalizing ret with
  | nil => simpa [util.addPieces] using h
  | cons o rest ih =>
    simp only [util.addPieces, List.foldl_cons] at ih ⊢
    exact ih _ (util.nodup_foldl_pieces _ _ h)

theorem util.mem_foldl_defaults (defaults ret : List Str) (x : Str) :
    x ∈ defaults.foldl (fun ret d => if d ∈ ret then ret else d :: ret) ret
      ↔ x ∈ ret ∨ x ∈ defaults := by
  induction defaults generalizing ret with
  | nil => simp
  | cons a rest ih =>
    rw [List.foldl_cons, ih]
    by_cases hm : a ∈ ret
    · simp only [hm, if_true, List.mem_cons]
      constructor
      · rintro (h | h)
        · exact Or.inl h
        · exact Or.inr (Or.inr h)
      · rintro (h | h | h)
        · exact Or.inl h
        · exact Or.inl (h ▸ hm)
        · exact Or.inr h
    · simp only [hm, if_false, List.mem_cons]
      tauto

theorem util.nodup_foldl_defaults (defaults ret : List Str) (h : ret.Nodup) :
    (defaults.foldl (fun ret d => if d ∈ ret then ret else d :: ret) ret).Nodup := by
  induction defaults generalizing ret with
  | nil => simpa using h
  | cons a rest ih =>
    rw [List.foldl_cons]
    apply ih
    by_cases hm : a ∈ ret
    · simpa [hm] using h
    · simpa [hm] using h

/-- C5: `ParseCommaSeparatedQuery` has exactly the members of the reference:
the defaults when the field is not a key of the query, otherwise the
non-empty pieces of the field's values split at commas; each member is held
once; and `?accept=.a,.b&accept=.c` gives exactly `.a`, `.b` and `.c`. -/
theorem ParseCommaSeparatedQuery_refines_spec :
    (∀ (q : url.Values) (field : Str) (defaults : List Str),
      (∀ x, x ∈ util.ParseCommaSeparatedQuery q field defaults
        ↔ util.ParseCommaSeparatedQuery_spec q field defaults x)
      ∧ (util.ParseCommaSeparatedQuery q field defaults).Nodup)
    ∧ (∀ x, x ∈ util.ParseCommaSeparatedQuery Example.acceptQuery "accept".toList []
        ↔ x = ".a".toList ∨ x = ".b".toList ∨ x = ".c".toList) := by
  refine ⟨fun q field defaults => ⟨fun x => ?_, ?_⟩, fun x => ?_⟩
  · unfold util.ParseCommaSeparatedQuery util.ParseCommaSeparatedQuery_spec
    cases q.lookup field with
    | none => simp [util.mem_foldl_defaults]
    | some objects => simp [util.mem_addPieces]
  · unfold util.ParseCommaSeparatedQuery
    cases q.lookup field with
    | none => exact util.nodup_foldl_defaults _ _ List.nodup_nil
    | some objects => exact util.nodup_addPieces _ _ List.nodup_nil
  · have h : util.ParseCommaSeparatedQuery Example.acceptQuery "accept".toList []
        = [".c".toList, ".b".toList, ".a".toList] := by rfl
    rw [h]
    simp only [List.mem_cons, List.mem_nil_iff, or_false]
    tauto

/-! ## The registry -/

/-- C6: `storage.Open` resolves by scheme. A URL that parses with an empty
scheme gives the invalid-scheme error and leaves the world as it was,
whatever the registry and the drivers are; a non-empty scheme that is not
registered gives the unknown-driver error naming the scheme; a registered
scheme gives exactly what the prototype's `Open` gives for the same string. -/
theorem storage_Open_by_scheme {D W : Type}
    (OpenOf : D → Str → W → Go (Except GoError D) × W) (drivers : storage.Registry D)
    (urlString : Str) (w : W) (u : url.URL) (hu : url.Parse urlString = .ok u) :
    (u.Scheme = [] →
      storage.Open OpenOf drivers urlString w
        = (Go.done (.error (GoError.new "storage: invalid URL scheme".toList)), w))
    ∧ (u.Scheme ≠ [] → drivers u.Scheme = none →
      storage.Open OpenOf drivers urlString w
        = (Go.done (.error (GoError.new ("storage: unknown driver ".toList ++ u.Scheme
            ++ " (forgotten import)".toList))), w))
    ∧ (∀ d, u.Scheme ≠ [] → drivers u.Scheme = some d →
      storage.Open OpenOf drivers urlString w = OpenOf d urlString w) := by
  refine ⟨fun h => ?_, fun h hd => ?_, fun d h hd => ?_⟩
  · simp [storage.Open, hu, h]
  · simp [storage.Open, hu, h, hd]
  · simp [storage.Open, hu, h, hd]

/-- The three cases of `storage.Open` on the registry that holds `fs` alone:
`/tmp/x` has no scheme, `awss3` is not registered, `fs` is. -/
theorem storage_Open_by_scheme_witness :
    storage.Open fs.Filesystem.Open Example.fsRegistry "/tmp/x".toList Example.initWorld
      = (Go.done (.error (GoError.new "storage: invalid URL scheme".toList)), Example.initWorld)
    ∧ storage.Open fs.Filesystem.Open Example.fsRegistry "awss3://b/p".toList Example.initWorld
      = (Go.done (.error (GoError.new "storage: unknown driver awss3 (forgotten import)".toList)),
          Example.initWorld)
    ∧ storage.Open fs.Filesystem.Open Example.fsRegistry "fs:///a?root=/tmp/r1".toList
        Example.initWorld
      = fs.Filesystem.Open 0 "fs:///a?root=/tmp/r1".toList Example.initWorld :=
  ⟨(storage_Open_by_scheme fs.Filesystem.Open Example.fsRegistry "/tmp/x".toList
      Example.initWorld ⟨[], [], [], "/tmp/x".toList, [], []⟩ rfl).1 rfl,
   (storage_Open_by_scheme fs.Filesystem.Open Example.fsRegistry "awss3://b/p".toList
      Example.initWorld ⟨"awss3".toList, [], "b".toList, "/p".toList, [], []⟩ rfl).2.1
      (by decide) rfl,
   (storage_Open_by_scheme fs.Filesystem.Open Example.fsRegistry "fs:///a?root=/tmp/r1".toList
      Example.initWorld ⟨"fs".toList, [], [], "/a".toList, "root=/tmp/r1".toList, []⟩ rfl).2.2
      0 (by decide) rfl⟩

theorem storage.RegisterAll_keeps {D : Type} (calls : List (Str × Option D))
    (drivers : storage.Registry D) (k : Str) (d : D) (h : drivers k = some d) :
    storage.RegisterAll drivers calls k = some d := by
  induction calls generalizing drivers with
  | nil => simpa [storage.RegisterAll] using h
  | cons call rest ih =>
    obtain ⟨name, driver⟩ := call
    simp only [storage.RegisterAll]
    apply ih
    unfold storage.Register
    cases driver with
    | none => simpa using h
    | some drv =>
      cases hn : drivers name with
      | some old => simpa using h
      | none =>
        have hk : k ≠ name := by
          rintro rfl
          rw [h] at hn
          cases hn
        simpa [hk] using h

/-- C7: `storage.Register` panics exactly when the driver is nil or the name
is already registered, and then leaves the registry as it was; otherwise the
registry maps the name to the driver and every other scheme as before. So
over any series of `Register` calls a registered scheme keeps its prototype. -/
theorem storage_Register_once {D : Type} (drivers : storage.Registry D) (name : Str)
    (driver : Option D) :
    ((∃ msg, (storage.Register drivers name driver).1 = Go.panic msg)
        ↔ (driver = none ∨ ∃ old, drivers name = some old))
    ∧ ((driver = none ∨ ∃ old, drivers name = some old) →
        (storage.Register drivers name driver).2 = drivers)
    ∧ (∀ drv, driver = some drv → drivers name = none →
        (storage.Register drivers name driver).1 = Go.done ()
          ∧ (storage.Register drivers name driver).2 name = some drv
          ∧ ∀ k, k ≠ name → (storage.Register drivers name driver).2 k = drivers k)
    ∧ (∀ (calls : List (Str × Option D)) (k : Str) (d : D), drivers k = some d →
        storage.RegisterAll drivers calls k = some d) := by
  refine ⟨?_, ?_, ?_, fun calls k d h => storage.RegisterAll_keeps calls drivers k d h⟩
  · cases driver with
    | none => simp [storage.Register]
    | some drv =>
      cases hn : drivers name with
      | some old => simp [storage.Register, hn]
      | none => simp [storage.Register, hn]
  · intro h
    cases driver with
    | none => simp [storage.Register]
    | some drv =>
      cases hn : drivers name with
      | some old => simp [storage.Register, hn]
      | none => simp [hn] at h
  · intro drv hd hn
    subst hd
    refine ⟨by simp [storage.Register, hn], by simp [storage.Register, hn], fun k hk => ?_⟩
    simp [storage.Register, hn, hk]

/-- Registering `fs` a second time, with another prototype, panics and keeps
the first one; registering `awss3` next to it succeeds. -/
theorem storage_Register_once_witness :
    (storage.Register Example.fsRegistry "fs".toList (some 1)).1
        = Go.panic "storage: register called twice for driver fs".toList
    ∧ (storage.Register Example.fsRegistry "fs".toList (some 1)).2 = Example.fsRegistry
    ∧ (storage.Register Example.fsRegistry "awss3".toList (some 1)).2 "awss3".toList = some 1
    ∧ storage.RegisterAll Example.fsRegistry [("fs".toList, some 1), ("fs".toList, none),
        ("awss3".toList, some 2)] "fs".toList = some 0 := by
  have h := storage_Register_once Example.fsRegistry "fs".toList (some 1)
  have h2 := storage_Register_once Example.fsRegistry "awss3".toList (some 1)
  refine ⟨rfl, h.2.1 (Or.inr ⟨0, rfl⟩), (h2.2.2.1 1 rfl rfl).2.1, h.2.2.2 _ _ 0 rfl⟩

/-- C8: for the filesystem backend `Open` does not return a new driver. Two
calls of `storage.Open` on the scheme `fs` both return the registered
prototype (address 0), and the second call overwrites the root, the path and
the accept-set that the driver of the first call had been given. -/
theorem fs_Open_returns_the_prototype :
    (storage.Open fs.Filesystem.Open Example.fsRegistry
        "fs:///a?root=/tmp/r1&accept=.txt".toList Example.initWorld).1 = Go.done (.ok 0)
    ∧ Example.afterFirstOpen.heap 0 = ⟨"/tmp/r1".toList, "/a".toList, [".txt".toList]⟩
    ∧ (storage.Open fs.Filesystem.Open Example.fsRegistry
        "fs:///b?root=/tmp/r2&accept=.png".toList Example.afterFirstOpen).1 = Go.done (.ok 0)
    ∧ Example.afterSecondOpen.heap 0 = ⟨"/tmp/r2".toList, "/b".toList, [".png".toList]⟩
    ∧ Example.fsRegistry "fs".toList = some 0 := by
  refine ⟨?_, ?_, ?_, ?_, ?_⟩ <;> rfl

/-! ## The configuration parsers -/

theorem strings.HasPrefix_eq (s p : Str) (h : strings.HasPrefix s p = true) :
    s = p ++ s.drop p.length := by
  induction p generalizing s with
  | nil => simp
  | cons d p ih =>
    cases s with
    | nil => simp [strings.HasPrefix] at h
    | cons c s =>
      simp only [strings.HasPrefix, Bool.and_eq_true, beq_iff_eq] at h
      obtain ⟨rfl, h2⟩ := h
      simpa using ih s h2

/-- A greedy run splits the text in two, and the run is not empty and starts
with a character of its class. -/
theorem regexp.run_eq (cls : Char → Bool) (s a b : Str) (h : regexp.run cls s = some (a, b)) :
    s = a ++ b ∧ ∃ c t, a = c :: t ∧ cls c = true := by
  unfold regexp.run at h
  split at h
  · cases h
  · rename_i hne
    simp only [Option.some.injEq, Prod.mk.injEq] at h
    obtain ⟨rfl, rfl⟩ := h
    refine ⟨(List.takeWhile_append_dropWhile cls s).symm, ?_⟩
    cases s with
    | nil => simp at hne
    | cons c t =>
      by_cases hc : cls c = true
      · exact ⟨c, t.takeWhile cls, by simp [List.takeWhile, hc], hc⟩
      · simp [List.takeWhile, hc] at hne

theorem url.Values.Get_absent (q : url.Values) (key : Str) (h : q.lookup key = none) :
    q.Get key = [] := by
  simp [url.Values.Get, h]

theorem regexp.isWordDash_slash (c : Char) (h : regexp.isWordDash c = true) : c ≠ '/' := by
  rintro rfl
  revert h
  decide

/-- The shape of a match of the `awss3` expression. -/
theorem awss3.findParsere_awss3_shape (s : Str) (m : List Str) (h : awss3.findParsere s = some m) :
    ∃ bucket pfx rest c t, pfx = c :: t ∧ c ≠ '/' ∧
      s = "awss3://".toList ++ bucket ++ ['/'] ++ pfx ++ rest ∧
      m = ["awss3://".toList ++ bucket ++ ['/'] ++ pfx, bucket, pfx] := by
  unfold awss3.findParsere at h
  split at h
  · rename_i hp
    split at h
    · rename_i bucket rest hb
      split at h
      · rename_i pfx rest2 hpf
        obtain ⟨e1, -⟩ := regexp.run_eq _ _ _ _ hb
        obtain ⟨e2, c, t, e3, hc⟩ := regexp.run_eq _ _ _ _ hpf
        refine ⟨bucket, pfx, rest2, c, t, e3, regexp.isWordDash_slash c hc, ?_, ?_⟩
        · have h8 : "awss3://".toList.length = 8 := rfl
          have := strings.HasPrefix_eq _ _ hp
          rw [h8, e1, e2] at this
          rw [this]
          simp
        · simpa using h.symm
      · cases h
    · cases h
  · cases h

theorem dospace.findSpace_shape (s space pfx : Str) (h : dospace.findSpace s = some (space, pfx)) :
    ∃ rest c t, pfx = c :: t ∧ c ≠ '/' ∧ s = ['@'] ++ space ++ ['/'] ++ pfx ++ rest := by
  unfold dospace.findSpace at h
  split at h
  · rename_i rest
    split at h
    · rename_i sp rest2 hs
      split at h
      · rename_i pf rest3 hpf
        simp only [Option.some.injEq, Prod.mk.injEq] at h
        obtain ⟨rfl, rfl⟩ := h
        obtain ⟨e1, -⟩ := regexp.run_eq _ _ _ _ hs
        obtain ⟨e2, c, t, e3, hc⟩ := regexp.run_eq _ _ _ _ hpf
        refine ⟨rest3, c, t, e3, regexp.isWordDash_slash c hc, ?_⟩
        rw [e1, e2]
        simp
      · cases h
    · cases h
  · cases h

theorem dospace.findSecret_shape (s secret space pfx : Str)
    (h : dospace.findSecret s = some (secret, space, pfx)) :
    ∃ rest c t, pfx = c :: t ∧ c ≠ '/' ∧
      s = secret ++ ['@'] ++ space ++ ['/'] ++ pfx ++ rest := by
  induction s generalizing secret with
  | nil => simp [dospace.findSecret] at h
  | cons a s ih =>
    unfold dospace.findSecret at h
    split at h
    · split at h
      · rename_i sec sp pf hrec
        simp only [Option.some.injEq, Prod.mk.injEq] at h
        obtain ⟨rfl, rfl, rfl⟩ := h
        obtain ⟨rest, c, t, e3, hc, e⟩ := ih sec hrec
        exact ⟨rest, c, t, e3, hc, by rw [e]; simp⟩
      · split at h
        · rename_i sp pf hsp
          simp only [Option.some.injEq, Prod.mk.injEq] at h
          obtain ⟨rfl, rfl, rfl⟩ := h
          obtain ⟨rest, c, t, e3, hc, e⟩ := dospace.findSpace_shape _ _ _ hsp
          exact ⟨rest, c, t, e3, hc, by rw [e]; simp⟩
        · cases h
    · cases h

/-- The shape of a match of the `do` expression. -/
theorem dospace.findParsere_do_shape (s : Str) (m : List Str) (h : dospace.findParsere s = some m) :
    ∃ key secret space pfx rest c t, pfx = c :: t ∧ c ≠ '/' ∧
      s = "do://".toList ++ key ++ [':'] ++ secret ++ ['@'] ++ space ++ ['/'] ++ pfx ++ rest ∧
      m = ["do://".toList ++ key ++ [':'] ++ secret ++ ['@'] ++ space ++ ['/'] ++ pfx,
        key, secret, space, pfx] := by
  unfold dospace.findParsere at h
  split at h
  · rename_i hp
    split at h
    · rename_i key rest hk
      split at h
      · rename_i secret space pfx hsec
        obtain ⟨e1, -⟩ := regexp.run_eq _ _ _ _ hk
        obtain ⟨rest2, c, t, e3, hc, e2⟩ := dospace.findSecret_shape _ _ _ _ hsec
        refine ⟨key, secret, space, pfx, rest2, c, t, e3, hc, ?_, ?_⟩
        · have h5 : "do://".toList.length = 5 := rfl
          have := strings.HasPrefix_eq _ _ hp
          rw [h5, e1, e2] at this
          rw [this]
          simp
        · simpa using h.symm
      · cases h
    · cases h
  · cases h

/-- C9: for a URL of the backend's shape that parses and carries no `acl`,
`auto-create` or `region` parameter, `parseURL` succeeds. The URL starts with
the matched segments, the configuration holds them as container (and, for
`do`, key and secret), its prefix is a separator followed by the matched
prefix segment, its ACL is `public-read`, its auto-create flag is true, and
its region is `us-east-1` for `awss3` and `nyc3` for `do`. -/
theorem parseURL_extracts_segments_and_defaults :
    (∀ (urlString : Str) (u : url.URL),
      awss3.parsere.MatchString urlString = true → url.Parse urlString = .ok u →
      u.Query.lookup "acl".toList = none → u.Query.lookup "auto-create".toList = none →
      u.Query.lookup "region".toList = none →
      ∃ bucket pfx rest,
        urlString = "awss3://".toList ++ bucket ++ ['/'] ++ pfx ++ rest
        ∧ awss3.parsere.FindStringSubmatch urlString
            = ["awss3://".toList ++ bucket ++ ['/'] ++ pfx, bucket, pfx]
        ∧ awss3.parseURL urlString = .ok
            { AutoBucketCreate := true
              Region := "us-east-1".toList
              Bucket := bucket
              Prefix := '/' :: pfx
              FileACL := "public-read".toList
              accept := util.ParseCommaSeparatedQuery u.Query "accept".toList
                awss3.defaultAccept })
    ∧ (∀ (urlString : Str) (u : url.URL),
      dospace.parsere.MatchString urlString = true → url.Parse urlString = .ok u →
      u.Query.lookup "acl".toList = none → u.Query.lookup "auto-create".toList = none →
      u.Query.lookup "region".toList = none →
      ∃ key secret space pfx rest,
        urlString = "do://".toList ++ key ++ [':'] ++ secret ++ ['@'] ++ space ++ ['/'] ++ pfx
          ++ rest
        ∧ dospace.parsere.FindStringSubmatch urlString
            = ["do://".toList ++ key ++ [':'] ++ secret ++ ['@'] ++ space ++ ['/'] ++ pfx,
                key, secret, space, pfx]
        ∧ dospace.parseURL urlString = .ok
            { AutoSpaceCreate := true
              Region := "nyc3".toList
              Space := space
              Prefix := '/' :: pfx
              FileACL := "public-read".toList
              key := key
              secret := secret
              accept := util.ParseCommaSeparatedQuery u.Query "accept".toList
                dospace.defaultAccept }) := by
  constructor
  · intro urlString u hm hu hacl hac hreg
    have hfind : ∃ m, awss3.findParsere urlString = some m := by
      simpa [regexp.Regexp.MatchString, awss3.parsere, Option.isSome_iff_exists] using hm
    obtain ⟨m, hfm⟩ := hfind
    obtain ⟨bucket, pfx, rest, c, t, e3, hc, hs, hmm⟩ := awss3.findParsere_awss3_shape _ _ hfm
    refine ⟨bucket, pfx, rest, hs, ?_, ?_⟩
    · simp [regexp.Regexp.FindStringSubmatch, awss3.parsere, hfm, hmm]
    · have i1 : awss3.parsere.SubexpIndex "bucket".toList = 1 := by decide
      have i2 : awss3.parsere.SubexpIndex "prefix".toList = 2 := by decide
      have hsl : strings.HasPrefix pfx ['/'] = false := by
        subst e3
        simp [strings.HasPrefix, hc]
      have hF : awss3.parsere.FindStringSubmatch urlString
          = ["awss3://".toList ++ bucket ++ ['/'] ++ pfx, bucket, pfx] := by
        simp [regexp.Regexp.FindStringSubmatch, awss3.parsere, hfm, hmm]
      unfold awss3.parseURL
      simp only [hm, i1, i2, hF, hu, awss3.applyACL, awss3.applyAutoCreate,
        url.Values.Get_absent _ _ hacl, url.Values.Get_absent _ _ hac,
        url.Values.Get_absent _ _ hreg]
      simp [hsl]
  · intro urlString u hm hu hacl hac hreg
    have hfind : ∃ m, dospace.findParsere urlString = some m := by
      simpa [regexp.Regexp.MatchString, dospace.parsere, Option.isSome_iff_exists] using hm
    obtain ⟨m, hfm⟩ := hfind
    obtain ⟨key, secret, space, pfx, rest, c, t, e3, hc, hs, hmm⟩ :=
      dospace.findParsere_do_shape _ _ hfm
    refine ⟨key, secret, space, pfx, rest, hs, ?_, ?_⟩
    · simp [regexp.Regexp.FindStringSubmatch, dospace.parsere, hfm, hmm]
    · have i1 : dospace.parsere.SubexpIndex "key".toList = 1 := by decide
      have i2 : dospace.parsere.SubexpIndex "secret".toList = 2 := by decide
      have i3 : dospace.parsere.SubexpIndex "space".toList = 3 := by decide
      have i4 : dospace.parsere.SubexpIndex "prefix".toList = 4 := by decide
      have hsl : strings.HasPrefix pfx ['/'] = false := by
        subst e3
        simp [strings.HasPrefix, hc]
      have hF : dospace.parsere.FindStringSubmatch urlString
          = ["do://".toList ++ key ++ [':'] ++ secret ++ ['@'] ++ space ++ ['/'] ++ pfx,
              key, secret, space, pfx] := by
        simp [regexp.Regexp.FindStringSubmatch, dospace.parsere, hfm, hmm]
      unfold dospace.parseURL
      simp only [hm, i1, i2, i3, i4, hF, hu, dospace.applyACL, dospace.applyAutoCreate,
        dospace.applyRegion, url.Values.Get_absent _ _ hacl, url.Values.Get_absent _ _ hac,
        url.Values.Get_absent _ _ hreg]
      simp [hsl]

/-- The first case of `TestParseURL` in both backends:
`awss3://testbucket/assets?accept=.txt` and
`do://mykey:mysecret@test-space/assets?accept=.txt`. -/
theorem parseURL_extracts_segments_and_defaults_witness :
    (∃ bucket pfx rest,
      "awss3://testbucket/assets?accept=.txt".toList
          = "awss3://".toList ++ bucket ++ ['/'] ++ pfx ++ rest
      ∧ awss3.parsere.FindStringSubmatch "awss3://testbucket/assets?accept=.txt".toList
          = ["awss3://".toList ++ bucket ++ ['/'] ++ pfx, bucket, pfx]
      ∧ awss3.parseURL "awss3://testbucket/assets?accept=.txt".toList = .ok
          { AutoBucketCreate := true
            Region := "us-east-1".toList
            Bucket := bucket
            Prefix := '/' :: pfx
            FileACL := "public-read".toList
            accept := util.ParseCommaSeparatedQuery (url.ParseQuery "accept=.txt".toList)
              "accept".toList awss3.defaultAccept })
    ∧ awss3.parseURL "awss3://testbucket/assets?accept=.txt".toList = .ok
        { AutoBucketCreate := true
          Region := "us-east-1".toList
          Bucket := "testbucket".toList
          Prefix := "/assets".toList
          FileACL := "public-read".toList
          accept := [".txt".toList] }
    ∧ dospace.parseURL "do://mykey:mysecret@test-space/assets?accept=.txt".toList = .ok
        { AutoSpaceCreate := true
          Region := "nyc3".toList
          Space := "test-space".toList
          Prefix := "/assets".toList
          FileACL := "public-read".toList
          key := "mykey".toList
          secret := "mysecret".toList
          accept := [".txt".toList] } :=
  ⟨parseURL_extracts_segments_and_defaults.1 "awss3://testbucket/assets?accept=.txt".toList
      ⟨"awss3".toList, [], "testbucket".toList, "/assets".toList, "accept=.txt".toList, []⟩
      rfl rfl rfl rfl rfl,
    rfl, rfl⟩

/-- C10: `awss3.parseURL` rejects the canned ACL `authenticated-read`: the
entry of `acceptableACL` is written with a trailing blank, so the value is
not found and the URL is a parse error, while the same value followed by an
escaped blank is accepted and kept with the blank. -/
theorem awss3_parseURL_rejects_authenticated_read :
    awss3.parseURL "awss3://bucket/prefix?acl=authenticated-read".toList
        = .error (awss3.parseErr ": unknown acl: authenticated-read".toList)
    ∧ (awss3.parseErr ": unknown acl: authenticated-read".toList).Is awss3.ErrURLParse = true
    ∧ awss3.parseURL "awss3://bucket/prefix?acl=authenticated-read%20".toList = .ok
        { AutoBucketCreate := true
          Region := "us-east-1".toList
          Bucket := "bucket".toList
          Prefix := "/prefix".toList
          FileACL := "authenticated-read ".toList
          accept := [".svg".toList, ".png".toList, ".jpg".toList, ".jpeg".toList] } := by
  refine ⟨?_, ?_, ?_⟩ <;> rfl

/-! ## Validation of the query parameters -/

theorem awss3.parseErr_Is (tail : Str) : (awss3.parseErr tail).Is awss3.ErrURLParse = true := by
  simp [awss3.parseErr, GoError.Is, awss3.ErrURLParse]

theorem dospace.parseErr_Is_do (tail : Str) :
    (dospace.parseErr tail).Is dospace.ErrURLParse = true := by
  simp [dospace.parseErr, GoError.Is, dospace.ErrURLParse]

theorem awss3.applyACL_result (q : url.Values) (c : awss3.Config) :
    (∀ c1, awss3.applyACL q c = .ok c1 →
      c1.AutoBucketCreate = c.AutoBucketCreate)
    ∧ (∀ e, awss3.applyACL q c = .error e → e.Is awss3.ErrURLParse = true)
    ∧ (q.Get "acl".toList = [] → awss3.applyACL q c = .ok c) := by
  unfold awss3.applyACL
  refine ⟨fun c1 h => ?_, fun e h => ?_, fun h => by rw [if_neg (not_not.mpr h)]⟩
  · split at h
    · simp only at h
      split at h
      · simp only [Except.ok.injEq] at h; rw [← h]
      · cases h
    · simp only [Except.ok.injEq] at h; rw [← h]
  · split at h
    · simp only at h
      split at h
      · cases h
      · simp only [Except.error.injEq] at h; rw [← h]; exact awss3.parseErr_Is _
    · cases h

theorem awss3.applyAutoCreate_result (q : url.Values) (c : awss3.Config) :
    (∀ c1, awss3.applyAutoCreate q c = .ok c1 →
      c1.FileACL = c.FileACL ∧
      ((q.Get "auto-create".toList = [] ∧ c1 = c)
        ∨ (q.Get "auto-create".toList ≠ []
          ∧ strings.ToLower (q.Get "auto-create".toList) ∈ awss3.acceptableAutoCreate
          ∧ c1.AutoBucketCreate = false)))
    ∧ (∀ e, awss3.applyAutoCreate q c = .error e → e.Is awss3.ErrURLParse = true)
    ∧ (q.Get "auto-create".toList = [] → awss3.applyAutoCreate q c = .ok c)
    ∧ (strings.ToLower (q.Get "auto-create".toList) ∈ awss3.acceptableAutoCreate →
        ∃ c1, awss3.applyAutoCreate q c = .ok c1) := by
  unfold awss3.applyAutoCreate
  refine ⟨fun c1 h => ?_, fun e h => ?_, fun h => by rw [if_neg (not_not.mpr h)], fun h => ?_⟩
  · split at h
    · rename_i hne
      simp only at h
      split at h
      · rename_i hmem
        simp only [Except.ok.injEq] at h
        rw [← h]
        exact ⟨rfl, Or.inr ⟨hne, hmem, rfl⟩⟩
      · cases h
    · rename_i hne
      simp only [Except.ok.injEq] at h
      rw [← h]
      exact ⟨rfl, Or.inl ⟨by simpa using hne, rfl⟩⟩
  · split at h
    · simp only at h
      split at h
      · cases h
      · simp only [Except.error.injEq] at h; rw [← h]; exact awss3.parseErr_Is _
    · cases h
  · by_cases hne : q.Get "auto-create".toList ≠ []
    · exact ⟨_, by rw [if_pos hne]; simp only; rw [if_pos h]⟩
    · exact ⟨_, by rw [if_neg hne]⟩

/-- Every error of `awss3.parseURL` wraps `ErrURLParse`. -/
theorem awss3.parseURL_error_Is (urlString : Str) (e : GoError)
    (h : awss3.parseURL urlString = .error e) : e.Is awss3.ErrURLParse = true := by
  unfold awss3.parseURL at h
  split at h
  · simp only [Except.error.injEq] at h; rw [← h]; exact awss3.parseErr_Is _
  · simp only at h
    split at h
    · simp only [Except.error.injEq] at h; rw [← h]; exact awss3.parseErr_Is _
    · split at h
      · simp only [Except.error.injEq] at h; rw [← h]; exact awss3.parseErr_Is _
      · split at h
        · rename_i e1 h1
          simp only [Except.error.injEq] at h
          rw [← h]
          exact (awss3.applyACL_result _ _).2.1 e1 h1
        · split at h
          · rename_i e2 h2
            simp only [Except.error.injEq] at h
            rw [← h]
            exact (awss3.applyAutoCreate_result _ _).2.1 e2 h2
          · cases h

/-- What a configuration returned by `awss3.parseURL` holds. -/
theorem awss3.parseURL_ok_facts (urlString : Str) (u : url.URL) (c : awss3.Config)
    (hu : url.Parse urlString = .ok u) (h : awss3.parseURL urlString = .ok c) :
    awss3.parsere.MatchString urlString = true
    ∧ c.accept = util.ParseCommaSeparatedQuery u.Query "accept".toList awss3.defaultAccept
    ∧ ((u.Query.Get "auto-create".toList = [] ∧ c.AutoBucketCreate = true)
      ∨ (u.Query.Get "auto-create".toList ≠ []
        ∧ strings.ToLower (u.Query.Get "auto-create".toList) ∈ awss3.acceptableAutoCreate
        ∧ c.AutoBucketCreate = false)) := by
  unfold awss3.parseURL at h
  split at h
  · cases h
  · rename_i hm
    simp only at h
    split at h
    · cases h
    · rw [hu] at h
      simp only at h
      split at h
      · cases h
      · rename_i c1 h1
        split at h
        · cases h
        · rename_i c2 h2
          simp only [Except.ok.injEq] at h
          refine ⟨by simpa using hm, by rw [← h], ?_⟩
          have ha := (awss3.applyACL_result _ _).1 c1 h1
          rcases ((awss3.applyAutoCreate_result _ _).1 c2 h2).2 with ⟨hg, hc⟩ | ⟨hg, hmem, hc⟩
          · left
            refine ⟨hg, ?_⟩
            rw [← h, hc]
            simp only
            rw [ha]
            split <;> rfl
          · right
            refine ⟨hg, hmem, ?_⟩
            rw [← h]
            exact hc

theorem dospace.applyACL_result_do (q : url.Values) (c : dospace.Config) :
    (∀ c1, dospace.applyACL q c = .ok c1 →
      c1.AutoSpaceCreate = c.AutoSpaceCreate)
    ∧ (∀ e, dospace.applyACL q c = .error e → e.Is dospace.ErrURLParse = true)
    ∧ (q.Get "acl".toList = [] → dospace.applyACL q c = .ok c) := by
  unfold dospace.applyACL
  refine ⟨fun c1 h => ?_, fun e h => ?_, fun h => by rw [if_neg (not_not.mpr h)]⟩
  · split at h
    · simp only at h
      split at h
      · simp only [Except.ok.injEq] at h; rw [← h]
      · cases h
    · simp only [Except.ok.injEq] at h; rw [← h]
  · split at h
    · simp only at h
      split at h
      · cases h
      · simp only [Except.error.injEq] at h; rw [← h]; exact dospace.parseErr_Is_do _
    · cases h

theorem dospace.applyAutoCreate_result_do (q : url.Values) (c : dospace.Config) :
    (∀ c1, dospace.applyAutoCreate q c = .ok c1 →
      c1.FileACL = c.FileACL ∧
      ((q.Get "auto-create".toList = [] ∧ c1 = c)
        ∨ (q.Get "auto-create".toList ≠ []
          ∧ strings.ToLower (q.Get "auto-create".toList) ∈ dospace.acceptableAutoCreate
          ∧ c1.AutoSpaceCreate = false)))
    ∧ (∀ e, dospace.applyAutoCreate q c = .error e → e.Is dospace.ErrURLParse = true)
    ∧ (q.Get "auto-create".toList = [] → dospace.applyAutoCreate q c = .ok c)
    ∧ (strings.ToLower (q.Get "auto-create".toList) ∈ dospace.acceptableAutoCreate →
        ∃ c1, dospace.applyAutoCreate q c = .ok c1) := by
  unfold dospace.applyAutoCreate
  refine ⟨fun c1 h => ?_, fun e h => ?_, fun h => by rw [if_neg (not_not.mpr h)], fun h => ?_⟩
  · split at h
    · rename_i hne
      simp only at h
      split at h
      · rename_i hmem
        simp only [Except.ok.injEq] at h
        rw [← h]
        exact ⟨rfl, Or.inr ⟨hne, hmem, rfl⟩⟩
      · cases h
    · rename_i hne
      simp only [Except.ok.injEq] at h
      rw [← h]
      exact ⟨rfl, Or.inl ⟨by simpa using hne, rfl⟩⟩
  · split at h
    · simp only at h
      split at h
      · cases h
      · simp only [Except.error.injEq] at h; rw [← h]; exact dospace.parseErr_Is_do _
    · cases h
  · by_cases hne : q.Get "auto-create".toList ≠ []
    · exact ⟨_, by rw [if_pos hne]; simp only; rw [if_pos h]⟩
    · exact ⟨_, by rw [if_neg hne]⟩


theorem dospace.applyRegion_result_do (q : url.Values) (c : dospace.Config) :
    (∀ c1, dospace.applyRegion q c = .ok c1 →
      c1.AutoSpaceCreate = c.AutoSpaceCreate)
    ∧ (∀ e, dospace.applyRegion q c = .error e → e.Is dospace.ErrURLParse = true)
    ∧ (q.Get "region".toList = [] → dospace.applyRegion q c = .ok c) := by
  unfold dospace.applyRegion
  refine ⟨fun c1 h => ?_, fun e h => ?_, fun h => by rw [if_neg (not_not.mpr h)]⟩
  · split at h
    · simp only at h
      split at h
      · simp only [Except.ok.injEq] at h; rw [← h]
      · cases h
    · simp only [Except.ok.injEq] at h; rw [← h]
  · split at h
    · simp only at h
      split at h
      · cases h
      · simp only [Except.error.injEq] at h; rw [← h]; exact dospace.parseErr_Is_do _
    · cases h

/-- Every error of `dospace.parseURL` wraps `ErrURLParse`. -/
theorem dospace.parseURL_error_Is_do (urlString : Str) (e : GoError)
    (h : dospace.parseURL urlString = .error e) : e.Is dospace.ErrURLParse = true := by
  unfold dospace.parseURL at h
  split at h
  · simp only [Except.error.injEq] at h; rw [← h]; exact dospace.parseErr_Is_do _
  · simp only at h
    split at h
    · simp only [Except.error.injEq] at h; rw [← h]; exact dospace.parseErr_Is_do _
    · split at h
      · simp only [Except.error.injEq] at h; rw [← h]; exact dospace.parseErr_Is_do _
      · split at h
        · rename_i e1 h1
          simp only [Except.error.injEq] at h
          rw [← h]
          exact (dospace.applyACL_result_do _ _).2.1 e1 h1
        · split at h
          · rename_i e2 h2
            simp only [Except.error.injEq] at h
            rw [← h]
            exact (dospace.applyAutoCreate_result_do _ _).2.1 e2 h2
          · split at h
            · rename_i e3 h3
              simp only [Except.error.injEq] at h
              rw [← h]
              exact (dospace.applyRegion_result_do _ _).2.1 e3 h3
            · cases h

/-- What a configuration returned by `dospace.parseURL` holds. -/
theorem dospace.parseURL_ok_facts_do (urlString : Str) (u : url.URL) (c : dospace.Config)
    (hu : url.Parse urlString = .ok u) (h : dospace.parseURL urlString = .ok c) :
    dospace.parsere.MatchString urlString = true
    ∧ c.accept = util.ParseCommaSeparatedQuery u.Query "accept".toList dospace.defaultAccept
    ∧ ((u.Query.Get "auto-create".toList = [] ∧ c.AutoSpaceCreate = true)
      ∨ (u.Query.Get "auto-create".toList ≠ []
        ∧ strings.ToLower (u.Query.Get "auto-create".toList) ∈ dospace.acceptableAutoCreate
        ∧ c.AutoSpaceCreate = false)) := by
  unfold dospace.parseURL at h
  split at h
  · cases h
  · rename_i hm
    simp only at h
    split at h
    · cases h
    · rw [hu] at h
      simp only at h
      split at h
      · cases h
      · rename_i c1 h1
        split at h
        · cases h
        · rename_i c2 h2
          split at h
          · cases h
          · rename_i c3 h3
            simp only [Except.ok.injEq] at h
            refine ⟨by simpa using hm, by rw [← h], ?_⟩
            have ha := (dospace.applyACL_result_do _ _).1 c1 h1
            have hr := (dospace.applyRegion_result_do _ _).1 c3 h3
            rcases ((dospace.applyAutoCreate_result_do _ _).1 c2 h2).2 with
              ⟨hg, hc⟩ | ⟨hg, hmem, hc⟩
            · left
              refine ⟨hg, ?_⟩
              rw [← h]
              simp only
              rw [hr, hc, ha]
            · right
              refine ⟨hg, hmem, ?_⟩
              rw [← h]
              simp only
              rw [hr, hc]

/-- When no `acl` is given, `awss3.parseURL` succeeds on a URL of the right
shape whose `auto-create` value is empty or in the table. -/
theorem awss3.parseURL_succeeds (urlString : Str) (u : url.URL)
    (hm : awss3.parsere.MatchString urlString = true) (hu : url.Parse urlString = .ok u)
    (hacl : u.Query.Get "acl".toList = [])
    (hac : u.Query.Get "auto-create".toList = []
      ∨ strings.ToLower (u.Query.Get "auto-create".toList) ∈ awss3.acceptableAutoCreate) :
    ∃ c, awss3.parseURL urlString = .ok c := by
  have i1 : awss3.parsere.SubexpIndex "bucket".toList = 1 := by decide
  have i2 : awss3.parsere.SubexpIndex "prefix".toList = 2 := by decide
  cases hp : awss3.parseURL urlString with
  | ok c => exact ⟨c, rfl⟩
  | error e =>
    exfalso
    unfold awss3.parseURL at hp
    simp only [hm, i1, i2, hu] at hp
    simp only [Bool.not_true, Bool.false_eq_true, if_false, reduceCtorEq, or_self] at hp
    split at hp
    · rename_i e1 h1
      rw [(awss3.applyACL_result _ _).2.2 hacl] at h1
      cases h1
    · rename_i c1 h1
      split at hp
      · rename_i e2 h2
        rcases hac with hac | hac
        · rw [(awss3.applyAutoCreate_result _ _).2.2.1 hac] at h2
          cases h2
        · obtain ⟨c2, hc2⟩ := (awss3.applyAutoCreate_result u.Query c1).2.2.2 hac
          rw [hc2] at h2
          cases h2
      · cases hp

/-- When no `acl` and no `region` are given, `dospace.parseURL` succeeds on a
URL of the right shape whose `auto-create` value is empty or in the table. -/
theorem dospace.parseURL_succeeds_do (urlString : Str) (u : url.URL)
    (hm : dospace.parsere.MatchString urlString = true) (hu : url.Parse urlString = .ok u)
    (hacl : u.Query.Get "acl".toList = []) (hreg : u.Query.Get "region".toList = [])
    (hac : u.Query.Get "auto-create".toList = []
      ∨ strings.ToLower (u.Query.Get "auto-create".toList) ∈ dospace.acceptableAutoCreate) :
    ∃ c, dospace.parseURL urlString = .ok c := by
  have i1 : dospace.parsere.SubexpIndex "key".toList = 1 := by decide
  have i2 : dospace.parsere.SubexpIndex "secret".toList = 2 := by decide
  have i3 : dospace.parsere.SubexpIndex "space".toList = 3 := by decide
  have i4 : dospace.parsere.SubexpIndex "prefix".toList = 4 := by decide
  cases hp : dospace.parseURL urlString with
  | ok c => exact ⟨c, rfl⟩
  | error e =>
    exfalso
    unfold dospace.parseURL at hp
    simp only [hm, i1, i2, i3, i4, hu] at hp
    simp only [Bool.not_true, Bool.false_eq_true, if_false, reduceCtorEq, or_self] at hp
    split at hp
    · rename_i e1 h1
      rw [(dospace.applyACL_result_do _ _).2.2 hacl] at h1
      cases h1
    · rename_i c1 h1
      split at hp
      · rename_i e2 h2
        rcases hac with hac | hac
        · rw [(dospace.applyAutoCreate_result_do _ _).2.2.1 hac] at h2
          cases h2
        · obtain ⟨c2, hc2⟩ := (dospace.applyAutoCreate_result_do u.Query c1).2.2.2 hac
          rw [hc2] at h2
          cases h2
      · rename_i c2 h2
        split at hp
        · rename_i e3 h3
          rw [(dospace.applyRegion_result_do _ _).2.2 hreg] at h3
          cases h3
        · cases hp


/-- C11: `dospace.parseURL` looks the region up in `acceptableAutoCreate`, not
in `acceptableRegions`: the declared region `ams3` is a parse error, and the
auto-create word `off`, which is no region, is accepted as the region. -/
theorem dospace_parseURL_region_wrong_table :
    dospace.parseURL "do://mykey:mysecret@test-space/assets?region=ams3".toList
        = .error (dospace.parseErr ": unknown region value: ams3".toList)
    ∧ "ams3".toList ∈ dospace.acceptableRegions
    ∧ dospace.parseURL "do://mykey:mysecret@test-space/assets?region=off".toList = .ok
        { AutoSpaceCreate := true
          Region := "off".toList
          Space := "test-space".toList
          Prefix := "/assets".toList
          FileACL := "public-read".toList
          key := "mykey".toList
          secret := "mysecret".toList
          accept := [".svg".toList, ".png".toList, ".jpg".toList, ".jpeg".toList] }
    ∧ "off".toList ∉ dospace.acceptableRegions
    ∧ (dospace.parseURL "do://mykey:mysecret@test-space/assets".toList).map
        (fun c => c.Region) = .ok "nyc3".toList := by
  refine ⟨by rfl, by decide, by rfl, by decide, by rfl⟩

/-- C12: for a URL that parses, in both object-store backends: when the first
`auto-create` value is absent or empty (`Get` returns the empty string), a
returned configuration has the auto-create flag set; when its lower-cased
form is in the table `0, false, nil, disable, none, off`, a returned
configuration has the flag cleared; for any other non-empty value `parseURL`
returns no configuration but an error wrapping `ErrURLParse`. On a URL of the
right shape with no `acl` (and, for `do`, no `region`) a configuration is
returned in the first two cases. -/
theorem parseURL_auto_create :
    (∀ (urlString : Str) (u : url.URL), url.Parse urlString = .ok u →
      (u.Query.Get "auto-create".toList = [] →
        ∀ c, awss3.parseURL urlString = .ok c → c.AutoBucketCreate = true)
      ∧ (u.Query.Get "auto-create".toList ≠ [] →
        strings.ToLower (u.Query.Get "auto-create".toList) ∈ awss3.acceptableAutoCreate →
        ∀ c, awss3.parseURL urlString = .ok c → c.AutoBucketCreate = false)
      ∧ (u.Query.Get "auto-create".toList ≠ [] →
        strings.ToLower (u.Query.Get "auto-create".toList) ∉ awss3.acceptableAutoCreate →
        ∃ e, awss3.parseURL urlString = .error e ∧ e.Is awss3.ErrURLParse = true)
      ∧ (awss3.parsere.MatchString urlString = true → u.Query.Get "acl".toList = [] →
        (u.Query.Get "auto-create".toList = []
          ∨ strings.ToLower (u.Query.Get "auto-create".toList) ∈ awss3.acceptableAutoCreate) →
        ∃ c, awss3.parseURL urlString = .ok c))
    ∧ (∀ (urlString : Str) (u : url.URL), url.Parse urlString = .ok u →
      (u.Query.Get "auto-create".toList = [] →
        ∀ c, dospace.parseURL urlString = .ok c → c.AutoSpaceCreate = true)
      ∧ (u.Query.Get "auto-create".toList ≠ [] →
        strings.ToLower (u.Query.Get "auto-create".toList) ∈ dospace.acceptableAutoCreate →
        ∀ c, dospace.parseURL urlString = .ok c → c.AutoSpaceCreate = false)
      ∧ (u.Query.Get "auto-create".toList ≠ [] →
        strings.ToLower (u.Query.Get "auto-create".toList) ∉ dospace.acceptableAutoCreate →
        ∃ e, dospace.parseURL urlString = .error e ∧ e.Is dospace.ErrURLParse = true)
      ∧ (dospace.parsere.MatchString urlString = true → u.Query.Get "acl".toList = [] →
        u.Query.Get "region".toList = [] →
        (u.Query.Get "auto-create".toList = []
          ∨ strings.ToLower (u.Query.Get "auto-create".toList) ∈ dospace.acceptableAutoCreate) →
        ∃ c, dospace.parseURL urlString = .ok c))
    ∧ awss3.acceptableAutoCreate
        = ["0".toList, "false".toList, "nil".toList, "disable".toList, "none".toList,
            "off".toList]
    ∧ dospace.acceptableAutoCreate = awss3.acceptableAutoCreate := by
  refine ⟨fun urlString u hu => ⟨?_, ?_, ?_, ?_⟩, fun urlString u hu => ⟨?_, ?_, ?_, ?_⟩,
    rfl, rfl⟩
  · intro hg c hc
    rcases (awss3.parseURL_ok_facts urlString u c hu hc).2.2 with ⟨-, h⟩ | ⟨h, -, -⟩
    · exact h
    · exact absurd hg h
  · intro hg _ c hc
    rcases (awss3.parseURL_ok_facts urlString u c hu hc).2.2 with ⟨h, -⟩ | ⟨-, -, h⟩
    · exact absurd h hg
    · exact h
  · intro hg hn
    cases hp : awss3.parseURL urlString with
    | error e => exact ⟨e, rfl, awss3.parseURL_error_Is urlString e hp⟩
    | ok c =>
      rcases (awss3.parseURL_ok_facts urlString u c hu hp).2.2 with ⟨h, -⟩ | ⟨-, h, -⟩
      · exact absurd h hg
      · exact absurd h hn
  · intro hm hacl hac
    exact awss3.parseURL_succeeds urlString u hm hu hacl hac
  · intro hg c hc
    rcases (dospace.parseURL_ok_facts_do urlString u c hu hc).2.2 with ⟨-, h⟩ | ⟨h, -, -⟩
    · exact h
    · exact absurd hg h
  · intro hg _ c hc
    rcases (dospace.parseURL_ok_facts_do urlString u c hu hc).2.2 with ⟨h, -⟩ | ⟨-, -, h⟩
    · exact absurd h hg
    · exact h
  · intro hg hn
    cases hp : dospace.parseURL urlString with
    | error e => exact ⟨e, rfl, dospace.parseURL_error_Is_do urlString e hp⟩
    | ok c =>
      rcases (dospace.parseURL_ok_facts_do urlString u c hu hp).2.2 with ⟨h, -⟩ | ⟨-, h, -⟩
      · exact absurd h hg
      · exact absurd h hn
  · intro hm hacl hreg hac
    exact dospace.parseURL_succeeds_do urlString u hm hu hacl hreg hac

/-- The three cases on `awss3` URLs: no `auto-create`, `auto-create=OFF`, and
`auto-create=true`; and the value `NİL`, written with the letter U+0130 or
with its escaped bytes `%C4%B0`, whose lower-cased form is `nil`. -/
theorem parseURL_auto_create_witness :
    (∀ c, awss3.parseURL "awss3://bucket/assets".toList = .ok c → c.AutoBucketCreate = true)
    ∧ (∃ c, awss3.parseURL "awss3://bucket/assets".toList = .ok c)
    ∧ (∀ c, awss3.parseURL "awss3://bucket/assets?auto-create=OFF".toList = .ok c →
        c.AutoBucketCreate = false)
    ∧ (∃ c, awss3.parseURL "awss3://bucket/assets?auto-create=OFF".toList = .ok c)
    ∧ (∃ e, awss3.parseURL "awss3://bucket/assets?auto-create=true".toList = .error e
        ∧ e.Is awss3.ErrURLParse = true)
    ∧ (∃ e, dospace.parseURL "do://mykey:mysecret@test-space/assets?auto-create=yes".toList
        = .error e ∧ e.Is dospace.ErrURLParse = true)
    ∧ (∀ c, awss3.parseURL "awss3://bucket/assets?auto-create=NİL".toList = .ok c →
        c.AutoBucketCreate = false)
    ∧ (∃ c, awss3.parseURL "awss3://bucket/assets?auto-create=NİL".toList = .ok c)
    ∧ (∀ c, dospace.parseURL "do://mykey:mysecret@test-space/assets?auto-create=N%C4%B0L".toList
        = .ok c → c.AutoSpaceCreate = false)
    ∧ (∃ c, dospace.parseURL "do://mykey:mysecret@test-space/assets?auto-create=N%C4%B0L".toList
        = .ok c) :=
  ⟨(parseURL_auto_create.1 "awss3://bucket/assets".toList
      ⟨"awss3".toList, [], "bucket".toList, "/assets".toList, [], []⟩ rfl).1 rfl,
   (parseURL_auto_create.1 "awss3://bucket/assets".toList
      ⟨"awss3".toList, [], "bucket".toList, "/assets".toList, [], []⟩ rfl).2.2.2 rfl rfl
      (Or.inl rfl),
   (parseURL_auto_create.1 "awss3://bucket/assets?auto-create=OFF".toList
      ⟨"awss3".toList, [], "bucket".toList, "/assets".toList, "auto-create=OFF".toList, []⟩
      rfl).2.1 (by decide) (by decide),
   (parseURL_auto_create.1 "awss3://bucket/assets?auto-create=OFF".toList
      ⟨"awss3".toList, [], "bucket".toList, "/assets".toList, "auto-create=OFF".toList, []⟩
      rfl).2.2.2 rfl rfl (Or.inr (by decide)),
   (parseURL_auto_create.1 "awss3://bucket/assets?auto-create=true".toList
      ⟨"awss3".toList, [], "bucket".toList, "/assets".toList, "auto-create=true".toList, []⟩
      rfl).2.2.1 (by decide) (by decide),
   (parseURL_auto_create.2.1 "do://mykey:mysecret@test-space/assets?auto-create=yes".toList
      ⟨"do".toList, [], "test-space".toList, "/assets".toList, "auto-create=yes".toList, []⟩
      rfl).2.2.1 (by decide) (by decide),
   (parseURL_auto_create.1 "awss3://bucket/assets?auto-create=NİL".toList
      ⟨"awss3".toList, [], "bucket".toList, "/assets".toList, "auto-create=NİL".toList, []⟩
      rfl).2.1 (by decide) (by decide),
   (parseURL_auto_create.1 "awss3://bucket/assets?auto-create=NİL".toList
      ⟨"awss3".toList, [], "bucket".toList, "/assets".toList, "auto-create=NİL".toList, []⟩
      rfl).2.2.2 rfl rfl (Or.inr (by decide)),
   (parseURL_auto_create.2.1 "do://mykey:mysecret@test-space/assets?auto-create=N%C4%B0L".toList
      ⟨"do".toList, [], "test-space".toList, "/assets".toList, "auto-create=N%C4%B0L".toList,
        []⟩ rfl).2.1 (by decide) (by decide),
   (parseURL_auto_create.2.1 "do://mykey:mysecret@test-space/assets?auto-create=N%C4%B0L".toList
      ⟨"do".toList, [], "test-space".toList, "/assets".toList, "auto-create=N%C4%B0L".toList,
        []⟩ rfl).2.2.2 rfl rfl rfl (Or.inr (by decide))⟩

/-- C13: a URL string that does not match the backend's expression is a parse
error: `parseURL` returns no configuration and an error wrapping the
backend's `ErrURLParse`. -/
theorem parseURL_shape_mismatch :
    (∀ urlString : Str, awss3.parsere.MatchString urlString = false →
      awss3.parseURL urlString
          = .error (awss3.parseErr
              ": url does not match \"aws://bucket/prefix\" format".toList)
        ∧ (awss3.parseErr ": url does not match \"aws://bucket/prefix\" format".toList).Is
            awss3.ErrURLParse = true)
    ∧ (∀ urlString : Str, dospace.parsere.MatchString urlString = false →
      dospace.parseURL urlString
          = .error (dospace.parseErr
              ": url does not match \"do://key:secret@space/prefix\" format".toList)
        ∧ (dospace.parseErr
            ": url does not match \"do://key:secret@space/prefix\" format".toList).Is
            dospace.ErrURLParse = true) := by
  constructor
  · intro urlString hm
    refine ⟨?_, awss3.parseErr_Is _⟩
    unfold awss3.parseURL
    rw [hm]
    rfl
  · intro urlString hm
    refine ⟨?_, dospace.parseErr_Is_do _⟩
    unfold dospace.parseURL
    rw [hm]
    rfl

/-- The third case of `TestParseURL` in `do-space_test.go`, whose URL lacks
the `key:secret` pair, and an `awss3` URL without a prefix. -/
theorem parseURL_shape_mismatch_witness :
    (dospace.parseURL "do://mysecret@test-space/assets?accept=.txt".toList
        = .error (dospace.parseErr
            ": url does not match \"do://key:secret@space/prefix\" format".toList)
      ∧ (dospace.parseErr
          ": url does not match \"do://key:secret@space/prefix\" format".toList).Is
          dospace.ErrURLParse = true)
    ∧ (awss3.parseURL "awss3://bucket/".toList
        = .error (awss3.parseErr ": url does not match \"aws://bucket/prefix\" format".toList)
      ∧ (awss3.parseErr ": url does not match \"aws://bucket/prefix\" format".toList).Is
          awss3.ErrURLParse = true) :=
  ⟨parseURL_shape_mismatch.2 "do://mysecret@test-space/assets?accept=.txt".toList rfl,
   parseURL_shape_mismatch.1 "awss3://bucket/".toList rfl⟩

/-! ## The accept-set of a configuration -/

/-- The members of a parsed accept-set: the defaults when there is no `accept`
key, otherwise the non-empty pieces of its values. -/
theorem util.mem_ParseCommaSeparatedQuery (q : url.Values) (field : Str) (defaults : List Str)
    (x : Str) :
    x ∈ util.ParseCommaSeparatedQuery q field defaults ↔
      (q.lookup field = none ∧ x ∈ defaults)
      ∨ (∃ objects, q.lookup field = some objects
          ∧ x ≠ [] ∧ ∃ obj ∈ objects, x ∈ strings.Split obj ',') := by
  unfold util.ParseCommaSeparatedQuery
  cases q.lookup field with
  | none => simp [util.mem_foldl_defaults]
  | some objects => simp [util.mem_addPieces]

/-- What `fs.Filesystem.Open` stores as accept-set. -/
theorem fs.Open_ok_accept (self s : Nat) (urlString : Str) (w w1 : fs.World) (u : url.URL)
    (hu : url.Parse urlString = .ok u)
    (h : fs.Filesystem.Open self urlString w = (Go.done (.ok s), w1)) :
    s = self ∧ (w1.heap s).accept = util.ParseCommaSeparatedQuery u.Query "accept".toList
      [".jpeg".toList, ".jpg".toList, ".png".toList, ".svg".toList] := by
  unfold fs.Filesystem.Open at h
  rw [hu] at h
  simp only at h
  split at h
  · simp at h
  · simp only [Prod.mk.injEq, Go.done.injEq, Except.ok.injEq] at h
    obtain ⟨h1, h2⟩ := h
    subst h1
    rw [← h2]
    simp

/-- C14: the code does not use its documented default. The doc comments of
both `Open` methods give the default accept-set `.jgp,.jpeg,.png,.svg`; the
set `parseURL` builds for `awss3://testbucket/assets` and for
`do://mykey:mysecret@test-space/assets`, which have no `accept` parameter,
holds `.jpg` and does not hold `.jgp`. For every URL without an `accept`
parameter that `parseURL` accepts, the accept-set has exactly the members
`.jpeg`, `.jpg`, `.png` and `.svg`. -/
theorem parseURL_default_accept_not_documented :
    (awss3.parseURL "awss3://testbucket/assets".toList).map (fun c => c.accept)
        = .ok [".svg".toList, ".png".toList, ".jpg".toList, ".jpeg".toList]
    ∧ (dospace.parseURL "do://mykey:mysecret@test-space/assets".toList).map (fun c => c.accept)
        = .ok [".svg".toList, ".png".toList, ".jpg".toList, ".jpeg".toList]
    ∧ ".jgp".toList ∉ [".svg".toList, ".png".toList, ".jpg".toList, ".jpeg".toList]
    ∧ ".jpg".toList ∉ [".jgp".toList, ".jpeg".toList, ".png".toList, ".svg".toList]
    ∧ (∀ (urlString : Str) (u : url.URL) (c : awss3.Config),
      url.Parse urlString = .ok u → u.Query.lookup "accept".toList = none →
      awss3.parseURL urlString = .ok c →
      (∀ x, x ∈ c.accept ↔
        x = ".jpeg".toList ∨ x = ".jpg".toList ∨ x = ".png".toList ∨ x = ".svg".toList))
    ∧ (∀ (urlString : Str) (u : url.URL) (c : dospace.Config),
      url.Parse urlString = .ok u → u.Query.lookup "accept".toList = none →
      dospace.parseURL urlString = .ok c →
      (∀ x, x ∈ c.accept ↔
        x = ".jpeg".toList ∨ x = ".jpg".toList ∨ x = ".png".toList ∨ x = ".svg".toList)) := by
  have key : ∀ (q : url.Values), q.lookup "accept".toList = none →
      ∀ x, x ∈ util.ParseCommaSeparatedQuery q "accept".toList
          [".jpeg".toList, ".jpg".toList, ".png".toList, ".svg".toList] ↔
        x = ".jpeg".toList ∨ x = ".jpg".toList ∨ x = ".png".toList ∨ x = ".svg".toList := by
    intro q hq x
    rw [util.mem_ParseCommaSeparatedQuery]
    simp only [hq, true_and, reduceCtorEq, false_and, exists_false, or_false, List.mem_cons,
      List.mem_nil_iff]
  refine ⟨by rfl, by rfl, by decide, by decide, ?_, ?_⟩
  · intro urlString u c hu hq hc
    rw [(awss3.parseURL_ok_facts urlString u c hu hc).2.1]
    exact key u.Query hq
  · intro urlString u c hu hq hc
    rw [(dospace.parseURL_ok_facts_do urlString u c hu hc).2.1]
    exact key u.Query hq

/-- C15, as stated, fails: `accept=PNG` is accepted by the three backends and
the accept-set then holds `PNG`, which is neither lowercase nor begins with a
dot. -/
theorem accept_set_kept_verbatim :
    (awss3.parseURL "awss3://testbucket/assets?accept=PNG".toList).map (fun c => c.accept)
        = .ok ["PNG".toList]
    ∧ (dospace.parseURL "do://mykey:mysecret@test-space/assets?accept=PNG".toList).map
        (fun c => c.accept) = .ok ["PNG".toList]
    ∧ (fs.Filesystem.Open 0 "fs:///a?root=/tmp/r&accept=PNG".toList Example.initWorld).1
        = Go.done (.ok 0)
    ∧ ((fs.Filesystem.Open 0 "fs:///a?root=/tmp/r&accept=PNG".toList
        Example.initWorld).2.heap 0).accept = ["PNG".toList]
    ∧ strings.ToLower "PNG".toList ≠ "PNG".toList
    ∧ "PNG".toList.head? ≠ some '.' := by
  refine ⟨by rfl, by rfl, by rfl, by rfl, by decide, by decide⟩

/-- The two cases of an accept-set parsed from the query `q`. -/
theorem util.accept_members (q : url.Values) (defaults : List Str)
    (hd : ∀ x ∈ defaults, strings.ToLower x = x ∧ x.head? = some '.') :
    (q.lookup "accept".toList = none →
      ∀ x ∈ util.ParseCommaSeparatedQuery q "accept".toList defaults,
        strings.ToLower x = x ∧ x.head? = some '.')
    ∧ (∀ objects, q.lookup "accept".toList = some objects →
      ∀ x ∈ util.ParseCommaSeparatedQuery q "accept".toList defaults,
        x ≠ [] ∧ ∃ obj ∈ objects, x ∈ strings.Split obj ',') := by
  constructor
  · intro hq x hx
    rw [util.mem_ParseCommaSeparatedQuery] at hx
    rcases hx with ⟨-, hx⟩ | ⟨objects, ho, -⟩
    · exact hd x hx
    · rw [hq] at ho; cases ho
  · intro objects hq x hx
    rw [util.mem_ParseCommaSeparatedQuery] at hx
    rcases hx with ⟨hn, -⟩ | ⟨objects1, ho, hx⟩
    · rw [hq] at hn; cases hn
    · rw [hq] at ho
      cases ho
      exact hx

/-- C15, amended: for every connection URL a backend accepts, when the URL
has no `accept` parameter every member of the accept-set is a lowercase string
that begins with a dot (a default); when it has one, every member is a
non-empty piece of one of the parameter's values split at commas, kept as
written. -/
theorem accept_set_members :
    (∀ (urlString : Str) (u : url.URL) (c : awss3.Config),
      url.Parse urlString = .ok u → awss3.parseURL urlString = .ok c →
      (u.Query.lookup "accept".toList = none →
        ∀ x ∈ c.accept, strings.ToLower x = x ∧ x.head? = some '.')
      ∧ (∀ objects, u.Query.lookup "accept".toList = some objects →
        ∀ x ∈ c.accept, x ≠ [] ∧ ∃ obj ∈ objects, x ∈ strings.Split obj ','))
    ∧ (∀ (urlString : Str) (u : url.URL) (c : dospace.Config),
      url.Parse urlString = .ok u → dospace.parseURL urlString = .ok c →
      (u.Query.lookup "accept".toList = none →
        ∀ x ∈ c.accept, strings.ToLower x = x ∧ x.head? = some '.')
      ∧ (∀ objects, u.Query.lookup "accept".toList = some objects →
        ∀ x ∈ c.accept, x ≠ [] ∧ ∃ obj ∈ objects, x ∈ strings.Split obj ','))
    ∧ (∀ (self s : Nat) (urlString : Str) (w w1 : fs.World) (u : url.URL),
      url.Parse urlString = .ok u →
      fs.Filesystem.Open self urlString w = (Go.done (.ok s), w1) →
      (u.Query.lookup "accept".toList = none →
        ∀ x ∈ (w1.heap s).accept, strings.ToLower x = x ∧ x.head? = some '.')
      ∧ (∀ objects, u.Query.lookup "accept".toList = some objects →
        ∀ x ∈ (w1.heap s).accept, x ≠ [] ∧ ∃ obj ∈ objects, x ∈ strings.Split obj ',')) := by
  have hd : ∀ x ∈ [".jpeg".toList, ".jpg".toList, ".png".toList, ".svg".toList],
      strings.ToLower x = x ∧ x.head? = some '.' := by decide
  refine ⟨?_, ?_, ?_⟩
  · intro urlString u c hu hc
    rw [(awss3.parseURL_ok_facts urlString u c hu hc).2.1]
    exact util.accept_members u.Query _ hd
  · intro urlString u c hu hc
    rw [(dospace.parseURL_ok_facts_do urlString u c hu hc).2.1]
    exact util.accept_members u.Query _ hd
  · intro self s urlString w w1 u hu h
    rw [(fs.Open_ok_accept self s urlString w w1 u hu h).2]
    exact util.accept_members u.Query _ hd

/-- The accept-set of `awss3://testbucket/assets?accept=.txt,PNG`: its members
`PNG` and `.txt` are the two pieces of the value. -/
theorem accept_set_members_witness :
    (awss3.parseURL "awss3://testbucket/assets?accept=.txt,PNG".toList).map (fun c => c.accept)
        = .ok ["PNG".toList, ".txt".toList]
    ∧ ("PNG".toList ≠ [] ∧ ∃ obj ∈ [".txt,PNG".toList], "PNG".toList ∈ strings.Split obj ',')
    ∧ (".txt".toList ≠ [] ∧ ∃ obj ∈ [".txt,PNG".toList], ".txt".toList ∈ strings.Split obj ',') :=
  ⟨rfl,
   (accept_set_members.1 "awss3://testbucket/assets?accept=.txt,PNG".toList
    ⟨"awss3".toList, [], "testbucket".toList, "/assets".toList, "accept=.txt,PNG".toList, []⟩
    ⟨true, "us-east-1".toList, "testbucket".toList, "/assets".toList, "public-read".toList,
      ["PNG".toList, ".txt".toList]⟩ rfl rfl).2 [".txt,PNG".toList] rfl "PNG".toList
      (by decide),
   (accept_set_members.1 "awss3://testbucket/assets?accept=.txt,PNG".toList
    ⟨"awss3".toList, [], "testbucket".toList, "/assets".toList, "accept=.txt,PNG".toList, []⟩
    ⟨true, "us-east-1".toList, "testbucket".toList, "/assets".toList, "public-read".toList,
      ["PNG".toList, ".txt".toList]⟩ rfl rfl).2 [".txt,PNG".toList] rfl ".txt".toList
      (by decide)⟩

/-! ## The content types -/

set_option maxRecDepth 100000 in
/-- No extension stands in two cases of the `switch`: looking an extension of
a case up finds that case. -/
theorem storage.contentTypes_unique :
    ∀ c ∈ storage.contentTypes, ∀ e ∈ c.1,
      storage.contentTypes.find? (fun c1 => decide (e ∈ c1.1)) = some c := by
  decide

set_option maxRecDepth 100000 in
theorem storage.contentTypes_nonempty : ∀ c ∈ storage.contentTypes, c.2 ≠ [] := by
  decide


/-- C16: `ResolveContentType` returns a non-empty content type for every
input; the result depends only on `filepath.Ext` of the input; for an
extension that stands in a case of the `switch` it is the content type of
that case, and for every other extension it is `text/html; charset=UTF-8`.
In particular `.json` gives `application/json; charset=UTF-8`, `.png` gives
`image/png`, and the empty string, a path without extension, an unknown
extension and `.PNG` give the fallback. -/
theorem ResolveContentType_total :
    (∀ path, storage.ResolveContentType path ≠ [])
    ∧ (∀ p q, filepath.Ext p = filepath.Ext q →
        storage.ResolveContentType p = storage.ResolveContentType q)
    ∧ (∀ path, ∀ c ∈ storage.contentTypes, filepath.Ext path ∈ c.1 →
        storage.ResolveContentType path = c.2)
    ∧ (∀ path, (∀ c ∈ storage.contentTypes, filepath.Ext path ∉ c.1) →
        storage.ResolveContentType path = "text/html; charset=UTF-8".toList)
    ∧ storage.ResolveContentType "data.json".toList = "application/json; charset=UTF-8".toList
    ∧ storage.ResolveContentType "img/logo.png".toList = "image/png".toList
    ∧ storage.ResolveContentType [] = "text/html; charset=UTF-8".toList
    ∧ storage.ResolveContentType "README".toList = "text/html; charset=UTF-8".toList
    ∧ storage.ResolveContentType "a.unknown".toList = "text/html; charset=UTF-8".toList
    ∧ storage.ResolveContentType "img/logo.PNG".toList = "text/html; charset=UTF-8".toList := by
  refine ⟨fun path => ?_, fun p q h => ?_, fun path c hc he => ?_, fun path h => ?_,
    by rfl, by rfl, by rfl, by rfl, by rfl, by rfl⟩
  · unfold storage.ResolveContentType
    cases hf : storage.contentTypes.find? (fun c => decide (filepath.Ext path ∈ c.1)) with
    | none => simp
    | some c => exact storage.contentTypes_nonempty c (List.mem_of_find?_eq_some hf)
  · unfold storage.ResolveContentType
    rw [h]
  · unfold storage.ResolveContentType
    rw [storage.contentTypes_unique c hc _ he]
  · unfold storage.ResolveContentType
    have hf : storage.contentTypes.find? (fun c => decide (filepath.Ext path ∈ c.1)) = none := by
      rw [List.find?_eq_none]
      intro c hc
      simpa using h c hc
    rw [hf]

/-! ## The object-store drivers -/

theorem storage.alreadyExists_Is (key : Str) :
    (storage.alreadyExists key).Is storage.ErrAlreadyExists = true := by
  simp [storage.alreadyExists, GoError.Is, storage.ErrAlreadyExists]

/-- C17: `AddFile` of the object-store drivers, for every client. A path with
an extension that is not accepted makes no call. For an accepted extension
the driver probes `HeadObject` on the key `path.Join(Prefix, p)`: when the
probe finds an object (returns no error), `AddFile` fails with an error
wrapping `ErrAlreadyExists` and the store is left as the probe left it, with
no upload; when the probe returns an error, the driver uploads under that
key with the configured ACL and the content type `ResolveContentType(p)`, and
returns `path.Join(Path(), p)` when the upload succeeds and the upload's
error otherwise. On the in-memory store the log of calls shows the same: an
existing object leaves the objects unchanged and only the probe logged, a
missing one logs the probe and then the upload. -/
theorem AddFile_object_store_policy :
    (∀ key, (storage.alreadyExists key).Is storage.ErrAlreadyExists = true)
    ∧ (∀ (σ : Type) (s : awss3.S3Storage σ) (r : Reader) (p : Str) (st : σ),
      (filepath.Ext p ∉ s.config.accept →
        s.AddFile r p st = (.error (storage.invalidExtension (filepath.Ext p)), st))
      ∧ (filepath.Ext p ∈ s.config.accept → ∀ st1,
        s.client.HeadObject s.config.Bucket (pathpkg.Join [s.config.Prefix, p]) st = (none, st1) →
        s.AddFile r p st
          = (.error (storage.alreadyExists (pathpkg.Join [s.config.Prefix, p])), st1))
      ∧ (filepath.Ext p ∈ s.config.accept → ∀ e st1,
        s.client.HeadObject s.config.Bucket (pathpkg.Join [s.config.Prefix, p]) st
          = (some e, st1) →
        (∀ st2, s.client.Upload s.config.Bucket (pathpkg.Join [s.config.Prefix, p]) r
            s.config.FileACL (storage.ResolveContentType p) st1 = (none, st2) →
          s.AddFile r p st = (.ok (pathpkg.Join [s.Path, p]), st2))
        ∧ (∀ err st2, s.client.Upload s.config.Bucket (pathpkg.Join [s.config.Prefix, p]) r
            s.config.FileACL (storage.ResolveContentType p) st1 = (some err, st2) →
          s.AddFile r p st = (.error err, st2))))
    ∧ (∀ (σ : Type) (s : dospace.DOSpace σ) (r : Reader) (p : Str) (st : σ),
      (filepath.Ext p ∉ s.config.accept →
        s.AddFile r p st = (.error (storage.invalidExtension (filepath.Ext p)), st))
      ∧ (filepath.Ext p ∈ s.config.accept → ∀ st1,
        s.client.HeadObject s.config.Space (pathpkg.Join [s.config.Prefix, p]) st = (none, st1) →
        s.AddFile r p st
          = (.error (storage.alreadyExists (pathpkg.Join [s.config.Prefix, p])), st1))
      ∧ (filepath.Ext p ∈ s.config.accept → ∀ e st1,
        s.client.HeadObject s.config.Space (pathpkg.Join [s.config.Prefix, p]) st
          = (some e, st1) →
        (∀ st2, s.client.Upload s.config.Space (pathpkg.Join [s.config.Prefix, p]) r
            s.config.FileACL (storage.ResolveContentType p) st1 = (none, st2) →
          s.AddFile r p st = (.ok (pathpkg.Join [s.Path, p]), st2))
        ∧ (∀ err st2, s.client.Upload s.config.Space (pathpkg.Join [s.config.Prefix, p]) r
            s.config.FileACL (storage.ResolveContentType p) st1 = (some err, st2) →
          s.AddFile r p st = (.error err, st2))))
    ∧ (∀ (cfg : awss3.Config) (r : Reader) (p : Str) (st : s3.Store),
      filepath.Ext p ∈ cfg.accept →
      (∀ body, st.objects.lookup (cfg.Bucket, pathpkg.Join [cfg.Prefix, p]) = some body →
        ((⟨s3.memClient, cfg⟩ : awss3.S3Storage s3.Store).AddFile r p st).2
          = ⟨st.objects,
              s3.Call.headObject cfg.Bucket (pathpkg.Join [cfg.Prefix, p]) :: st.calls,
              st.buckets⟩)
      ∧ (st.objects.lookup (cfg.Bucket, pathpkg.Join [cfg.Prefix, p]) = none →
        ((⟨s3.memClient, cfg⟩ : awss3.S3Storage s3.Store).AddFile r p st).2
          = ⟨((cfg.Bucket, pathpkg.Join [cfg.Prefix, p]), r.data) :: st.objects,
              s3.Call.upload cfg.Bucket (pathpkg.Join [cfg.Prefix, p]) r.data cfg.FileACL
                  (storage.ResolveContentType p)
                :: s3.Call.headObject cfg.Bucket (pathpkg.Join [cfg.Prefix, p]) :: st.calls,
              st.buckets⟩)) := by
  refine ⟨storage.alreadyExists_Is, ?_, ?_, ?_⟩
  · intro σ s r p st
    refine ⟨fun h => ?_, fun h st1 hh => ?_, fun h e st1 hh => ⟨fun st2 hu => ?_, fun err st2 hu => ?_⟩⟩
    · simp [awss3.S3Storage.AddFile, awss3.S3Storage.Accepts, h]
    · simp [awss3.S3Storage.AddFile, awss3.S3Storage.Accepts, h, hh]
    · simp [awss3.S3Storage.AddFile, awss3.S3Storage.Accepts, h, hh, hu]
    · simp [awss3.S3Storage.AddFile, awss3.S3Storage.Accepts, h, hh, hu]
  · intro σ s r p st
    refine ⟨fun h => ?_, fun h st1 hh => ?_, fun h e st1 hh => ⟨fun st2 hu => ?_, fun err st2 hu => ?_⟩⟩
    · simp [dospace.DOSpace.AddFile, dospace.DOSpace.Accepts, h]
    · simp [dospace.DOSpace.AddFile, dospace.DOSpace.Accepts, h, hh]
    · simp [dospace.DOSpace.AddFile, dospace.DOSpace.Accepts, h, hh, hu]
    · simp [dospace.DOSpace.AddFile, dospace.DOSpace.Accepts, h, hh, hu]
  · intro cfg r p st h
    constructor
    · intro body hb
      simp [awss3.S3Storage.AddFile, awss3.S3Storage.Accepts, h, s3.memClient,
        s3.Store.HeadObject, hb]
    · intro hb
      cases hr : r.err <;>
        simp [awss3.S3Storage.AddFile, awss3.S3Storage.Accepts, h, s3.memClient,
          s3.Store.HeadObject, s3.Store.Upload, hb, hr]

/-- On the example `awss3` driver: a first `AddFile` of `a.txt` probes and
uploads under the key `/assets/a.txt` with ACL `public-read` and content type
`text/plain; charset=UTF-8`; a second one only probes, fails with an error
wrapping `ErrAlreadyExists`, and leaves the object as it was. -/
theorem AddFile_object_store_policy_witness :
    (Example.s3Driver.AddFile (strings.NewReader "hello world".toList) "a.txt".toList
        Example.emptyStore).2
      = ⟨[(("testbucket".toList, "/assets/a.txt".toList), "hello world".toList)],
          [s3.Call.upload "testbucket".toList "/assets/a.txt".toList "hello world".toList
              "public-read".toList "text/plain; charset=UTF-8".toList,
            s3.Call.headObject "testbucket".toList "/assets/a.txt".toList], []⟩
    ∧ Example.s3Driver.AddFile (strings.NewReader "changed".toList) "a.txt".toList
        Example.fullStore
      = (.error (storage.alreadyExists "/assets/a.txt".toList),
          ⟨Example.fullStore.objects,
            [s3.Call.headObject "testbucket".toList "/assets/a.txt".toList],
            Example.fullStore.buckets⟩) :=
  ⟨(AddFile_object_store_policy.2.2.2 Example.s3Driver.config
      (strings.NewReader "hello world".toList) "a.txt".toList Example.emptyStore
      (by decide)).2 rfl,
   (AddFile_object_store_policy.2.1 s3.Store Example.s3Driver
      (strings.NewReader "changed".toList) "a.txt".toList Example.fullStore).2.1
      (by decide) _ rfl⟩

/-- C18: `DOSpace.DeleteContainer` does not empty the space: for every client
it is the `DeleteBucket` call alone. On the in-memory store holding an object
in the space, the only call received is `deleteBucket`, which fails because
the space is not empty. `S3Storage.DeleteContainer` on the same store first
issues the batch delete and then `deleteBucket`, and when the batch delete
fails it returns that error without calling `deleteBucket`. -/
theorem dospace_DeleteContainer_skips_emptying :
    (∀ (σ : Type) (d : dospace.DOSpace σ) (st : σ),
      d.DeleteContainer st = d.client.DeleteBucket d.config.Space st)
    ∧ Example.doDriver.DeleteContainer Example.fullStore
      = (some s3.bucketNotEmpty,
          ⟨Example.fullStore.objects, [s3.Call.deleteBucket "test-space".toList],
            Example.fullStore.buckets⟩)
    ∧ Example.s3Driver.DeleteContainer Example.fullStore
      = (none,
          ⟨[(("test-space".toList, "/assets/a.txt".toList), "hello world".toList)],
            [s3.Call.deleteBucket "testbucket".toList, s3.Call.batchDelete "testbucket".toList],
            ["test-space".toList]⟩)
    ∧ Example.s3ReadOnlyDriver.DeleteContainer Example.fullStore
      = (some s3.accessDenied,
          ⟨Example.fullStore.objects, [s3.Call.batchDelete "testbucket".toList],
            Example.fullStore.buckets⟩) := by
  refine ⟨fun σ d st => ?_, by rfl, by rfl, by rfl⟩
  unfold dospace.DOSpace.DeleteContainer
  simp only
  rcases d.client.DeleteBucket d.config.Space st with ⟨_ | e, st1⟩ <;> rfl

/-- C20: `BucketExists` returns false for the empty bucket name without a
call on the client. Otherwise it makes the one call `HeadBucket` and returns
true exactly when that call returns no error or an AWS error whose code is
neither `NotFound` nor `NoSuchBucket`; so it returns false for those two
codes and for an error that is not an AWS error. -/
theorem BucketExists_decision_table {σ : Type} (client : s3.S3API σ) (bucket : Str) (st : σ) :
    (bucket = [] → util.BucketExists client bucket st = (false, st))
    ∧ (bucket ≠ [] →
      (util.BucketExists client bucket st).2 = (client.HeadBucket bucket st).2
      ∧ ((util.BucketExists client bucket st).1 = true ↔
          ((client.HeadBucket bucket st).1 = none
            ∨ ∃ code message, (client.HeadBucket bucket st).1 = some (GoError.awsErr code message)
                ∧ code ≠ "NotFound".toList ∧ code ≠ s3.ErrCodeNoSuchBucket))
      ∧ (∀ message, (client.HeadBucket bucket st).1
            = some (GoError.awsErr "NotFound".toList message) →
          (util.BucketExists client bucket st).1 = false)
      ∧ (∀ message, (client.HeadBucket bucket st).1
            = some (GoError.awsErr s3.ErrCodeNoSuchBucket message) →
          (util.BucketExists client bucket st).1 = false)
      ∧ (∀ e, (client.HeadBucket bucket st).1 = some e →
          (∀ code message, e ≠ GoError.awsErr code message) →
          (util.BucketExists client bucket st).1 = false)) := by
  constructor
  · intro h
    simp [util.BucketExists, h]
  · intro h
    unfold util.BucketExists
    generalize client.HeadBucket bucket st = res
    obtain ⟨err, st1⟩ := res
    simp only [h, if_false]
    refine ⟨trivial, ?_, ?_, ?_, ?_⟩
    · cases err with
      | none => simp
      | some e =>
        cases e with
        | awsErr code message =>
          by_cases h1 : code = "NotFound".toList
          · simp [h1]
          · by_cases h2 : code = s3.ErrCodeNoSuchBucket
            · simp [h1, h2]
            · simp [h1, h2]
        | new t => simp
        | wrap t inner => simp
        | pathError op path errno => simp
    · intro message he
      subst he
      simp
    · intro message he
      subst he
      simp
    · intro e he hne
      subst he
      cases e with
      | awsErr code message => exact absurd rfl (hne code message)
      | new t => simp
      | wrap t inner => simp
      | pathError op path errno => simp

/-- On the in-memory store: the empty name makes no call, the bucket
`testbucket` exists, and a bucket the store does not hold is reported with the
code `NotFound`. -/
theorem BucketExists_decision_table_witness :
    util.BucketExists s3.memClient [] Example.fullStore = (false, Example.fullStore)
    ∧ util.BucketExists s3.memClient "testbucket".toList Example.fullStore
      = (true, ⟨Example.fullStore.objects, [s3.Call.headBucket "testbucket".toList],
          Example.fullStore.buckets⟩)
    ∧ (util.BucketExists s3.memClient "missing".toList Example.fullStore).1 = false :=
  ⟨(BucketExists_decision_table s3.memClient [] Example.fullStore).1 rfl,
   rfl,
   ((BucketExists_decision_table s3.memClient "missing".toList Example.fullStore).2
      (by decide)).2.2.1 "Not Found".toList rfl⟩

/-! ## `NormalizePath` -/

theorem strings.splitAux_append (sep : Char) (a b cur : Str) :
    strings.splitAux sep (a ++ sep :: b) cur
      = strings.splitAux sep a cur ++ strings.splitAux sep b [] := by
  induction a generalizing cur with
  | nil => simp [strings.splitAux]
  | cons c a ih =>
    simp only [List.cons_append, strings.splitAux, List.append_eq]
    split
    · rw [ih]; simp
    · rw [ih]

/-- The pieces of joined elements are the pieces of the elements. -/
theorem strings.Split_Join (l : List Str) (h : l ≠ []) :
    strings.Split (strings.Join l ['/']) '/' = l.flatMap (fun e => strings.Split e '/') := by
  induction l with
  | nil => exact absurd rfl h
  | cons e es ih =>
    cases es with
    | nil => simp [strings.Join]
    | cons e2 es2 =>
      have := ih (by simp)
      simp only [strings.Join, List.flatMap_cons] at this ⊢
      simp only [strings.Split] at this ⊢
      rw [List.append_assoc, List.singleton_append, strings.splitAux_append, this]

/-- A piece of a split text holds no separator. -/
theorem strings.splitAux_no_sep (sep : Char) (s cur : Str) (hc : sep ∉ cur) :
    ∀ piece ∈ strings.splitAux sep s cur, sep ∉ piece := by
  induction s generalizing cur with
  | nil => simpa [strings.splitAux] using hc
  | cons c s ih =>
    simp only [strings.splitAux]
    split
    · intro piece hp
      rcases List.mem_cons.mp hp with h | h
      · rw [h]; simpa using hc
      · exact ih [] (by simp) piece h
    · rename_i hne
      apply ih
      intro hm
      rcases List.mem_cons.mp hm with h | h
      · exact hne h.symm
      · exact hc h

/-- Elements other than `..` only add to the kept elements. -/
theorem filepath.foldl_cleanStep_grow (rooted : Bool) (pieces stack : List Str)
    (h : ∀ e ∈ pieces, e ≠ ['.', '.']) :
    ∃ added, pieces.foldl (filepath.cleanStep rooted) stack = added ++ stack := by
  induction pieces generalizing stack with
  | nil => exact ⟨[], rfl⟩
  | cons e rest ih =>
    have he : e ≠ ['.', '.'] := h e (List.mem_cons_self _ _)
    have hrest : ∀ x ∈ rest, x ≠ ['.', '.'] := fun x hx => h x (List.mem_cons_of_mem _ hx)
    simp only [List.foldl_cons]
    by_cases h1 : e = [] ∨ e = ['.']
    · have : filepath.cleanStep rooted stack e = stack := by simp [filepath.cleanStep, h1]
      rw [this]
      exact ih stack hrest
    · have : filepath.cleanStep rooted stack e = e :: stack := by
        simp [filepath.cleanStep, h1, he]
      rw [this]
      obtain ⟨added, ha⟩ := ih (e :: stack) hrest
      exact ⟨added ++ [e], by rw [ha]; simp⟩

/-- Joining more elements extends the joined text, after a separator. -/
theorem strings.Join_append (a b : List Str) (h : a ≠ []) :
    strings.Join (a ++ b) ['/'] = strings.Join a ['/']
      ∨ ∃ rest, strings.Join (a ++ b) ['/'] = strings.Join a ['/'] ++ '/' :: rest := by
  induction a with
  | nil => exact absurd rfl h
  | cons e es ih =>
    cases es with
    | nil =>
      cases b with
      | nil => left; simp
      | cons b1 bs => right; exact ⟨strings.Join (b1 :: bs) ['/'], by simp [strings.Join]⟩
    | cons e2 es2 =>
      rcases ih (by simp) with h1 | ⟨rest, h1⟩
      · left
        simp only [List.cons_append, strings.Join, List.append_eq] at h1 ⊢
        rw [h1]
      · right
        refine ⟨rest, ?_⟩
        simp only [List.cons_append, strings.Join, List.append_eq] at h1 ⊢
        rw [h1]
        simp

/-- The kept elements of a cleaned path are not empty and hold no separator. -/
theorem filepath.foldl_cleanStep_elems (rooted : Bool) (pieces stack : List Str)
    (hp : ∀ e ∈ pieces, '/' ∉ e) (hs : ∀ e ∈ stack, e ≠ [] ∧ '/' ∉ e) :
    ∀ e ∈ pieces.foldl (filepath.cleanStep rooted) stack, e ≠ [] ∧ '/' ∉ e := by
  induction pieces generalizing stack with
  | nil => simpa using hs
  | cons p rest ih =>
    simp only [List.foldl_cons]
    apply ih _ (fun e he => hp e (List.mem_cons_of_mem _ he))
    have hpp := hp p (List.mem_cons_self _ _)
    unfold filepath.cleanStep
    split
    · exact hs
    · rename_i h1
      have hne : p ≠ [] := fun h => h1 (Or.inl h)
      split
      · cases stack with
        | nil =>
          cases rooted
          · intro e he
            simp only [Bool.false_eq_true, if_false, List.mem_singleton] at he
            rw [he]; exact ⟨hne, hpp⟩
          · intro e he; simp at he
        | cons top tl =>
          simp only
          split
          · intro e he
            rcases List.mem_cons.mp he with h | h
            · rw [h]; exact ⟨hne, hpp⟩
            · exact hs e h
          · intro e he
            exact hs e (List.mem_cons_of_mem _ he)
      · intro e he
        rcases List.mem_cons.mp he with h | h
        · rw [h]; exact ⟨hne, hpp⟩
        · exact hs e h

/-- Joined elements that are not empty and hold no separator: the text does
not start with a separator and has no two separators in a row. -/
theorem strings.Join_chain (l : List Str) (h : ∀ e ∈ l, e ≠ [] ∧ '/' ∉ e) :
    List.Chain' (fun a b => ¬(a = '/' ∧ b = '/')) (strings.Join l ['/'])
      ∧ (strings.Join l ['/']).head? ≠ some '/' := by
  have hfree : ∀ e : Str, '/' ∉ e → List.Chain' (fun a b => ¬(a = '/' ∧ b = '/')) e := by
    intro e he
    induction e with
    | nil => exact List.chain'_nil
    | cons c e ih =>
      cases e with
      | nil => exact List.chain'_singleton c
      | cons c2 e2 =>
        rw [List.chain'_cons]
        refine ⟨fun hh => he (by rw [hh.1]; exact List.mem_cons_self _ _), ?_⟩
        exact ih (fun hm => he (List.mem_cons_of_mem _ hm))
  have hhead : ∀ e : Str, e ≠ [] → '/' ∉ e → ∀ t : Str, (e ++ t).head? ≠ some '/' := by
    intro e hne he t
    cases e with
    | nil => exact absurd rfl hne
    | cons c e =>
      simp only [List.cons_append, List.head?_cons, ne_eq, Option.some.injEq]
      intro hc
      exact he (by rw [hc]; exact List.mem_cons_self _ _)
  induction l with
  | nil => simp [strings.Join]
  | cons e es ih =>
    obtain ⟨hne, hfe⟩ := h e (List.mem_cons_self _ _)
    cases es with
    | nil =>
      simp only [strings.Join]
      refine ⟨hfree e hfe, ?_⟩
      have := hhead e hne hfe []
      rwa [List.append_nil] at this
    | cons e2 es2 =>
      obtain ⟨ih1, ih2⟩ := ih (fun x hx => h x (List.mem_cons_of_mem _ hx))
      simp only [strings.Join] at ih1 ih2 ⊢
      refine ⟨?_, by rw [List.append_assoc]; exact hhead e hne hfe _⟩
      rw [List.append_assoc, List.chain'_append]
      refine ⟨hfree e hfe, ?_, ?_⟩
      · rw [List.singleton_append]
        generalize hj : strings.Join (e2 :: es2) ['/'] = j at ih1 ih2 ⊢
        cases j with
        | nil => exact List.chain'_singleton _
        | cons c j =>
          rw [List.chain'_cons]
          refine ⟨fun hh => ih2 (by rw [hh.2]; rfl), ih1⟩
      · intro x hx y _ hxy
        have : x ∈ e := List.mem_of_mem_getLast? hx
        exact hfe (hxy.1 ▸ this)

/-- A cleaned path has no two separators in a row. -/
theorem filepath.Clean_chain (path : Str) :
    List.Chain' (fun a b => ¬(a = '/' ∧ b = '/')) (filepath.Clean path) := by
  unfold filepath.Clean
  split
  · exact List.chain'_singleton _
  · simp only
    have hel : ∀ rooted, ∀ e ∈ ((strings.Split path '/').foldl (filepath.cleanStep rooted)
        []).reverse, e ≠ [] ∧ '/' ∉ e := by
      intro rooted e he
      exact filepath.foldl_cleanStep_elems rooted _ []
        (strings.splitAux_no_sep '/' path [] (by simp)) (by simp) e (List.mem_reverse.mp he)
    split
    · obtain ⟨h1, h2⟩ := strings.Join_chain _ (hel (strings.HasPrefix path ['/']))
      generalize strings.Join ((strings.Split path '/').foldl
        (filepath.cleanStep (strings.HasPrefix path ['/'])) []).reverse ['/'] = j at h1 h2 ⊢
      cases j with
      | nil => exact List.chain'_singleton _
      | cons c j =>
        rw [List.chain'_cons]
        exact ⟨fun hh => h2 (by rw [hh.2]; rfl), h1⟩
    · split
      · exact List.chain'_singleton _
      · exact (strings.Join_chain _ (hel (strings.HasPrefix path ['/']))).1

theorem filepath.Join_elems_chain (elem : List Str) :
    List.Chain' (fun a b => ¬(a = '/' ∧ b = '/')) (filepath.Join elem) := by
  induction elem with
  | nil => exact List.chain'_nil
  | cons e es ih =>
    unfold filepath.Join
    split
    · exact ih
    · exact filepath.Clean_chain _


theorem filepath.Clean_rooted (s : Str) (h : strings.HasPrefix s ['/'] = true) :
    filepath.Clean s
      = '/' :: strings.Join ((strings.Split s '/').foldl (filepath.cleanStep true) []).reverse
          ['/'] := by
  have hne : s ≠ [] := by
    rintro rfl
    simp [strings.HasPrefix] at h
  unfold filepath.Clean
  simp [hne, h]

theorem strings.Join_first (base : Str) (segs : List Str) (hne : base ≠ []) :
    strings.HasPrefix (strings.Join (base :: segs) ['/']) ['/'] = strings.HasPrefix base ['/']
      ∧ strings.Join (base :: segs) ['/'] ≠ [] := by
  cases base with
  | nil => exact absurd rfl hne
  | cons c b => cases segs <;> simp [strings.Join, strings.HasPrefix]

theorem filepath.Clean_unrooted (s : Str) (hne : s ≠ [])
    (h : strings.HasPrefix s ['/'] = false) :
    filepath.Clean s
      = if strings.Join ((strings.Split s '/').foldl (filepath.cleanStep false) []).reverse
            ['/'] = [] then ['.']
        else strings.Join ((strings.Split s '/').foldl (filepath.cleanStep false) []).reverse
            ['/'] := by
  unfold filepath.Clean
  simp [hne, h]

/-- Joining a base with segments that hold no `..` element gives the cleaned
base, or the cleaned base followed by a separator and more; unless the base
cleans to `.`, which a joined path does not show. -/
theorem filepath.Join_extends_base (base : Str) (segs : List Str)
    (hs : ∀ seg ∈ segs, ['.', '.'] ∉ strings.Split seg '/') :
    filepath.Clean base = ['.']
      ∨ ∃ rest, filepath.Join (base :: segs) = filepath.Clean base ++ rest
        ∧ (rest = [] ∨ rest.head? = some '/' ∨ filepath.Clean base = ['/']) := by
  by_cases hne : base = []
  · left
    subst hne
    rfl
  have hJ : filepath.Join (base :: segs) = filepath.Clean (strings.Join (base :: segs) ['/']) := by
    simp [filepath.Join, hne]
  obtain ⟨hfirst, hjne⟩ := strings.Join_first base segs hne
  have hpieces : ∀ e ∈ segs.flatMap (fun e => strings.Split e '/'), e ≠ ['.', '.'] := by
    intro e he hdd
    rw [List.mem_flatMap] at he
    obtain ⟨seg, hseg, hmem⟩ := he
    exact hs seg hseg (hdd ▸ hmem)
  cases hr : strings.HasPrefix base ['/'] with
  | true =>
    right
    rw [hJ, filepath.Clean_rooted _ (hfirst.trans hr), filepath.Clean_rooted base hr,
      strings.Split_Join _ (by simp), List.flatMap_cons, List.foldl_append]
    obtain ⟨added, ha⟩ := filepath.foldl_cleanStep_grow true _
      ((strings.Split base '/').foldl (filepath.cleanStep true) []) hpieces
    rw [ha, List.reverse_append]
    generalize (strings.Split base '/').foldl (filepath.cleanStep true) [] = stackB
    by_cases hsb : stackB = []
    · subst hsb
      exact ⟨strings.Join added.reverse ['/'], by simp [strings.Join],
        Or.inr (Or.inr (by simp [strings.Join]))⟩
    · rcases strings.Join_append stackB.reverse added.reverse (by simpa using hsb) with h1 | ⟨r, h1⟩
      · exact ⟨[], by rw [h1]; simp, Or.inl rfl⟩
      · exact ⟨'/' :: r, by rw [h1]; simp, Or.inr (Or.inl rfl)⟩
  | false =>
    rw [hJ, filepath.Clean_unrooted _ hjne (hfirst.trans hr), filepath.Clean_unrooted base hne hr,
      strings.Split_Join _ (by simp), List.flatMap_cons, List.foldl_append]
    obtain ⟨added, ha⟩ := filepath.foldl_cleanStep_grow false _
      ((strings.Split base '/').foldl (filepath.cleanStep false) []) hpieces
    rw [ha, List.reverse_append]
    generalize (strings.Split base '/').foldl (filepath.cleanStep false) [] = stackB
    by_cases hb : strings.Join stackB.reverse ['/'] = []
    · left
      simp [hb]
    · right
      have hsb : stackB.reverse ≠ [] := by
        intro h
        rw [h] at hb
        exact hb rfl
      rw [if_neg hb]
      rcases strings.Join_append stackB.reverse added.reverse hsb with h1 | ⟨r, h1⟩
      · rw [h1, if_neg hb]
        exact ⟨[], by simp, Or.inl rfl⟩
      · rw [h1]
        refine ⟨'/' :: r, ?_, Or.inr (Or.inl rfl)⟩
        rw [if_neg]
        intro h
        cases hj : strings.Join stackB.reverse ['/'] with
        | nil => exact hb hj
        | cons c t => rw [hj] at h; simp at h

/-- Joining a clean rooted base with segments that hold no `..` element gives
the base, or the base followed by a separator and more. -/
theorem filepath.Join_under_base (base : Str) (segs : List Str)
    (hr : strings.HasPrefix base ['/'] = true) (hc : filepath.Clean base = base)
    (hs : ∀ seg ∈ segs, ['.', '.'] ∉ strings.Split seg '/') :
    ∃ rest, filepath.Join (base :: segs) = base ++ rest
      ∧ (rest = [] ∨ rest.head? = some '/' ∨ base = ['/']) := by
  rcases filepath.Join_extends_base base segs hs with h | h
  · rw [hc] at h
    subst h
    simp [strings.HasPrefix] at hr
  · rw [hc] at h
    exact h

/-- Elements other than `..` are kept in order, the empty ones and `.` apart. -/
theorem filepath.foldl_cleanStep_kept (rooted : Bool) (pieces stack : List Str)
    (h : ∀ e ∈ pieces, e ≠ ['.', '.']) :
    pieces.foldl (filepath.cleanStep rooted) stack
      = (pieces.filter (fun e => decide (e ≠ [] ∧ e ≠ ['.']))).reverse ++ stack := by
  induction pieces generalizing stack with
  | nil => rfl
  | cons e rest ih =>
    have he : e ≠ ['.', '.'] := h e (List.mem_cons_self _ _)
    have hrest : ∀ x ∈ rest, x ≠ ['.', '.'] := fun x hx => h x (List.mem_cons_of_mem _ hx)
    simp only [List.foldl_cons]
    by_cases h1 : e = [] ∨ e = ['.']
    · have hstep : filepath.cleanStep rooted stack e = stack := by simp [filepath.cleanStep, h1]
      have hf : decide (e ≠ [] ∧ e ≠ ['.']) = false := by
        rcases h1 with h1 | h1 <;> simp [h1]
      rw [hstep, ih stack hrest]
      simp only [List.filter_cons, hf, Bool.false_eq_true, if_false]
    · have hstep : filepath.cleanStep rooted stack e = e :: stack := by
        simp [filepath.cleanStep, h1, he]
      have hf : decide (e ≠ [] ∧ e ≠ ['.']) = true := by
        push_neg at h1
        simp [h1]
      rw [hstep, ih (e :: stack) hrest]
      simp only [List.filter_cons, hf, if_true, List.reverse_cons, List.append_assoc,
        List.singleton_append]

/-- The joined text of a list ends with the joined text of its last elements. -/
theorem strings.Join_suffix (a b : List Str) :
    strings.Join b ['/'] <:+ strings.Join (a ++ b) ['/'] := by
  induction a with
  | nil => exact List.suffix_refl _
  | cons e es ih =>
    cases hl : es ++ b with
    | nil =>
      have hb : b = [] := (List.append_eq_nil.mp hl).2
      subst hb
      exact List.nil_suffix
    | cons x xs =>
      rw [hl] at ih
      rw [List.cons_append, hl]
      simp only [strings.Join]
      exact ih.trans (List.suffix_append _ _)

/-- A cleaned join ends with the kept elements of its last segments, when
these hold no `..` element. -/
theorem filepath.Clean_Join_suffix (pre segs : List Str) (hne : pre ++ segs ≠ [])
    (hs : ∀ seg ∈ segs, ['.', '.'] ∉ strings.Split seg '/') :
    strings.Join ((segs.flatMap (fun seg => strings.Split seg '/')).filter
        (fun e => decide (e ≠ [] ∧ e ≠ ['.']))) ['/']
      <:+ filepath.Clean (strings.Join (pre ++ segs) ['/']) := by
  have hpieces : ∀ e ∈ segs.flatMap (fun e => strings.Split e '/'), e ≠ ['.', '.'] := by
    intro e he hdd
    rw [List.mem_flatMap] at he
    obtain ⟨seg, hseg, hmem⟩ := he
    exact hs seg hseg (hdd ▸ hmem)
  have hsplit := strings.Split_Join (pre ++ segs) hne
  rw [List.flatMap_append] at hsplit
  have hbody : ∀ rooted, strings.Join ((segs.flatMap (fun seg => strings.Split seg '/')).filter
        (fun e => decide (e ≠ [] ∧ e ≠ ['.']))) ['/']
      <:+ strings.Join ((strings.Split (strings.Join (pre ++ segs) ['/']) '/').foldl
          (filepath.cleanStep rooted) []).reverse ['/'] := by
    intro rooted
    rw [hsplit, List.foldl_append, filepath.foldl_cleanStep_kept rooted _ _ hpieces,
      List.reverse_append, List.reverse_reverse]
    exact strings.Join_suffix _ _
  unfold filepath.Clean
  split
  · rename_i hnil
    have h0 := hbody false
    rw [hnil] at h0
    have : strings.Join ((segs.flatMap (fun seg => strings.Split seg '/')).filter
        (fun e => decide (e ≠ [] ∧ e ≠ ['.']))) ['/'] = [] := by
      simpa [strings.Split, strings.splitAux, filepath.cleanStep, strings.Join] using h0
    rw [this]
    exact List.nil_suffix
  · simp only
    split
    · exact (hbody _).trans (List.suffix_cons _ _)
    · split
      · rename_i hb
        have h0 := hbody (strings.HasPrefix (strings.Join (pre ++ segs) ['/']) ['/'])
        rw [hb] at h0
        rw [List.suffix_nil.mp h0]
        exact List.nil_suffix
      · exact hbody _

/-- The result of `Join` ends with the kept elements of its last segments,
joined by single separators, when these hold no `..` element. -/
theorem filepath.Join_segments_suffix (pre segs : List Str)
    (hs : ∀ seg ∈ segs, ['.', '.'] ∉ strings.Split seg '/') :
    strings.Join ((segs.flatMap (fun seg => strings.Split seg '/')).filter
        (fun e => decide (e ≠ [] ∧ e ≠ ['.']))) ['/']
      <:+ filepath.Join (pre ++ segs) := by
  induction pre with
  | nil =>
    induction segs with
    | nil => exact List.nil_suffix
    | cons e es ih =>
      simp only [List.nil_append]
      unfold filepath.Join
      split
      · rename_i he
        subst he
        have := ih (fun seg hseg => hs seg (List.mem_cons_of_mem _ hseg))
        simpa [strings.Split, strings.splitAux] using this
      · exact filepath.Clean_Join_suffix [] (e :: es) (by simp) hs
  | cons e es ih =>
    rw [List.cons_append]
    unfold filepath.Join
    split
    · exact ih
    · exact filepath.Clean_Join_suffix (e :: es) segs (by simp) hs

/-- The kept elements of segments, joined: no two separators in a row, none
at the start. -/
theorem filepath.kept_chain (segs : List Str) :
    List.Chain' (fun a b => ¬(a = '/' ∧ b = '/'))
        (strings.Join ((segs.flatMap (fun seg => strings.Split seg '/')).filter
          (fun e => decide (e ≠ [] ∧ e ≠ ['.']))) ['/'])
      ∧ (strings.Join ((segs.flatMap (fun seg => strings.Split seg '/')).filter
          (fun e => decide (e ≠ [] ∧ e ≠ ['.']))) ['/']).head? ≠ some '/' := by
  apply strings.Join_chain
  intro e he
  rw [List.mem_filter, List.mem_flatMap] at he
  obtain ⟨⟨seg, -, hmem⟩, hk⟩ := he
  refine ⟨(of_decide_eq_true hk).1, ?_⟩
  exact strings.splitAux_no_sep '/' seg [] (by simp) e hmem

/-- C19, as stated, fails: on a driver whose `Path()` is `/assets`, the segment
`../etc/passwd` gives `/etc/passwd`, which does not have `/assets` as a prefix. -/
theorem fs_NormalizePath_leaves_base :
    Example.assetsDriver.Path = "/assets".toList
    ∧ Example.assetsDriver.NormalizePath ["../etc/passwd".toList] = "/etc/passwd".toList
    ∧ strings.HasPrefix "/etc/passwd".toList Example.assetsDriver.Path = false := by
  refine ⟨by rfl, by rfl, by rfl⟩

/-- C19, amended: in every driver `NormalizePath(segments...)` is the driver's
`Path()` joined with the segments, by `filepath.Join` in the filesystem driver
and by `path.Join` in the object-store drivers. When no segment has a `..`
element, the result of every driver ends with the elements of the segments
(the empty ones and `.` apart) in order, joined by single separators: text
that has no two separators in a row and does not start with one. In the
filesystem driver the whole result has no two separators in a row, and when
no segment has a `..` element it is the cleaned `Path()` itself or the
cleaned `Path()` followed by a separator and further elements (the elements
follow directly when `Path()` cleans to `/`, and the base does not show when
it cleans to `.`); so where `Path()` is a clean rooted path, as `/assets`,
the result has `Path()` as a prefix: `/assets/path/to/file` for
`path/to/file`. -/
theorem NormalizePath_joins :
    (∀ (drv : fs.Filesystem) (segs : List Str),
      drv.NormalizePath segs = filepath.Join (drv.Path :: segs))
    ∧ (∀ (σ : Type) (s : awss3.S3Storage σ) (segs : List Str),
      s.NormalizePath segs = pathpkg.Join (s.Path :: segs))
    ∧ (∀ (σ : Type) (d : dospace.DOSpace σ) (segs : List Str),
      d.NormalizePath segs = pathpkg.Join (d.Path :: segs))
    ∧ (∀ (drv : fs.Filesystem) (segs : List Str),
      (∀ seg ∈ segs, ['.', '.'] ∉ strings.Split seg '/') →
      strings.Join ((segs.flatMap (fun seg => strings.Split seg '/')).filter
          (fun e => decide (e ≠ [] ∧ e ≠ ['.']))) ['/'] <:+ drv.NormalizePath segs)
    ∧ (∀ (σ : Type) (s : awss3.S3Storage σ) (segs : List Str),
      (∀ seg ∈ segs, ['.', '.'] ∉ strings.Split seg '/') →
      strings.Join ((segs.flatMap (fun seg => strings.Split seg '/')).filter
          (fun e => decide (e ≠ [] ∧ e ≠ ['.']))) ['/'] <:+ s.NormalizePath segs)
    ∧ (∀ (σ : Type) (d : dospace.DOSpace σ) (segs : List Str),
      (∀ seg ∈ segs, ['.', '.'] ∉ strings.Split seg '/') →
      strings.Join ((segs.flatMap (fun seg => strings.Split seg '/')).filter
          (fun e => decide (e ≠ [] ∧ e ≠ ['.']))) ['/'] <:+ d.NormalizePath segs)
    ∧ (∀ segs : List Str,
      List.Chain' (fun a b => ¬(a = '/' ∧ b = '/'))
          (strings.Join ((segs.flatMap (fun seg => strings.Split seg '/')).filter
            (fun e => decide (e ≠ [] ∧ e ≠ ['.']))) ['/'])
        ∧ (strings.Join ((segs.flatMap (fun seg => strings.Split seg '/')).filter
            (fun e => decide (e ≠ [] ∧ e ≠ ['.']))) ['/']).head? ≠ some '/')
    ∧ (∀ (drv : fs.Filesystem) (segs : List Str),
      List.Chain' (fun a b => ¬(a = '/' ∧ b = '/')) (drv.NormalizePath segs))
    ∧ (∀ (drv : fs.Filesystem) (segs : List Str),
      (∀ seg ∈ segs, ['.', '.'] ∉ strings.Split seg '/') →
      filepath.Clean drv.Path = ['.']
        ∨ ∃ rest, drv.NormalizePath segs = filepath.Clean drv.Path ++ rest
          ∧ (rest = [] ∨ rest.head? = some '/' ∨ filepath.Clean drv.Path = ['/']))
    ∧ (∀ (drv : fs.Filesystem) (segs : List Str),
      strings.HasPrefix drv.Path ['/'] = true → filepath.Clean drv.Path = drv.Path →
      (∀ seg ∈ segs, ['.', '.'] ∉ strings.Split seg '/') →
      ∃ rest, drv.NormalizePath segs = drv.Path ++ rest
        ∧ (rest = [] ∨ rest.head? = some '/' ∨ drv.Path = ['/']))
    ∧ Example.assetsDriver.NormalizePath ["path/to/file".toList]
        = "/assets/path/to/file".toList := by
  refine ⟨fun _ _ => rfl, fun _ _ _ => rfl, fun _ _ _ => rfl, fun drv segs hs => ?_,
    fun σ s segs hs => ?_, fun σ d segs hs => ?_, filepath.kept_chain, fun drv segs => ?_,
    fun drv segs hs => ?_, fun drv segs hr hc hs => ?_, by rfl⟩
  · exact filepath.Join_segments_suffix [drv.path] segs hs
  · exact filepath.Join_segments_suffix [s.Path] segs hs
  · exact filepath.Join_segments_suffix [d.Path] segs hs
  · exact filepath.Join_elems_chain _
  · exact filepath.Join_extends_base drv.path segs hs
  · exact filepath.Join_under_base drv.path segs hr hc hs

/-- The example of the `Driver` interface, `/assets` joined with a segment
that has a doubled separator and a `.` element; and the same segment on the
two object-store example drivers, whose results end with `path/to/file`. -/
theorem NormalizePath_joins_witness :
    (∃ rest, Example.assetsDriver.NormalizePath ["path//to/./file".toList]
        = Example.assetsDriver.Path ++ rest
      ∧ (rest = [] ∨ rest.head? = some '/' ∨ Example.assetsDriver.Path = ['/']))
    ∧ Example.assetsDriver.NormalizePath ["path//to/./file".toList]
        = "/assets/path/to/file".toList
    ∧ "path/to/file".toList <:+ Example.assetsDriver.NormalizePath ["path//to/./file".toList]
    ∧ "path/to/file".toList <:+ Example.s3Driver.NormalizePath ["path//to/./file".toList]
    ∧ "path/to/file".toList <:+ Example.doDriver.NormalizePath ["path//to/./file".toList] :=
  ⟨NormalizePath_joins.2.2.2.2.2.2.2.2.2.1 Example.assetsDriver ["path//to/./file".toList]
      rfl rfl (by decide), rfl,
   NormalizePath_joins.2.2.2.1 Example.assetsDriver ["path//to/./file".toList] (by decide),
   NormalizePath_joins.2.2.2.2.1 _ Example.s3Driver ["path//to/./file".toList] (by decide),
   NormalizePath_joins.2.2.2.2.2.1 _ Example.doDriver ["path//to/./file".toList] (by decide)⟩

end GoStorage
